import Mathlib

/-!
Verification development for the SU2 configuration parsing, validation and
auto-fix engine (files `core/config_validator.py`, `core/json_validation.py`,
`core/su2_io.py` of the su2gui repository).

Modelling conventions of the shallow embedding:

* A Python string is modelled as a `List Char` (`PStr`); Python string
  operations (`strip`, `upper`, `lower`, `startswith`, ...) are re-implemented
  on character lists.  Case mapping is modelled on the ASCII range, which
  covers every token the engine compares against.
* A parsed configuration value (the JSON-like values the validator works on)
  is the inductive `CValue`: Python `None`, `bool`, `int`, `float`, `str` and
  `list`.  Python floats are modelled by the rational numbers they denote;
  `str(float)` is modelled as exact shortest decimal printing, mirroring
  Python's round-tripping float repr.
* A configuration document (a Python `dict` from parameter name to value) is
  an association list `Doc`; `dget`/`dset`/`dpop`/`dcontains` model
  `d.get`, `d[k] = v`, `d.pop(k)` and `k in d`.  On well-formed documents
  (no duplicate keys, which is forced for real Python dicts) these agree with
  dict semantics.
* Python exceptions are modelled with `Except String`.
-/

/-- A Python string: a list of characters. -/
abbrev PStr := List Char

/-- Literal helper turning a Lean string literal into the `List Char` model. -/
def lit (s : String) : PStr := s.data

/-- Model of Python `str.strip` whitespace test (space, tab, newline,
carriage return, vertical tab, form feed). -/
def pyWs (c : Char) : Bool :=
  c = ' ' || c = '\t' || c = '\n' || c = '\r' ||
  c = Char.ofNat 11 || c = Char.ofNat 12

/-- Model of Python `str.strip`. -/
def pyStrip (s : PStr) : PStr :=
  ((s.dropWhile pyWs).reverse.dropWhile pyWs).reverse

/-- ASCII upper-casing of one character (model of Python `str.upper`). -/
def upChar (c : Char) : Char :=
  if 'a' ≤ c && c ≤ 'z' then Char.ofNat (c.toNat - 32) else c

/-- ASCII lower-casing of one character (model of Python `str.lower`). -/
def lowChar (c : Char) : Char :=
  if 'A' ≤ c && c ≤ 'Z' then Char.ofNat (c.toNat + 32) else c

/-- Model of Python `str.upper` (ASCII range). -/
def pyUpper (s : PStr) : PStr := s.map upChar

/-- Model of Python `str.lower` (ASCII range). -/
def pyLower (s : PStr) : PStr := s.map lowChar

/-- Model of Python `str.startswith`. -/
def pyStarts (pre s : PStr) : Bool :=
  match pre, s with
  | [], _ => true
  | _ :: _, [] => false
  | p :: ps, c :: cs => p = c && pyStarts ps cs

/-- Model of Python `str.endswith`. -/
def pyEnds (suf s : PStr) : Bool := pyStarts suf.reverse s.reverse

/-- Model of Python `c in s` for a character. -/
def pyHas (s : PStr) (c : Char) : Bool := s.any (· = c)

/-- A Python value as handled by the validator: `None`, booleans, integers,
floats (modelled as the rational number denoted), strings and lists. -/
inductive CValue where
  | none : CValue
  | bool : Bool → CValue
  | int : Int → CValue
  | float : ℚ → CValue
  | str : PStr → CValue
  | list : List CValue → CValue
deriving Inhabited

/-- Numeric denotation used by Python `==` across `bool`, `int`, `float`. -/
def numDenote : CValue → Option ℚ
  | .bool b => some (if b then 1 else 0)
  | .int n => some (n : ℚ)
  | .float q => some q
  | _ => Option.none

mutual
/-- Model of Python `==` on values (numeric types compare by value;
`None` equals only `None`; strings and lists compare structurally). -/
def pyEq : CValue → CValue → Bool
  | .none, .none => true
  | .str a, .str b => a = b
  | .list a, .list b => pyEqList a b
  | a, b =>
    match numDenote a, numDenote b with
    | some x, some y => x = y
    | _, _ => false

/-- Pointwise Python `==` on lists. -/
def pyEqList : List CValue → List CValue → Bool
  | [], [] => true
  | a :: as, b :: bs => pyEq a b && pyEqList as bs
  | _, _ => false
end

/-- Model of Python `x in l` membership for a list of values. -/
def pyMem (v : CValue) (l : List CValue) : Bool := l.any (pyEq v)

/-- Model of Python truthiness `bool(v)`. -/
def pyTruthy : CValue → Bool
  | .none => false
  | .bool b => b
  | .int n => n != 0
  | .float q => q != 0
  | .str s => !s.isEmpty
  | .list l => !l.isEmpty

/-- A configuration document: ordered association list from parameter name
to value, modelling the Python dict produced by the cfg/JSON loaders. -/
abbrev Doc := List (PStr × CValue)

/-- Model of `d.get(k)` returning `Option` for absence. -/
def dget : Doc → PStr → Option CValue
  | [], _ => Option.none
  | (k', v) :: t, k => if k' = k then some v else dget t k

/-- Model of `k in d` (key presence). -/
def dcontains (d : Doc) (k : PStr) : Bool := (dget d k).isSome

/-- Model of `d.get(k, default)`; Python `None` results are `CValue.none`,
so `d.get(k)` with no default is `dgetD d k CValue.none`. -/
def dgetD (d : Doc) (k : PStr) (v : CValue) : CValue := (dget d k).getD v

/-- Replace every binding of `k` by `v`, keeping positions. -/
def dsetRep : Doc → PStr → CValue → Doc
  | [], _, _ => []
  | (k', v') :: t, k, v =>
    if k' = k then (k, v) :: dsetRep t k v else (k', v') :: dsetRep t k v

/-- Model of `d[k] = v`: replace the binding if the key is present
(keeping its position), else append.  On duplicate-free association lists
(the only ones a Python dict can denote) this is exactly dict assignment. -/
def dset (d : Doc) (k : PStr) (v : CValue) : Doc :=
  if dcontains d k then dsetRep d k v else d ++ [(k, v)]

/-- Model of `d.pop(k, None)`: remove the binding(s) for `k`. -/
def dpop : Doc → PStr → Doc
  | [], _ => []
  | (k', v') :: t, k => if k' = k then dpop t k else (k', v') :: dpop t k

theorem dget_dsetRep_self (d : Doc) (k : PStr) (v : CValue)
    (h : dcontains d k = true) : dget (dsetRep d k v) k = some v := by
  induction d with
  | nil => simp [dcontains, dget] at h
  | cons p t ih =>
    obtain ⟨k', v'⟩ := p
    by_cases hp : k' = k
    · subst hp
      simp [dsetRep, dget]
    · simp only [dcontains, dget, if_neg hp] at h
      simp only [dsetRep, if_neg hp, dget]
      exact ih h

theorem dget_dset_self (d : Doc) (k : PStr) (v : CValue) :
    dget (dset d k v) k = some v := by
  unfold dset
  by_cases h : dcontains d k = true
  · rw [if_pos h]; exact dget_dsetRep_self d k v h
  · rw [if_neg h]
    induction d with
    | nil => simp [dget]
    | cons p t ih =>
      obtain ⟨k', v'⟩ := p
      by_cases hp : k' = k
      · exact absurd (by simp [dcontains, dget, hp]) h
      · simp only [List.cons_append, dget, if_neg hp]
        exact ih (by simpa [dcontains, dget, if_neg hp] using h)

theorem dget_dsetRep_other (d : Doc) (k k' : PStr) (v : CValue) (h : k' ≠ k) :
    dget (dsetRep d k v) k' = dget d k' := by
  induction d with
  | nil => simp [dsetRep]
  | cons p t ih =>
    obtain ⟨ka, va⟩ := p
    by_cases hp : ka = k
    · subst hp
      have hk : ¬ (ka = k') := fun hh => h hh.symm
      simp only [dsetRep, if_pos rfl, dget, if_neg hk]
      exact ih
    · simp only [dsetRep, if_neg hp, dget]
      by_cases hq : ka = k'
      · simp [hq]
      · simp only [if_neg hq]
        exact ih

theorem dget_dset_other (d : Doc) (k k' : PStr) (v : CValue) (h : k' ≠ k) :
    dget (dset d k v) k' = dget d k' := by
  unfold dset
  by_cases hc : dcontains d k = true
  · rw [if_pos hc]; exact dget_dsetRep_other d k k' v h
  · rw [if_neg hc]
    induction d with
    | nil =>
      have hk : ¬ (k = k') := fun hh => h hh.symm
      simp [dget, hk]
    | cons p t ih =>
      obtain ⟨ka, va⟩ := p
      simp only [List.cons_append, dget]
      by_cases hq : ka = k'
      · simp [hq]
      · simp only [if_neg hq]
        by_cases hp : ka = k
        · exact absurd (by simp [dcontains, dget, hp]) hc
        · exact ih (by simpa [dcontains, dget, if_neg hp] using hc)

theorem dget_dpop_self (d : Doc) (k : PStr) : dget (dpop d k) k = Option.none := by
  induction d with
  | nil => simp [dpop, dget]
  | cons p t ih =>
    obtain ⟨ka, va⟩ := p
    by_cases hp : ka = k
    · simpa [dpop, hp] using ih
    · simpa [dpop, hp, dget] using ih

theorem dget_dpop_other (d : Doc) (k k' : PStr) (h : k' ≠ k) :
    dget (dpop d k) k' = dget d k' := by
  induction d with
  | nil => simp [dpop]
  | cons p t ih =>
    obtain ⟨ka, va⟩ := p
    by_cases hp : ka = k
    · subst hp
      have hk : ¬ (ka = k') := fun hh => h hh.symm
      simp [dpop, dget, hk, ih]
    · by_cases hq : ka = k'
      · subst hq
        simp [dpop, hp, dget]
      · simp [dpop, hp, dget, hq, ih]

/-! ### Decimal digits, Python `int()` / `float()` token acceptance, and
Python numeric `str()` printing. -/

/-- The ASCII digit character for `d` (used for `0 ≤ d < 10`). -/
def digitChar (d : Nat) : Char := Char.ofNat (48 + d)

/-- Numeric value of an ASCII digit character. -/
def charDigit (c : Char) : Nat := c.toNat - 48

/-- Big-endian decimal digit characters of a natural number. -/
def natChars (n : Nat) : List Char :=
  if h : n < 10 then [digitChar n]
  else natChars (n / 10) ++ [digitChar (n % 10)]
termination_by n
decreasing_by
  exact Nat.div_lt_self (by omega) (by omega)

/-- Value of a big-endian list of ASCII digit characters. -/
def charsToNat (l : List Char) : Nat :=
  l.foldl (fun a c => a * 10 + charDigit c) 0

/-- Model of Python `str(int)`. -/
def intStr (n : Int) : List Char :=
  if n < 0 then '-' :: natChars n.natAbs else natChars n.natAbs

/-- Consume one optional sign character, returning the rest and the sign. -/
def pySign : List Char → List Char × Int
  | [] => ([], 1)
  | c :: r =>
    if c = '+' then (r, 1)
    else if c = '-' then (r, -1)
    else (c :: r, 1)

/-- Characters allowed inside a Python numeric digit group: ASCII digits
and the underscore separator. -/
def grpChar (c : Char) : Bool := c.isDigit || c = '_'

/-- Split off the maximal digit-or-underscore prefix (the candidate digit
group) from the rest. -/
def grpChars (l : List Char) : List Char × List Char :=
  (l.takeWhile grpChar, l.dropWhile grpChar)

/-- No two adjacent underscores. -/
def noDoubleUS : List Char → Bool
  | c1 :: c2 :: r => !(c1 = '_' && c2 = '_') && noDoubleUS (c2 :: r)
  | _ => true

/-- Validity of a Python digit group `d(_?d)*`: non-empty, underscores
single and strictly between digits. -/
def grpValid (l : List Char) : Bool :=
  !l.isEmpty && !(pyStarts (lit "_") l) && !(pyEnds (lit "_") l) && noDoubleUS l

/-- The digits of a group with the underscore separators removed. -/
def grpDigits (l : List Char) : List Char := l.filter (fun c => ¬ c = '_')

/-- Model of Python `int(token)` on a stripped token: optional sign then a
valid digit group (ASCII digits; this is the grammar `int()` accepts). -/
def pyIntOfChars? (s : List Char) : Option Int :=
  let p := pySign s
  let g := grpChars p.1
  if grpValid g.1 && g.2.isEmpty then
    some (p.2 * (charsToNat (grpDigits g.1) : Int))
  else Option.none

/-- Trailing exponent part of a Python float token: empty, or
`(e|E)[+-]?group`.  Returns the exponent. -/
def expPart? : List Char → Option Int
  | [] => some 0
  | c :: r =>
    if c = 'e' || c = 'E' then
      let p := pySign r
      let g := grpChars p.1
      if grpValid g.1 && g.2.isEmpty then
        some (p.2 * (charsToNat (grpDigits g.1) : Int))
      else Option.none
    else Option.none

/-- Model of Python `float(token)` on a stripped token, as the exact
rational denoted (finite decimal semantics; the `inf`/`nan` spellings are
not representable here and are unreachable from the value parsers). -/
def pyFloatOfChars? (s : List Char) : Option ℚ :=
  let p := pySign s
  let sg : ℚ := (p.2 : ℚ)
  let gi := grpChars p.1
  match gi.2 with
  | '.' :: r2 =>
    let gf := grpChars r2
    let ipOk := gi.1.isEmpty || grpValid gi.1
    let fpOk := gf.1.isEmpty || grpValid gf.1
    if ipOk && fpOk && !(gi.1.isEmpty && gf.1.isEmpty) then
      match expPart? gf.2 with
      | some e =>
        some (sg * ((charsToNat (grpDigits (gi.1 ++ gf.1)) : ℚ) /
          (10 : ℚ) ^ (grpDigits gf.1).length) * (10 : ℚ) ^ e)
      | Option.none => Option.none
    else Option.none
  | r1 =>
    if grpValid gi.1 then
      match expPart? r1 with
      | some e => some (sg * (charsToNat (grpDigits gi.1) : ℚ) * (10 : ℚ) ^ e)
      | Option.none => Option.none
    else Option.none

/-- Multiplicity of `p` in `n` (`0` when `n = 0` or `p < 2`). -/
def pFactor (p n : Nat) : Nat :=
  if h : 2 ≤ p ∧ n ≠ 0 ∧ n % p = 0 then pFactor p (n / p) + 1 else 0
termination_by n
decreasing_by
  exact Nat.div_lt_self (by omega) (by omega)

/-- Model of Python `str(float)` on the rationals denoted by floats: exact
shortest decimal printing (mirroring the round-tripping float repr), with a
fraction part of `0` for integral values.  Rationals that are not finite
decimals are unreachable from the engine's float values. -/
def pyFloatStr (q : ℚ) : List Char :=
  let d := q.den
  let a := pFactor 2 d
  let b := pFactor 5 d
  if 2 ^ a * 5 ^ b = d then
    let e := max a b
    let scaled : Nat := q.num.natAbs * (2 ^ (e - a) * 5 ^ (e - b))
    let digs0 := natChars scaled
    let digs :=
      if digs0.length ≤ e then List.replicate (e + 1 - digs0.length) '0' ++ digs0
      else digs0
    let ipart := digs.take (digs.length - e)
    let fpart := digs.drop (digs.length - e)
    let core := if e = 0 then ipart ++ ('.' :: ['0']) else ipart ++ ('.' :: fpart)
    if q.num < 0 then '-' :: core else core
  else
    intStr q.num ++ ('/' :: natChars q.den)

/-! ### Value parsers.

`parse_single_value`, `split_respecting_parentheses` and
`parse_config_value` embed `core/config_validator.py`;
`parse_value` and `parse_su2_list` embed `core/json_validation.py`.
-/

/-- The double-quote character. -/
def quoteD : Char := Char.ofNat 34

/-- The single-quote character. -/
def quoteS : Char := Char.ofNat 39

/-- Embedding of `SU2ConfigValidator.parse_single_value` (string-argument
case; a non-string argument is returned unchanged by the source and never
arises from the document parsers). -/
def parse_single_value (s : PStr) : CValue :=
  let v := pyStrip s
  if v.isEmpty then .str []
  else if pyUpper v = lit "YES" ∨ pyUpper v = lit "TRUE" ∨ pyUpper v = lit "ON" then
    .bool true
  else if pyUpper v = lit "NO" ∨ pyUpper v = lit "FALSE" ∨ pyUpper v = lit "OFF" then
    .bool false
  else
    let numeric : Option CValue :=
      if !(pyHas v '.') && !(pyHas (pyLower v) 'e') && !(pyHas v 'E') then
        (pyIntOfChars? v).map .int
      else
        (pyFloatOfChars? v).map .float
    match numeric with
    | some c => c
    | Option.none =>
      if (pyStarts [quoteD] v && pyEnds [quoteD] v) ||
         (pyStarts [quoteS] v && pyEnds [quoteS] v) then
        .str ((v.drop 1).dropLast)
      else .str v

/-- Character loop of `SU2ConfigValidator.split_respecting_parentheses`. -/
def sprLoop : List Char → Int → List Char → List PStr → List PStr
  | [], _, cur, acc =>
    if cur.isEmpty then acc.reverse else (cur.reverse :: acc).reverse
  | c :: r, depth, cur, acc =>
    if c = '(' then sprLoop r (depth + 1) (c :: cur) acc
    else if c = ')' then sprLoop r (depth - 1) (c :: cur) acc
    else if c = ',' ∧ depth = 0 then sprLoop r depth [] (cur.reverse :: acc)
    else sprLoop r depth (c :: cur) acc

/-- Embedding of `SU2ConfigValidator.split_respecting_parentheses`. -/
def split_respecting_parentheses (text : PStr) : List PStr :=
  sprLoop text 0 [] []

/-- Embedding of `SU2ConfigValidator.parse_config_value` (string-argument
case). -/
def parse_config_value (s : PStr) : CValue :=
  let v := pyStrip s
  if pyStarts (lit "(") v && pyEnds (lit ")") v then
    let inner := pyStrip ((v.drop 1).dropLast)
    if inner.isEmpty then .list []
    else
      .list ((split_respecting_parentheses inner).map
        (fun e => parse_single_value (pyStrip e)))
  else parse_single_value v

/-- Character loop of `json_validation.parse_su2_list`: split on commas
outside quotes and parentheses (over `inner + ","`); the final `current`
remainder is discarded, matching the source loop. -/
def su2SplitLoop : List Char → Bool → Int → List Char → List PStr → List PStr
  | [], _, _, _, acc => acc.reverse
  | c :: r, inq, depth, cur, acc =>
    let inq' := if c = quoteD ∨ c = quoteS then !inq else inq
    let depth' :=
      if c = quoteD ∨ c = quoteS then depth
      else if c = '(' then depth + 1
      else if c = ')' then depth - 1
      else depth
    if c = ',' ∧ inq' = false ∧ depth' = 0 then
      let st := pyStrip cur.reverse
      if st.isEmpty then su2SplitLoop r inq' depth' [] acc
      else su2SplitLoop r inq' depth' [] (st :: acc)
    else
      if ¬ c = ',' ∨ inq' = true ∨ depth' > 0 then
        su2SplitLoop r inq' depth' (c :: cur) acc
      else su2SplitLoop r inq' depth' cur acc

/-- Regular expression `[+-]?[0-9]*\.?[0-9]+([eE][+-]?[0-9]+)?` used by
`json_validation.parse_value` — trailing exponent test. -/
def expOk : List Char → Bool
  | [] => true
  | c :: r =>
    (c = 'e' || c = 'E') &&
      (let p := pySign r
       let sp := p.1.span (·.isDigit)
       !sp.1.isEmpty && sp.2.isEmpty)

/-- Full-match test of the numeric regular expression
`^[+-]?[0-9]*\.?[0-9]+([eE][+-]?[0-9]+)?$` appearing in
`json_validation.parse_value`. -/
def codeRegexMatch (s : List Char) : Bool :=
  let r := (pySign s).1
  let sp := r.span (·.isDigit)
  if sp.2.head? = some '.' then
    let sp2 := (sp.2.drop 1).span (·.isDigit)
    !sp2.1.isEmpty && expOk sp2.2
  else !sp.1.isEmpty && expOk sp.2

mutual
/-- Embedding of `json_validation.parse_value`, with recursion fuel for the
mutual recursion through `parse_su2_list` (the fuel is adequate whenever it
exceeds the token length, see `parse_value`). -/
def parse_value_fuel : Nat → PStr → CValue
  | 0, s => .str (pyStrip s)
  | fuel + 1, s =>
    let v := pyStrip s
    if v.isEmpty then .str []
    else if pyUpper v = lit "YES" ∨ pyUpper v = lit "TRUE" then .bool true
    else if pyUpper v = lit "NO" ∨ pyUpper v = lit "FALSE" then .bool false
    else if pyStarts (lit "(") v && pyEnds (lit ")") v then
      .list (parse_su2_list_fuel fuel v)
    else if codeRegexMatch v then
      let numeric : Option CValue :=
        if pyHas v '.' || pyHas (pyLower v) 'e' then
          (pyFloatOfChars? v).map .float
        else (pyIntOfChars? v).map .int
      match numeric with
      | some c => c
      | Option.none => .str v
    else .str v

/-- Embedding of `json_validation.parse_su2_list` (fuelled). -/
def parse_su2_list_fuel : Nat → PStr → List CValue
  | 0, _ => []
  | fuel + 1, s =>
    let inner := pyStrip (((pyStrip s).drop 1).dropLast)
    if inner.isEmpty then []
    else
      let elements := su2SplitLoop (inner ++ [',']) false 0 [] []
      elements.map (fun elem0 =>
        let elem := pyStrip elem0
        if pyStarts (lit "(") elem && pyEnds (lit ")") elem then
          .list (parse_su2_list_fuel fuel elem)
        else parse_value_fuel fuel elem)
end

/-- Embedding of `json_validation.parse_value` with adequate fuel. -/
def parse_value (s : PStr) : CValue := parse_value_fuel (s.length + 1) s

/-! ### Python `str()`/`repr()` of values (used in diagnostic messages). -/

mutual
/-- Model of Python `repr` on values (string escaping inside quotes is not
reproduced; no diagnostic in the engine depends on it). -/
def pyRepr : CValue → PStr
  | .none => lit "None"
  | .bool b => if b then lit "True" else lit "False"
  | .int n => intStr n
  | .float q => pyFloatStr q
  | .str s => quoteS :: (s ++ [quoteS])
  | .list l => lit "[" ++ pyReprJoin l ++ lit "]"

/-- Comma-join of `repr`s, as inside Python's list `repr`. -/
def pyReprJoin : List CValue → PStr
  | [] => []
  | [a] => pyRepr a
  | a :: r => pyRepr a ++ lit ", " ++ pyReprJoin r
end

/-- Model of Python `str` on values. -/
def pyStr : CValue → PStr
  | .none => lit "None"
  | .bool b => if b then lit "True" else lit "False"
  | .int n => intStr n
  | .float q => pyFloatStr q
  | .str s => s
  | .list l => lit "[" ++ pyReprJoin l ++ lit "]"

/-- Python type name of a value (used in `TypeError` messages). -/
def pyTypeName : CValue → PStr
  | .none => lit "NoneType"
  | .bool _ => lit "bool"
  | .int _ => lit "int"
  | .float _ => lit "float"
  | .str _ => lit "str"
  | .list _ => lit "list"

/-- Model of Python `len(v)`: defined on strings and lists, `TypeError`
otherwise. -/
def pyLen : CValue → Except PStr Nat
  | .str s => .ok s.length
  | .list l => .ok l.length
  | v =>
    .error (lit "object of type " ++ (quoteS :: (pyTypeName v ++ [quoteS])) ++
      lit " has no len()")

/-- Model of Python `list(v)`: identity on lists, characters of a string,
`TypeError` otherwise. -/
def pyListCoerce : CValue → Except PStr (List CValue)
  | .list l => .ok l
  | .str s => .ok (s.map (fun c => .str [c]))
  | v =>
    .error ((quoteS :: (pyTypeName v ++ [quoteS])) ++
      lit " object is not iterable")

/-! ### Validation issues, fix records, and the semantic rule engine
(`core/config_validator.py`). -/

/-- A validation issue dictionary: `path`, `message`, the `type` tag, and
the remaining diagnostic fields as a key-value list. -/
structure VIssue where
  path : List PStr
  message : PStr
  type : PStr
  extra : List (PStr × CValue)

/-- An applied-fix record: `path` and `message`, as built by
`apply_auto_fixes`. -/
structure FixRec where
  path : List PStr
  message : PStr

/-- Embedding of `SU2ConfigValidator._count_markers_in_list`. -/
def count_markers_in_list : CValue → Nat
  | .list l =>
    l.foldl
      (fun c el =>
        match el with
        | .str _ => c + 1
        | .list el2 =>
          match el2 with
          | (.str _) :: _ => c + 1
          | _ => c
        | _ => c) 0
  | _ => 0

/-- The `INC_INLET_TYPE` normalization (`[types]` when a string, the list
itself when a list, `[]` otherwise) shared by `validate_inlet_consistency`
and the inlet pass of `apply_auto_fixes`. -/
def incTypesList : CValue → List CValue
  | .str s => [.str s]
  | .list l => l
  | _ => []

/-- The `inc_energy_norm` normalization (`upper in [YES,TRUE,ON]` for
strings, `None` for `None`, `bool(v)` otherwise) shared by
`validate_solver_consistency` and the INC_EULER pass of
`apply_auto_fixes`. -/
def pyBoolNorm (inc_energy : CValue) : Option Bool :=
  match inc_energy with
  | .str s =>
    some (decide (pyUpper s = lit "YES" ∨ pyUpper s = lit "TRUE" ∨
      pyUpper s = lit "ON"))
  | .none => Option.none
  | v => some (pyTruthy v)

/-- Embedding of `SU2ConfigValidator.validate_inlet_consistency`. -/
def validate_inlet_consistency (d : Doc) : List VIssue :=
  let solver := dgetD d (lit "SOLVER") (.str [])
  let marker_inlet := dgetD d (lit "MARKER_INLET") (.list [])
  let inc0 := dgetD d (lit "INC_INLET_TYPE") (.list [])
  let inc : List CValue := incTypesList inc0
  let inlet_count :=
    match marker_inlet with
    | .list _ => count_markers_in_list marker_inlet
    | _ => 0
  if pyMem solver [.str (lit "INC_EULER"), .str (lit "INC_NAVIER_STOKES"),
      .str (lit "INC_RANS")] && inlet_count != 0 then
    if inc.length != inlet_count then
      [{ path := [lit "INC_INLET_TYPE"],
         message := lit "INC_INLET_TYPE must have exactly " ++
           natChars inlet_count ++
           lit " entries to match MARKER_INLET count, but found " ++
           natChars inc.length,
         type := lit "inlet_count_mismatch",
         extra := [(lit "expected_count", .int inlet_count),
                   (lit "actual_count", .int inc.length)] }]
    else []
  else []

/-- Embedding of `SU2ConfigValidator.validate_solver_consistency`. -/
def validate_solver_consistency (d : Doc) : List VIssue :=
  let solver := dgetD d (lit "SOLVER") (.str [])
  if pyEq solver (.str (lit "INC_EULER")) then
    let density_model := dgetD d (lit "INC_DENSITY_MODEL") (.str [])
    let inc_energy :=
      dgetD d (lit "INC_ENERGY_EQUATION") (dgetD d (lit "ENERGY_EQUATION") .none)
    let inc_energy_norm : Option Bool := pyBoolNorm inc_energy
    if ¬ pyEq density_model (.str (lit "CONSTANT")) ∨ inc_energy_norm ≠ some false then
      [{ path := [lit "SOLVER"],
         message := lit "INC_EULER requires INC_DENSITY_MODEL=CONSTANT and INC_ENERGY_EQUATION=NO",
         type := lit "inc_euler_consistency",
         extra := [(lit "current_density_model", density_model),
                   (lit "current_inc_energy_equation", inc_energy)] }]
    else []
  else []

/-- Embedding of `SU2ConfigValidator.validate_turbulence_dependencies`. -/
def validate_turbulence_dependencies (d : Doc) : List VIssue :=
  let solver := dgetD d (lit "SOLVER") (.str [])
  let turb_model := dgetD d (lit "KIND_TURB_MODEL") (.str (lit "NONE"))
  let trans_model := dgetD d (lit "KIND_TRANS_MODEL") (.str (lit "NONE"))
  let errs1 :=
    if pyMem solver [.str (lit "RANS"), .str (lit "INC_RANS")] &&
        pyMem turb_model [.str (lit "NONE"), .str (lit "NO_TURB_MODEL"), .none, .str []] then
      [{ path := [lit "KIND_TURB_MODEL"],
         message := pyStr solver ++
           lit " requires an active turbulence model (e.g., SA or SST), but KIND_TURB_MODEL is " ++
           pyStr turb_model,
         type := lit "rans_requires_turbulence",
         extra := [(lit "solver", solver), (lit "turbulence_model", turb_model)] }]
    else []
  let errs2 :=
    if !(pyMem trans_model [.str (lit "NONE"), .str (lit "NO_TRANS_MODEL")]) &&
        pyMem turb_model [.str (lit "NONE"), .str (lit "NO_TURB_MODEL")] then
      [{ path := [lit "KIND_TRANS_MODEL"],
         message := lit "Transition model " ++ pyStr trans_model ++
           lit " requires an active turbulence model, but KIND_TURB_MODEL is " ++
           pyStr turb_model,
         type := lit "transition_requires_turbulence",
         extra := [(lit "transition_model", trans_model),
                   (lit "turbulence_model", turb_model)] }]
    else []
  let axiIsTrue : Bool :=
    match dgetD d (lit "AXISYMMETRIC") .none with
    | .bool true => true
    | _ => false
  let errs3 :=
    if pyEq trans_model (.str (lit "LM")) &&
        (pyEq (dgetD d (lit "AXISYMMETRIC") (.str (lit "NO"))) (.str (lit "YES")) ||
          axiIsTrue) then
      [{ path := [lit "KIND_TRANS_MODEL"],
         message := lit "LM transition model is not compatible with axisymmetric flows",
         type := lit "lm_axisymmetric_incompatible",
         extra := [] }]
    else []
  errs1 ++ errs2 ++ errs3

/-- The thermal-wall marker keys checked by
`validate_marker_compatibility`. -/
def heatMarkerKeysAll : List PStr :=
  [lit "MARKER_HEATFLUX", lit "MARKER_ISOTHERMAL", lit "MARKER_HEATTRANSFER",
   lit "MARKER_SMOLUCHOWSKI_MAXWELL", lit "MARKER_CHT_INTERFACE"]

/-- Embedding of `SU2ConfigValidator.validate_marker_compatibility`
(`len(markers)` raises `TypeError` on truthy non-sized values, hence the
`Except`). -/
def validate_marker_compatibility (d : Doc) : Except PStr (List VIssue) :=
  let solver := dgetD d (lit "SOLVER") (.str [])
  if pyMem solver [.str (lit "EULER"), .str (lit "INC_EULER"),
      .str (lit "FEM_EULER"), .str (lit "NEMO_EULER")] then
    heatMarkerKeysAll.foldlM
      (fun acc marker_type =>
        let markers := dgetD d marker_type (.list [])
        if pyTruthy markers then
          match pyLen markers with
          | .ok n =>
            .ok (acc ++
              [{ path := [marker_type],
                 message := marker_type ++
                   lit " is not compatible with Euler solver " ++ pyStr solver ++
                   lit ". Euler solvers only support slip walls.",
                 type := lit "euler_heat_marker_incompatible",
                 extra := [(lit "solver", solver),
                           (lit "incompatible_markers", .int n)] }])
          | .error e => .error e
        else .ok acc)
      []
  else .ok []

/-- Embedding of `SU2ConfigValidator.perform_custom_validations`. -/
def perform_custom_validations (d : Doc) : Except PStr (List VIssue) :=
  match validate_marker_compatibility d with
  | .ok markerErrs =>
    .ok (validate_inlet_consistency d ++ validate_solver_consistency d ++
      validate_turbulence_dependencies d ++ markerErrs)
  | .error e => .error e

/-- Embedding of `SU2ConfigValidator.perform_guidance_warnings`. -/
def perform_guidance_warnings (d : Doc) : List VIssue :=
  let solver := dgetD d (lit "SOLVER") (.str [])
  let turb_model := dgetD d (lit "KIND_TURB_MODEL") (.str (lit "NONE"))
  let time_marching := dgetD d (lit "TIME_MARCHING") (.str (lit "STEADY"))
  let femSolver : Bool :=
    match solver with
    | .str s => pyStarts (lit "FEM_") s
    | _ => false
  let les_like := pyMem turb_model [.str (lit "IMPLICIT_LES"),
    .str (lit "SMAGORINSKY"), .str (lit "WALE"), .str (lit "VREMAN")]
  let w1 :=
    if femSolver && les_like then
      [{ path := [lit "KIND_TURB_MODEL"],
         message := lit "FEM_* with LES (KIND_TURB_MODEL) may require tuned stabilization and filters. Review NUM_METHOD_FEM_FLOW and time discretization.",
         type := lit "fem_les_guidance",
         extra := [(lit "solver", solver), (lit "turbulence_model", turb_model)] }]
    else []
  let w2 :=
    if pyEq time_marching (.str (lit "HARMONIC_BALANCE")) then
      (match dgetD d (lit "OUTPUT_WRT_FREQ") .none with
       | .none =>
         [{ path := [lit "OUTPUT_WRT_FREQ"],
            message := lit "For HB runs, consider setting OUTPUT_WRT_FREQ to a small value to capture cycle convergence diagnostics.",
            type := lit "hb_output_frequency_nudge",
            extra := [] }]
       | _ => []) ++
      (if !(dcontains d (lit "HB_CONV_WINDOW")) then
         [{ path := [lit "HB_CONV_WINDOW"],
            message := lit "HB_CONV_WINDOW not set. A value like 20-50 can help stabilize cycle convergence checks.",
            type := lit "hb_conv_window_nudge",
            extra := [] }]
       else [])
    else []
  w1 ++ w2

/-! ### Auto-fix engine (`SU2ConfigValidator.apply_auto_fixes`), split by
its five corrective passes in source order. -/

/-- INC_EULER density/energy pass of `apply_auto_fixes`. -/
def fixPass1 (solver : CValue) (cfg0 : Doc) : Doc × List FixRec :=
  if pyEq solver (.str (lit "INC_EULER")) then
    let old := dgetD cfg0 (lit "INC_DENSITY_MODEL") .none
    let st1 :=
      if ¬ pyEq old (.str (lit "CONSTANT")) then
        (dset cfg0 (lit "INC_DENSITY_MODEL") (.str (lit "CONSTANT")),
         [{ path := [lit "INC_DENSITY_MODEL"],
            message := lit "Set INC_DENSITY_MODEL to CONSTANT (was " ++
              pyStr old ++ lit ")" }])
      else (cfg0, ([] : List FixRec))
    let cfg := st1.1
    let inc_energy :=
      dgetD cfg (lit "INC_ENERGY_EQUATION") (dgetD cfg (lit "ENERGY_EQUATION") .none)
    let inc_energy_norm : Option Bool := pyBoolNorm inc_energy
    if inc_energy_norm ≠ some false then
      (dset cfg (lit "INC_ENERGY_EQUATION") (.bool false),
       st1.2 ++ [{ path := [lit "INC_ENERGY_EQUATION"],
                   message := lit "Set INC_ENERGY_EQUATION to NO for INC_EULER" }])
    else st1
  else (cfg0, [])

/-- Transition-requires-turbulence pass of `apply_auto_fixes`. -/
def fixPass2 (cfg : Doc) : Doc × List FixRec :=
  let turb_model := dgetD cfg (lit "KIND_TURB_MODEL") (.str (lit "NONE"))
  let trans_model := dgetD cfg (lit "KIND_TRANS_MODEL") (.str (lit "NONE"))
  if !(pyMem trans_model [.str (lit "NONE"), .str (lit "NO_TRANS_MODEL")]) &&
      pyMem turb_model [.str (lit "NONE"), .str (lit "NO_TURB_MODEL")] then
    (dset cfg (lit "KIND_TRANS_MODEL") (.str (lit "NONE")),
     [{ path := [lit "KIND_TRANS_MODEL"],
        message := lit "Disabled transition model " ++ pyStr trans_model ++
          lit " because no turbulence model is active" }])
  else (cfg, [])

/-- LM/axisymmetric pass of `apply_auto_fixes`. -/
def fixPass3 (cfg : Doc) : Doc × List FixRec :=
  if pyMem (dgetD cfg (lit "AXISYMMETRIC") (.str (lit "NO")))
      [.str (lit "YES"), .bool true] &&
      pyEq (dgetD cfg (lit "KIND_TRANS_MODEL") .none) (.str (lit "LM")) then
    (dset cfg (lit "KIND_TRANS_MODEL") (.str (lit "NONE")),
     [{ path := [lit "KIND_TRANS_MODEL"],
        message := lit "Disabled LM transition for axisymmetric flow" }])
  else (cfg, [])

/-- Inlet-type-count reconciliation pass of `apply_auto_fixes`. -/
def fixPass4 (solver : CValue) (cfg : Doc) : Doc × List FixRec :=
  if pyMem solver [.str (lit "INC_EULER"), .str (lit "INC_NAVIER_STOKES"),
      .str (lit "INC_RANS")] then
    let marker_inlet := dgetD cfg (lit "MARKER_INLET") (.list [])
    let inlet_count := count_markers_in_list marker_inlet
    if inlet_count > 0 then
      let types0 := dgetD cfg (lit "INC_INLET_TYPE") (.list [])
      let types : List CValue := incTypesList types0
      if types.length < inlet_count then
        let default_type := types.getLast?.getD (.str (lit "VELOCITY_INLET"))
        let missing := inlet_count - types.length
        (dset cfg (lit "INC_INLET_TYPE")
          (.list (types ++ List.replicate missing default_type)),
         [{ path := [lit "INC_INLET_TYPE"],
            message := lit "Extended INC_INLET_TYPE to " ++ natChars inlet_count ++
              lit " entries using default " ++ pyStr default_type }])
      else if inlet_count < types.length then
        (dset cfg (lit "INC_INLET_TYPE") (.list (types.take inlet_count)),
         [{ path := [lit "INC_INLET_TYPE"],
            message := lit "Trimmed INC_INLET_TYPE to " ++ natChars inlet_count ++
              lit " entries to match MARKER_INLET" }])
      else (cfg, [])
    else (cfg, [])
  else (cfg, [])

/-- The three thermal-wall keys converted by the Euler-marker pass. -/
def heatMarkerKeysFix : List PStr :=
  [lit "MARKER_HEATFLUX", lit "MARKER_ISOTHERMAL", lit "MARKER_HEATTRANSFER"]

/-- One key step of the Euler-marker pass: pop the thermal key and collect
its top-level string entries when it holds a non-empty list. -/
def fixPass5Step (st : Doc × List PStr) (key : PStr) : Doc × List PStr :=
  match dget st.1 key with
  | some (.list l) =>
    if !l.isEmpty then
      (dpop st.1 key,
       st.2 ++ l.filterMap (fun el =>
         match el with
         | .str s => some s
         | _ => Option.none))
    else st
  | _ => st

/-- Thermal-wall-to-Euler-wall pass of `apply_auto_fixes` (the
`list(euler_list)` coercion raises `TypeError` on non-iterable values). -/
def fixPass5 (solver : CValue) (cfg0 : Doc) : Except PStr (Doc × List FixRec) :=
  if pyMem solver [.str (lit "EULER"), .str (lit "INC_EULER"),
      .str (lit "FEM_EULER"), .str (lit "NEMO_EULER")] then
    let euler0 := dgetD cfg0 (lit "MARKER_EULER") (.list [])
    let elv : CValue :=
      match euler0 with
      | .str s => .list [.str s]
      | v => v
    let st := heatMarkerKeysFix.foldl fixPass5Step (cfg0, [])
    let cfg := st.1
    let moved := st.2
    if !moved.isEmpty then
      match pyListCoerce elv with
      | .ok el =>
        .ok (dset cfg (lit "MARKER_EULER") (.list (el ++ moved.map .str)),
          [{ path := [lit "MARKER_EULER"],
             message := lit "Converted thermal wall markers to Euler walls: " ++
               pyStr (.list (moved.map .str)) }])
      | .error e => .error e
    else .ok (cfg, [])
  else .ok (cfg0, [])

/-- Embedding of `SU2ConfigValidator.apply_auto_fixes` (dict-shaped input;
a non-dict input is replaced by the empty dict in the source and is outside
the document model). -/
def apply_auto_fixes (config_data : Doc) : Except PStr (Doc × List FixRec) :=
  let solver := dgetD config_data (lit "SOLVER") (.str [])
  let s1 := fixPass1 solver config_data
  let s2 := fixPass2 s1.1
  let s3 := fixPass3 s2.1
  let s4 := fixPass4 solver s3.1
  match fixPass5 solver s4.1 with
  | .ok s5 => .ok (s5.1, s1.2 ++ s2.2 ++ s3.2 ++ s4.2 ++ s5.2)
  | .error e => .error e

/-! ### Validation orchestrator (`SU2ConfigValidator.validate_config_file`).

File loading and the third-party `jsonschema` validator are external to
the repository: the loaded document (or the raised exception) and the list
of schema issues the `jsonschema` iteration would produce are parameters,
and `schemaOn` models `self.schema_enabled and self.validator is not None`.
-/

/-- Result dictionary of `validate_config_file`; keys absent on the
exception path are `Option`-valued. -/
structure VResult where
  valid : Bool
  errors : List VIssue
  warnings : Option (List VIssue)
  config_data : Option Doc
  message : PStr
  schema_errors : Option Nat
  custom_errors : Option Nat
  applied_fixes : List FixRec

/-- Embedding of `SU2ConfigValidator.validate_config_file`. -/
def validate_config_file (load : Except PStr Doc) (schemaOn : Bool)
    (schemaErrs : List VIssue) (auto_fix : Bool) : VResult :=
  let run : Except PStr (List VIssue × List VIssue × Doc × List FixRec × List VIssue) := do
    let config_data ← load
    let validation_errors := if schemaOn then schemaErrs else []
    let custom_errors ← perform_custom_validations config_data
    let guidance_warnings := perform_guidance_warnings config_data
    if auto_fix then
      let fixed ← apply_auto_fixes config_data
      let custom2 ← perform_custom_validations fixed.1
      pure (validation_errors, custom2, fixed.1, fixed.2, guidance_warnings)
    else
      pure (validation_errors, custom_errors, config_data, [], guidance_warnings)
  match run with
  | .ok (ve, ce, cfg, fixes, gw) =>
    { valid := (ve ++ ce).isEmpty,
      errors := ve ++ ce,
      warnings := some gw,
      config_data := some cfg,
      message :=
        if (ve ++ ce).isEmpty then lit "Configuration is valid"
        else lit "Found " ++ natChars (ve ++ ce).length ++ lit " validation errors",
      schema_errors := some ve.length,
      custom_errors := some ce.length,
      applied_fixes := fixes }
  | .error e =>
    { valid := false,
      errors := [{ path := [],
                   message := lit "Error processing file: " ++ e,
                   type := lit "processing_error",
                   extra := [] }],
      warnings := Option.none,
      config_data := Option.none,
      message := lit "Processing error: " ++ e,
      schema_errors := Option.none,
      custom_errors := Option.none,
      applied_fixes := [] }

/-! ### Document parsers: `SU2ConfigValidator.convert_cfg_to_json` and
`json_validation.cfg_to_json_dict`.  Input files are modelled as the list
of their physical lines. -/

/-- Continuation-joining loop of `convert_cfg_to_json`: while the joined
line ends with a backslash and lines remain, consume the next line (a
comment line breaks the loop but is still consumed by the outer loop). -/
def contJoin (line : PStr) (rest : List PStr) : PStr × List PStr :=
  if pyEnds (lit "\\") line then
    match rest with
    | [] => (line, [])
    | nx :: r =>
      let n := pyStrip nx
      if pyStarts (lit "%") n then (line, r)
      else contJoin (line.dropLast ++ (' ' :: n)) r
  else (line, rest)
termination_by rest.length
decreasing_by
  simp only [List.length_cons]
  omega

/-- Model of Python `line.split('=', 1)`: `Option.none` when no `'='`
occurs (where the source's two-name unpacking raises `ValueError`). -/
def splitFirstEq (s : PStr) : Option (PStr × PStr) :=
  let sp := s.span (· ≠ '=')
  match sp.2 with
  | [] => Option.none
  | _ :: r => some (sp.1, r)

theorem contJoin_rest_le (rest : List PStr) : ∀ line, (contJoin line rest).2.length ≤ rest.length := by
  induction rest with
  | nil =>
    intro line
    rw [contJoin]
    split
    · simp
    · simp
  | cons nx r ih =>
    intro line
    rw [contJoin]
    split
    · simp only []
      split
      · simp
      · simp only [List.length_cons]
        exact Nat.le_trans (ih _) (Nat.le_succ _)
    · simp

/-- Main loop of `convert_cfg_to_json` over the remaining lines. -/
def convLoop : List PStr → Doc → Except PStr Doc
  | [], acc => .ok acc
  | l :: rest, acc =>
    let line := pyStrip l
    if line.isEmpty || pyStarts (lit "%") line then convLoop rest acc
    else
      let cj := contJoin line rest
      if pyHas cj.1 '=' then
        let line3 :=
          if pyHas cj.1 '%' then pyStrip (cj.1.takeWhile (· ≠ '%')) else cj.1
        match splitFirstEq line3 with
        | some kv =>
          convLoop cj.2 (dset acc (pyStrip kv.1) (parse_config_value (pyStrip kv.2)))
        | Option.none =>
          .error (lit "Error parsing CFG file: not enough values to unpack (expected 2, got 1)")
      else convLoop cj.2 acc
termination_by lines => lines.length
decreasing_by
  · simp only [List.length_cons]; omega
  · have h := contJoin_rest_le rest (pyStrip l)
    simp only [List.length_cons]
    omega
  · have h := contJoin_rest_le rest (pyStrip l)
    simp only [List.length_cons]
    omega

/-- Embedding of `SU2ConfigValidator.convert_cfg_to_json` on the list of
file lines (the file-reading step is external; an unreadable file raises
before this loop). -/
def convert_cfg_to_json (lines : List PStr) : Except PStr Doc :=
  convLoop lines []

/-- The comment-stripped line of one `cfg_to_json_dict` iteration. -/
def cfgLine2 (raw : PStr) : PStr :=
  let line := pyStrip raw
  if pyHas line '%' then pyStrip (line.takeWhile (· ≠ '%')) else line

/-- One-line step of `json_validation.cfg_to_json_dict`: returns the
updated document and parse-warning messages (the source prints them). -/
def cfgLineStep (line_num : Nat) (raw : PStr) (st : Doc × List PStr) :
    Doc × List PStr :=
  let line := pyStrip raw
  if line.isEmpty || pyStarts (lit "%") line then st
  else
    let line2 := cfgLine2 raw
    if line2.isEmpty then st
    else
      match splitFirstEq line2 with
      | Option.none =>
        (st.1,
         st.2 ++ [lit "Warning: Line " ++ natChars line_num ++
           lit " does not contain \"=\" - skipping: " ++ line2])
      | some kv =>
        let key := pyStrip kv.1
        let value_str := pyStrip kv.2
        if key.isEmpty then
          (st.1,
           st.2 ++ [lit "Warning: Line " ++ natChars line_num ++
             lit " has empty key - skipping: " ++ line2])
        else (dset st.1 key (parse_value value_str), st.2)

/-- Indexed fold of `cfg_to_json_dict` over the lines. -/
def cfgLinesFold (n : Nat) : List PStr → (Doc × List PStr) → Doc × List PStr
  | [], st => st
  | raw :: rest, st => cfgLinesFold (n + 1) rest (cfgLineStep n raw st)

/-- Embedding of `json_validation.cfg_to_json_dict` on the file lines:
the resulting document together with the emitted warnings (the `try` around
`parse_value` is dead, since `parse_value` is total). -/
def cfg_to_json_dict (lines : List PStr) : Doc × List PStr :=
  cfgLinesFold 1 lines ([], [])

/-! ### Document serializer: the cfg-writing loop of
`su2_io.save_json_cfg_file`.  The GUI-state preparation
(`createjsonMarkers`), the JSON dump and the file handles are outside the
document model; `config_desc` is `state.config_desc`, which is set outside
the sources under verification and is passed as a parameter. -/

/-- One-level flattening of list entries, as in the serializer's loop. -/
def flattenOneLevel (l : List CValue) : List CValue :=
  l.foldl
    (fun acc sub =>
      match sub with
      | .list s2 => acc ++ s2
      | v => acc ++ [v]) []

/-- Model of the comma-space join of `str(e)` over the flattened list. -/
def joinCommaStr : List CValue → PStr
  | [] => []
  | [a] => pyStr a
  | a :: r => pyStr a ++ lit ", " ++ joinCommaStr r

/-- Formatting of one document entry by `save_json_cfg_file`: booleans to
`YES`/`NO`, lists flattened one level into a parenthesised comma join,
`None` and `"none"` (case-insensitive) entries omitted, everything else
written as `KEY= str(value)`. -/
def fmtEntryLine (k : PStr) (v : CValue) : Option PStr :=
  let v1 : CValue :=
    match v with
    | .bool b => .str (if b then lit "YES" else lit "NO")
    | .list l => .str (lit "(" ++ joinCommaStr (flattenOneLevel l) ++ lit ")")
    | x => x
  match v1 with
  | .none => Option.none
  | .str s => if pyLower s = lit "none" then Option.none else some (k ++ lit "= " ++ s)
  | x => some (k ++ lit "= " ++ pyStr x)

/-- The cfg lines written by `save_json_cfg_file`: the header line
`f"{state.config_desc}  "` followed by one line per non-omitted entry in
document order. -/
def cfg_lines_of_json (config_desc : PStr) (jsonData : Doc) : List PStr :=
  (config_desc ++ lit "  ") :: jsonData.filterMap (fun kv => fmtEntryLine kv.1 kv.2)

/-! ### Arithmetic lemmas about the digit machinery. -/

theorem charDigit_digitChar : ∀ d : Nat, d < 10 → charDigit (digitChar d) = d := by
  decide

theorem digitChar_isDigit : ∀ d : Nat, d < 10 → (digitChar d).isDigit = true := by
  decide

theorem natChars_all_digits (n : Nat) : ∀ c ∈ natChars n, c.isDigit = true := by
  induction n using Nat.strong_induction_on with
  | _ n ih =>
    rw [natChars]
    split
    · rename_i h
      intro c hc
      simp only [List.mem_singleton] at hc
      subst hc
      exact digitChar_isDigit n h
    · rename_i h
      intro c hc
      rw [List.mem_append] at hc
      rcases hc with hc | hc
      · exact ih (n / 10) (Nat.div_lt_self (by omega) (by omega)) c hc
      · simp only [List.mem_singleton] at hc
        subst hc
        exact digitChar_isDigit (n % 10) (Nat.mod_lt _ (by omega))

theorem natChars_ne_nil (n : Nat) : natChars n ≠ [] := by
  rw [natChars]
  split
  · simp
  · simp

theorem charsToNat_foldl_acc (b : List Char) :
    ∀ m : Nat,
      List.foldl (fun a c => a * 10 + charDigit c) m b =
        m * 10 ^ b.length + charsToNat b := by
  induction b with
  | nil => intro m; simp [charsToNat]
  | cons c r ihr =>
    intro m
    simp only [List.foldl_cons, List.length_cons]
    rw [ihr]
    have hz : charsToNat (c :: r) = charDigit c * 10 ^ r.length + charsToNat r := by
      unfold charsToNat
      simp only [List.foldl_cons]
      rw [ihr]
      have : List.foldl (fun a c => a * 10 + charDigit c) 0 r = charsToNat r := rfl
      rw [this]
      ring
    rw [hz]
    ring

theorem charsToNat_append (a b : List Char) :
    charsToNat (a ++ b) = charsToNat a * 10 ^ b.length + charsToNat b := by
  unfold charsToNat
  rw [List.foldl_append]
  rw [charsToNat_foldl_acc]
  rfl

theorem charsToNat_natChars (n : Nat) : charsToNat (natChars n) = n := by
  induction n using Nat.strong_induction_on with
  | _ n ih =>
    rw [natChars]
    split
    · rename_i h
      simp [charsToNat, charDigit_digitChar n h]
    · rename_i h
      rw [charsToNat_append]
      rw [ih (n / 10) (Nat.div_lt_self (by omega) (by omega))]
      simp only [List.length_singleton, pow_one]
      have hm : charsToNat [digitChar (n % 10)] = n % 10 := by
        simp [charsToNat, charDigit_digitChar (n % 10) (Nat.mod_lt _ (by omega))]
      rw [hm]
      omega

/-! ### Character-class and digit-group lemmas. -/

theorem digit_not_grpstop {c : Char} (h : c.isDigit = true) : grpChar c = true := by
  simp [grpChar, h]

theorem digit_ne_us {c : Char} (h : c.isDigit = true) : (c = '_') = False := by
  simp only [eq_iff_iff, iff_false]
  intro hc
  subst hc
  simp [Char.isDigit] at h

theorem dropWhile_eq_self_of_head {p : Char → Bool} {l : List Char}
    (h : ∀ c ∈ l.head?, p c = false) : l.dropWhile p = l := by
  cases l with
  | nil => rfl
  | cons c t =>
    have hc := h c (by simp)
    simp [List.dropWhile, hc]

theorem takeWhile_append_of (l r : List Char) (p : Char → Bool)
    (hl : ∀ c ∈ l, p c = true) (hr : ∀ c ∈ r.head?, p c = false) :
    (l ++ r).takeWhile p = l ∧ (l ++ r).dropWhile p = r := by
  induction l with
  | nil =>
    simp only [List.nil_append]
    constructor
    · cases r with
      | nil => rfl
      | cons c t => simp [List.takeWhile, hr c (by simp)]
    · exact dropWhile_eq_self_of_head hr
  | cons c t ih =>
    have hc : p c = true := hl c (by simp)
    have iht := ih (fun x hx => hl x (by simp [hx]))
    simp [List.takeWhile, List.dropWhile, hc, iht.1, iht.2]

theorem grpChars_of_digits (l r : List Char)
    (hl : ∀ c ∈ l, c.isDigit = true) (hr : ∀ c ∈ r.head?, grpChar c = false) :
    grpChars (l ++ r) = (l, r) := by
  have h := takeWhile_append_of l r grpChar
    (fun c hc => digit_not_grpstop (hl c hc)) hr
  simp [grpChars, h.1, h.2]

theorem noDoubleUS_of_digits (l : List Char) (hl : ∀ c ∈ l, c.isDigit = true) :
    noDoubleUS l = true := by
  induction l with
  | nil => rfl
  | cons c t ih =>
    cases t with
    | nil => rfl
    | cons c2 t2 =>
      have h1 := digit_ne_us (hl c (by simp))
      have iht := ih (fun x hx => hl x (by simp [hx]))
      simp [noDoubleUS, h1, iht]

theorem grpValid_of_digits (l : List Char) (hne : l ≠ [])
    (hl : ∀ c ∈ l, c.isDigit = true) : grpValid l = true := by
  unfold grpValid
  cases l with
  | nil => exact absurd rfl hne
  | cons c t =>
    have hstart : pyStarts (lit "_") (c :: t) = false := by
      have hne1 : ¬ ('_' = c) := fun hh => (digit_ne_us (hl c (by simp))).mp hh.symm
      simp [lit, pyStarts, hne1]
    have hlast : pyEnds (lit "_") (c :: t) = false := by
      unfold pyEnds
      rcases List.exists_cons_of_ne_nil
        (List.reverse_ne_nil_iff.mpr (List.cons_ne_nil c t)) with ⟨c2, t2, hrev⟩
      have hc2 : c2 ∈ (c :: t).reverse := by rw [hrev]; simp
      have hc2' : c2.isDigit = true := hl c2 (List.mem_reverse.mp hc2)
      have hne2 : ¬ ('_' = c2) := fun hh => (digit_ne_us hc2').mp hh.symm
      rw [hrev]
      simp [lit, pyStarts, hne2]
    rw [hstart, hlast, noDoubleUS_of_digits _ hl]
    simp

theorem grpDigits_of_digits (l : List Char) (hl : ∀ c ∈ l, c.isDigit = true) :
    grpDigits l = l := by
  unfold grpDigits
  induction l with
  | nil => rfl
  | cons c t ih =>
    have h1 := digit_ne_us (hl c (by simp))
    simp only [List.filter_cons]
    rw [ih (fun x hx => hl x (by simp [hx]))]
    simp [h1]

theorem pySign_of_digit_head (c : Char) (t : List Char) (h : c.isDigit = true) :
    pySign (c :: t) = (c :: t, 1) := by
  have h1 : (c = '+') = False := by
    simp only [eq_iff_iff, iff_false]
    intro hc; subst hc; simp [Char.isDigit] at h
  have h2 : (c = '-') = False := by
    simp only [eq_iff_iff, iff_false]
    intro hc; subst hc; simp [Char.isDigit] at h
  simp [pySign, h1, h2]

theorem charsToNat_replicate_zero (k : Nat) :
    charsToNat (List.replicate k '0') = 0 := by
  induction k with
  | zero => rfl
  | succ n ih =>
    have : charsToNat (List.replicate (n + 1) '0') =
        charsToNat (List.replicate n '0' ++ ['0']) := by
      rw [← List.replicate_succ']
    rw [this, charsToNat_append, ih]
    simp [charsToNat, charDigit]

theorem grpChars_digits_nil (m : Nat) :
    grpChars (natChars m) = (natChars m, []) := by
  have h := grpChars_of_digits (natChars m) [] (natChars_all_digits m) (by simp)
  simpa using h

theorem pyInt_intStr (n : Int) : pyIntOfChars? (intStr n) = some n := by
  have hall := natChars_all_digits n.natAbs
  have hne := natChars_ne_nil n.natAbs
  have hval := grpValid_of_digits _ hne hall
  have hdig := grpDigits_of_digits _ hall
  have hnum := charsToNat_natChars n.natAbs
  unfold intStr
  by_cases hneg : n < 0
  · rw [if_pos hneg]
    have hps : pySign ('-' :: natChars n.natAbs) = (natChars n.natAbs, -1) := by
      simp [pySign]
    unfold pyIntOfChars?
    rw [hps]
    simp only [grpChars_digits_nil, hval, hdig, hnum, List.isEmpty_nil,
      Bool.and_true, Bool.true_and, if_pos]
    simp only [Option.some.injEq]
    omega
  · rw [if_neg hneg]
    rcases List.exists_cons_of_ne_nil hne with ⟨c, t, hct⟩
    have hcd : c.isDigit = true := by
      apply hall
      rw [hct]; simp
    have hps : pySign (natChars n.natAbs) = (natChars n.natAbs, 1) := by
      rw [hct]
      exact pySign_of_digit_head c t hcd
    unfold pyIntOfChars?
    rw [hps]
    simp only [grpChars_digits_nil, hval, hdig, hnum, List.isEmpty_nil,
      Bool.and_true, Bool.true_and, if_pos]
    simp only [Option.some.injEq]
    omega

theorem grpChar_dot : grpChar '.' = false := by decide

theorem pyFloat_core (sgn : Bool) (ip fp : List Char) (hipne : ip ≠ [])
    (hfpne : fp ≠ []) (hipd : ∀ c ∈ ip, c.isDigit = true)
    (hfpd : ∀ c ∈ fp, c.isDigit = true) :
    pyFloatOfChars? ((if sgn then ['-'] else []) ++ (ip ++ '.' :: fp)) =
      some ((if sgn then (-1 : ℚ) else 1) *
        ((charsToNat (ip ++ fp) : ℚ) / (10 : ℚ) ^ fp.length)) := by
  have hgi : grpChars (ip ++ '.' :: fp) = (ip, '.' :: fp) :=
    grpChars_of_digits ip ('.' :: fp) hipd (by simp [grpChar_dot])
  have hgf : grpChars fp = (fp, []) := by
    have h := grpChars_of_digits fp [] hfpd (by simp)
    simpa using h
  have hipv := grpValid_of_digits ip hipne hipd
  have hfpv := grpValid_of_digits fp hfpne hfpd
  have hdig : grpDigits (ip ++ fp) = ip ++ fp := by
    apply grpDigits_of_digits
    intro c hc
    rcases List.mem_append.mp hc with h | h
    · exact hipd c h
    · exact hfpd c h
  have hdigf : grpDigits fp = fp := grpDigits_of_digits fp hfpd
  have hipE : ip.isEmpty = false := by
    cases ip with
    | nil => exact absurd rfl hipne
    | cons c t => rfl
  have hfpE : fp.isEmpty = false := by
    cases fp with
    | nil => exact absurd rfl hfpne
    | cons c t => rfl
  cases sgn with
  | true =>
    have hps : pySign ('-' :: (ip ++ '.' :: fp)) = (ip ++ '.' :: fp, -1) := by
      simp [pySign]
    rw [if_pos rfl, if_pos rfl]
    simp only [List.singleton_append]
    unfold pyFloatOfChars?
    rw [hps]
    simp only [hgi, hgf, hipE, hfpE, hipv, hfpv, Bool.false_or, Bool.true_and,
      Bool.and_true, Bool.and_false, Bool.not_false, Bool.false_and, if_pos]
    simp only [expPart?, hdig, hdigf]
    simp only [Option.some.injEq]
    push_cast
    ring
  | false =>
    rcases List.exists_cons_of_ne_nil hipne with ⟨c, t, hct⟩
    have hcd : c.isDigit = true := by
      apply hipd; rw [hct]; simp
    have hps : pySign (ip ++ '.' :: fp) = (ip ++ '.' :: fp, 1) := by
      rw [hct]
      simpa using pySign_of_digit_head c (t ++ '.' :: fp) hcd
    rw [if_neg (by simp), if_neg (by simp)]
    simp only [List.nil_append]
    unfold pyFloatOfChars?
    rw [hps]
    simp only [hgi, hgf, hipE, hfpE, hipv, hfpv, Bool.false_or, Bool.true_and,
      Bool.and_true, Bool.and_false, Bool.not_false, Bool.false_and, if_pos]
    simp only [expPart?, hdig, hdigf]
    simp only [Option.some.injEq]
    push_cast
    ring

theorem charDigit_zero : charDigit '0' = 0 := by decide

/-- Decimal rationals (denominator factors only 2 and 5) round-trip through
the float printer and the float parser. -/
theorem pyFloat_pyFloatStr (q : ℚ)
    (hden : 2 ^ pFactor 2 q.den * 5 ^ pFactor 5 q.den = q.den) :
    pyFloatOfChars? (pyFloatStr q) = some q := by
  have hdpos : 0 < q.den := q.pos
  set a := pFactor 2 q.den with ha
  set b := pFactor 5 q.den with hb
  set e := max a b with he
  set scaled : Nat := q.num.natAbs * (2 ^ (e - a) * 5 ^ (e - b)) with hscaled
  have hkey : scaled * q.den = q.num.natAbs * 10 ^ e := by
    rw [hscaled]
    nth_rewrite 1 [← hden]
    have h2 : 2 ^ (e - a) * 2 ^ a = 2 ^ e := by
      rw [← pow_add]
      congr 1
      have : a ≤ e := le_max_left _ _
      omega
    have h5 : 5 ^ (e - b) * 5 ^ b = 5 ^ e := by
      rw [← pow_add]
      congr 1
      have : b ≤ e := le_max_right _ _
      omega
    have h10 : (10 : Nat) ^ e = 2 ^ e * 5 ^ e := by
      rw [← Nat.mul_pow]
    rw [h10, ← h2, ← h5]
    ring
  set digs0 := natChars scaled with hdigs0
  set digs : List Char :=
    if digs0.length ≤ e then List.replicate (e + 1 - digs0.length) '0' ++ digs0
    else digs0 with hdigs
  have hdigs_all : ∀ c ∈ digs, c.isDigit = true := by
    rw [hdigs]
    split
    · intro c hc
      rcases List.mem_append.mp hc with h | h
      · have := List.eq_of_mem_replicate h
        subst this
        decide
      · exact natChars_all_digits scaled c h
    · exact natChars_all_digits scaled
  have hdigs_val : charsToNat digs = scaled := by
    rw [hdigs]
    split
    · rw [charsToNat_append, charsToNat_replicate_zero, charsToNat_natChars]
      simp
    · exact charsToNat_natChars scaled
  have hdigs_len : e < digs.length := by
    rw [hdigs]
    have hne := natChars_ne_nil scaled
    have h0 : 0 < digs0.length := by
      cases h : digs0 with
      | nil => exact absurd h hne
      | cons x t => simp [h]
    split
    · rename_i h
      rw [List.length_append, List.length_replicate]
      omega
    · rename_i h
      omega
  set ipart := digs.take (digs.length - e) with hipart
  set fpart := digs.drop (digs.length - e) with hfpart
  have hip_len : ipart.length = digs.length - e := by
    rw [hipart, List.length_take]
    omega
  have hfp_len : fpart.length = e := by
    rw [hfpart, List.length_drop]
    omega
  have hip_ne : ipart ≠ [] := by
    intro hh
    have hl := congrArg List.length hh
    rw [hip_len] at hl
    simp at hl
    omega
  have hip_fp : ipart ++ fpart = digs := List.take_append_drop _ _
  have hip_d : ∀ c ∈ ipart, c.isDigit = true := by
    intro c hc
    exact hdigs_all c (by rw [← hip_fp]; exact List.mem_append.mpr (Or.inl hc))
  have hfp_d : ∀ c ∈ fpart, c.isDigit = true := by
    intro c hc
    exact hdigs_all c (by rw [← hip_fp]; exact List.mem_append.mpr (Or.inr hc))
  set fp : List Char := if e = 0 then ['0'] else fpart with hfp
  have hfp_ne : fp ≠ [] := by
    rw [hfp]
    split
    · simp
    · rename_i h
      intro hh
      have hl := congrArg List.length hh
      rw [hfp_len] at hl
      simp at hl
      omega
  have hfp_dd : ∀ c ∈ fp, c.isDigit = true := by
    rw [hfp]
    split
    · intro c hc
      simp only [List.mem_singleton] at hc
      subst hc
      decide
    · exact hfp_d
  have htok : pyFloatStr q =
      (if decide (q.num < 0) then ['-'] else []) ++ (ipart ++ '.' :: fp) := by
    rw [pyFloatStr]
    rw [if_pos hden]
    simp only [← ha, ← hb, ← he, ← hscaled, ← hdigs0, ← hdigs, ← hipart, ← hfpart, ← hfp]
    rw [hfp]
    by_cases he0 : e = 0
    · rw [if_pos he0, if_pos he0]
      by_cases hneg : q.num < 0
      · rw [if_pos hneg, if_pos (by simpa using hneg)]
        simp
      · rw [if_neg hneg, if_neg (by simpa using hneg)]
        simp
    · rw [if_neg he0, if_neg he0]
      by_cases hneg : q.num < 0
      · rw [if_pos hneg, if_pos (by simpa using hneg)]
        simp
      · rw [if_neg hneg, if_neg (by simpa using hneg)]
        simp
  rw [htok, pyFloat_core (decide (q.num < 0)) ipart fp hip_ne hfp_ne hip_d hfp_dd]
  congr 1
  have hq10 : ((10 : ℚ) ^ e) ≠ 0 := by positivity
  have hq10' : ((10 : ℚ) ^ fp.length) ≠ 0 := by positivity
  have hqden : ((q.den : ℚ)) ≠ 0 := by
    exact_mod_cast (by omega : q.den ≠ 0)
  have hN : charsToNat (ipart ++ fp) * 10 ^ e = scaled * 10 ^ fp.length := by
    rw [hfp]
    by_cases he0 : e = 0
    · rw [if_pos he0]
      have hfp0 : fpart = [] := by
        rw [hfpart]
        have hld : digs.length - e = digs.length := by omega
        rw [hld, List.drop_length]
      have hip_eq : ipart = digs := by
        rw [hipart]
        have hld : digs.length - e = digs.length := by omega
        rw [hld, List.take_length]
      rw [hip_eq, charsToNat_append, hdigs_val, he0]
      have : charsToNat ['0'] = 0 := by decide
      rw [this]
      simp
    · rw [if_neg he0]
      rw [hip_fp, hdigs_val, hfp_len]
  have hfrac : ((charsToNat (ipart ++ fp) : ℚ) / (10 : ℚ) ^ fp.length) =
      (scaled : ℚ) / (10 : ℚ) ^ e := by
    rw [div_eq_div_iff hq10' hq10]
    exact_mod_cast hN
  rw [hfrac]
  have hqnum : (q.num : ℚ) = q * q.den := by
    have h0 : ((q.num : ℚ)) / ((q.den : ℚ)) = q := Rat.num_div_den q
    have h1 := congrArg (fun x : ℚ => x * (q.den : ℚ)) h0
    simp only [div_mul_cancel₀ _ hqden] at h1
    exact h1
  have hscast : (scaled : ℚ) * q.den = (q.num.natAbs : ℚ) * 10 ^ e := by
    exact_mod_cast hkey
  by_cases hneg : q.num < 0
  · rw [if_pos (by simpa using hneg)]
    have habs : ((q.num.natAbs : ℚ)) = -(q.num : ℚ) := by
      have h1 : (q.num.natAbs : Int) = -q.num := by omega
      calc ((q.num.natAbs : ℚ)) = ((q.num.natAbs : Int) : ℚ) :=
            (Int.cast_natCast _).symm
        _ = ((-q.num : Int) : ℚ) := by rw [h1]
        _ = -(q.num : ℚ) := by push_cast; ring
    have hs : (scaled : ℚ) = -q * 10 ^ e := by
      apply mul_right_cancel₀ hqden
      rw [hscast, habs, hqnum]
      ring
    rw [hs]
    field_simp
  · rw [if_neg (by simpa using hneg)]
    have habs : ((q.num.natAbs : ℚ)) = (q.num : ℚ) := by
      have h1 : (q.num.natAbs : Int) = q.num := by omega
      calc ((q.num.natAbs : ℚ)) = ((q.num.natAbs : Int) : ℚ) :=
            (Int.cast_natCast _).symm
        _ = (q.num : ℚ) := by rw [h1]
    have hs : (scaled : ℚ) = q * 10 ^ e := by
      apply mul_right_cancel₀ hqden
      rw [hscast, habs, hqnum]
      ring
    rw [hs]
    field_simp

/-! ### Behaviour of `parse_single_value` on printed numeric tokens. -/

theorem char_le_iff (c d : Char) : c ≤ d ↔ c.toNat ≤ d.toNat := by
  rw [Char.le_def]
  constructor
  · intro h; exact_mod_cast h
  · intro h; exact_mod_cast h

theorem isDigit_toNat (c : Char) (h : c.isDigit = true) :
    48 ≤ c.toNat ∧ c.toNat ≤ 57 := by
  simpa [Char.isDigit] using h

theorem upChar_id_low (c : Char) (h : c.toNat < 97) : upChar c = c := by
  unfold upChar
  rw [if_neg]
  simp only [Bool.and_eq_true, decide_eq_true_eq, not_and]
  intro h1
  rw [char_le_iff] at h1
  have ha : ('a').toNat = 97 := by decide
  omega

theorem lowChar_id_out (c : Char) (h : c.toNat < 65 ∨ 90 < c.toNat) :
    lowChar c = c := by
  unfold lowChar
  rw [if_neg]
  simp only [Bool.and_eq_true, decide_eq_true_eq, not_and]
  intro h1 h2
  rw [char_le_iff] at h1 h2
  have ha : ('A').toNat = 65 := by decide
  have hz : ('Z').toNat = 90 := by decide
  omega

theorem char_ne_of_toNat (c d : Char) (h : ¬ c.toNat = d.toNat) : ¬ c = d := by
  intro hh
  exact h (by rw [hh])

theorem pyWs_false_of_digit (c : Char) (h : c.isDigit = true) : pyWs c = false := by
  have hb := isDigit_toNat c h
  simp only [pyWs, Bool.or_eq_false_iff, decide_eq_false_iff_not]
  refine ⟨⟨⟨⟨⟨?_, ?_⟩, ?_⟩, ?_⟩, ?_⟩, ?_⟩ <;>
    · intro hh
      subst hh
      revert hb
      decide

theorem pyStrip_eq_self_of_classes (l : List Char)
    (h : ∀ c ∈ l, pyWs c = false) : pyStrip l = l := by
  unfold pyStrip
  have h1 : l.dropWhile pyWs = l :=
    dropWhile_eq_self_of_head (by
      intro c hc
      cases l with
      | nil => simp at hc
      | cons x t =>
        simp only [List.head?_cons, Option.mem_def, Option.some.injEq] at hc
        subst hc
        exact h x (by simp))
  rw [h1]
  have h2 : l.reverse.dropWhile pyWs = l.reverse :=
    dropWhile_eq_self_of_head (by
      intro c hc
      cases hr : l.reverse with
      | nil => simp [hr] at hc
      | cons x t =>
        rw [hr] at hc
        simp only [List.head?_cons, Option.mem_def, Option.some.injEq] at hc
        subst hc
        apply h
        have hx : x ∈ l.reverse := by rw [hr]; simp
        exact List.mem_reverse.mp hx)
  rw [h2, List.reverse_reverse]

/-- Character classification of `intStr`: a sign or a digit. -/
theorem intStr_chars (n : Int) :
    ∀ c ∈ intStr n, c.isDigit = true ∨ c = '-' := by
  unfold intStr
  split
  · intro c hc
    rcases List.mem_cons.mp hc with h | h
    · right; exact h
    · left; exact natChars_all_digits _ c h
  · intro c hc
    left
    exact natChars_all_digits _ c hc

theorem cons_ne_of_head (c : Char) (t : List Char) (d : Char) (u : List Char)
    (h : ¬ c = d) : ¬ ((c :: t : List Char) = d :: u) :=
  fun hh => h (List.cons_eq_cons.mp hh).1

/-- `parse_single_value` on a printed integer returns that integer. -/
theorem parse_single_int (n : Int) : parse_single_value (intStr n) = .int n := by
  have hchars := intStr_chars n
  have hws : ∀ c ∈ intStr n, pyWs c = false := by
    intro c hc
    rcases hchars c hc with h | h
    · exact pyWs_false_of_digit c h
    · subst h; decide
  have hstrip : pyStrip (intStr n) = intStr n := pyStrip_eq_self_of_classes _ hws
  have hne : intStr n ≠ [] := by
    unfold intStr
    split
    · simp
    · exact natChars_ne_nil _
  rcases List.exists_cons_of_ne_nil hne with ⟨c, t, hct⟩
  have hc0 : c.isDigit = true ∨ c = '-' := hchars c (by rw [hct]; simp)
  have hcsmall : c.toNat ≤ 57 := by
    rcases hc0 with h | h
    · exact (isDigit_toNat c h).2
    · subst h; decide
  have hcup : upChar c = c := upChar_id_low c (by omega)
  have hup : pyUpper (intStr n) = c :: t.map upChar := by
    rw [hct, pyUpper, List.map_cons, hcup]
  have hboolT : ¬ (pyUpper (intStr n) = lit "YES" ∨ pyUpper (intStr n) = lit "TRUE" ∨
      pyUpper (intStr n) = lit "ON") := by
    rw [hup]
    push_neg
    refine ⟨?_, ?_, ?_⟩
    · exact cons_ne_of_head _ _ _ _ (char_ne_of_toNat c 'Y' (by
        have : ('Y').toNat = 89 := by decide
        omega))
    · exact cons_ne_of_head _ _ _ _ (char_ne_of_toNat c 'T' (by
        have : ('T').toNat = 84 := by decide
        omega))
    · exact cons_ne_of_head _ _ _ _ (char_ne_of_toNat c 'O' (by
        have : ('O').toNat = 79 := by decide
        omega))
  have hboolF : ¬ (pyUpper (intStr n) = lit "NO" ∨ pyUpper (intStr n) = lit "FALSE" ∨
      pyUpper (intStr n) = lit "OFF") := by
    rw [hup]
    push_neg
    refine ⟨?_, ?_, ?_⟩
    · exact cons_ne_of_head _ _ _ _ (char_ne_of_toNat c 'N' (by
        have : ('N').toNat = 78 := by decide
        omega))
    · exact cons_ne_of_head _ _ _ _ (char_ne_of_toNat c 'F' (by
        have : ('F').toNat = 70 := by decide
        omega))
    · exact cons_ne_of_head _ _ _ _ (char_ne_of_toNat c 'O' (by
        have : ('O').toNat = 79 := by decide
        omega))
  have hnodot : pyHas (intStr n) '.' = false := by
    rw [pyHas, List.any_eq_false]
    intro c' hc'
    rcases hchars c' hc' with h | h
    · have hb := isDigit_toNat c' h
      simp only [decide_eq_true_eq]
      exact char_ne_of_toNat c' '.' (by
        have : ('.').toNat = 46 := by decide
        omega)
    · subst h; decide
  have hnoe : pyHas (pyLower (intStr n)) 'e' = false := by
    rw [pyHas, List.any_eq_false]
    intro c' hc'
    rcases List.mem_map.mp hc' with ⟨c0, hc0m, hc0e⟩
    rcases hchars c0 hc0m with h | h
    · have hb := isDigit_toNat c0 h
      have hlow : lowChar c0 = c0 := lowChar_id_out c0 (by omega)
      rw [← hc0e, hlow]
      simp only [decide_eq_true_eq]
      exact char_ne_of_toNat c0 'e' (by
        have : ('e').toNat = 101 := by decide
        omega)
    · subst h
      rw [← hc0e]
      decide
  have hnoE : pyHas (intStr n) 'E' = false := by
    rw [pyHas, List.any_eq_false]
    intro c' hc'
    rcases hchars c' hc' with h | h
    · have hb := isDigit_toNat c' h
      simp only [decide_eq_true_eq]
      exact char_ne_of_toNat c' 'E' (by
        have : ('E').toNat = 69 := by decide
        omega)
    · subst h; decide
  unfold parse_single_value
  rw [hstrip]
  rw [if_neg (by rw [hct]; simp)]
  rw [if_neg hboolT, if_neg hboolF]
  rw [hnodot, hnoe, hnoE]
  simp only [Bool.not_false, Bool.and_self, if_pos]
  rw [pyInt_intStr n]
  rfl

/-- Shape of the printed float token: optional minus sign, then a non-empty
digit integer part, a dot, and a non-empty digit fraction part. -/
theorem pyFloatStr_shape (q : ℚ)
    (hden : 2 ^ pFactor 2 q.den * 5 ^ pFactor 5 q.den = q.den) :
    ∃ ip fp : List Char, ip ≠ [] ∧ fp ≠ [] ∧
      (∀ c ∈ ip, c.isDigit = true) ∧ (∀ c ∈ fp, c.isDigit = true) ∧
      pyFloatStr q =
        (if decide (q.num < 0) then ['-'] else []) ++ (ip ++ '.' :: fp) := by
  set a := pFactor 2 q.den with ha
  set b := pFactor 5 q.den with hb
  set e := max a b with he
  set scaled : Nat := q.num.natAbs * (2 ^ (e - a) * 5 ^ (e - b)) with hscaled
  set digs0 := natChars scaled with hdigs0
  set digs : List Char :=
    if digs0.length ≤ e then List.replicate (e + 1 - digs0.length) '0' ++ digs0
    else digs0 with hdigs
  have hdigs_all : ∀ c ∈ digs, c.isDigit = true := by
    rw [hdigs]
    split
    · intro c hc
      rcases List.mem_append.mp hc with h | h
      · have := List.eq_of_mem_replicate h
        subst this
        decide
      · exact natChars_all_digits scaled c h
    · exact natChars_all_digits scaled
  have hdigs_len : e < digs.length := by
    rw [hdigs]
    have hne := natChars_ne_nil scaled
    have h0 : 0 < digs0.length := by
      cases h : digs0 with
      | nil => exact absurd h hne
      | cons x t => simp [h]
    split
    · rename_i h
      rw [List.length_append, List.length_replicate]
      omega
    · rename_i h
      omega
  set ipart := digs.take (digs.length - e) with hipart
  set fpart := digs.drop (digs.length - e) with hfpart
  have hip_len : ipart.length = digs.length - e := by
    rw [hipart, List.length_take]
    omega
  have hfp_len : fpart.length = e := by
    rw [hfpart, List.length_drop]
    omega
  have hip_ne : ipart ≠ [] := by
    intro hh
    have hl := congrArg List.length hh
    rw [hip_len] at hl
    simp at hl
    omega
  have hip_fp : ipart ++ fpart = digs := List.take_append_drop _ _
  have hip_d : ∀ c ∈ ipart, c.isDigit = true := by
    intro c hc
    exact hdigs_all c (by rw [← hip_fp]; exact List.mem_append.mpr (Or.inl hc))
  have hfp_d : ∀ c ∈ fpart, c.isDigit = true := by
    intro c hc
    exact hdigs_all c (by rw [← hip_fp]; exact List.mem_append.mpr (Or.inr hc))
  refine ⟨ipart, if e = 0 then ['0'] else fpart, hip_ne, ?_, hip_d, ?_, ?_⟩
  · split
    · simp
    · rename_i h
      intro hh
      have hl := congrArg List.length hh
      rw [hfp_len] at hl
      simp at hl
      omega
  · split
    · intro c hc
      simp only [List.mem_singleton] at hc
      subst hc
      decide
    · exact hfp_d
  · rw [pyFloatStr]
    rw [if_pos hden]
    simp only [← ha, ← hb, ← he, ← hscaled, ← hdigs0, ← hdigs, ← hipart, ← hfpart]
    by_cases he0 : e = 0
    · rw [if_pos he0, if_pos he0]
      by_cases hneg : q.num < 0
      · rw [if_pos hneg, if_pos (by simpa using hneg)]
        simp
      · rw [if_neg hneg, if_neg (by simpa using hneg)]
        simp
    · rw [if_neg he0, if_neg he0]
      by_cases hneg : q.num < 0
      · rw [if_pos hneg, if_pos (by simpa using hneg)]
        simp
      · rw [if_neg hneg, if_neg (by simpa using hneg)]
        simp

/-- `parse_single_value` on a printed decimal float returns that float. -/
theorem parse_single_float (q : ℚ)
    (hden : 2 ^ pFactor 2 q.den * 5 ^ pFactor 5 q.den = q.den) :
    parse_single_value (pyFloatStr q) = .float q := by
  rcases pyFloatStr_shape q hden with ⟨ip, fp, hipne, hfpne, hipd, hfpd, htok⟩
  have hchars : ∀ c ∈ pyFloatStr q, c.isDigit = true ∨ c = '-' ∨ c = '.' := by
    rw [htok]
    intro c hc
    rcases List.mem_append.mp hc with h | h
    · right; left
      revert h
      split
      · simp only [List.mem_singleton]
        exact fun h => h
      · simp only [List.not_mem_nil]
        exact fun h => absurd h (by simp)
    · rcases List.mem_append.mp h with h2 | h2
      · left; exact hipd c h2
      · rcases List.mem_cons.mp h2 with h3 | h3
        · right; right; exact h3
        · left; exact hfpd c h3
  have hws : ∀ c ∈ pyFloatStr q, pyWs c = false := by
    intro c hc
    rcases hchars c hc with h | h | h
    · exact pyWs_false_of_digit c h
    · subst h; decide
    · subst h; decide
  have hstrip : pyStrip (pyFloatStr q) = pyFloatStr q :=
    pyStrip_eq_self_of_classes _ hws
  rcases List.exists_cons_of_ne_nil hipne with ⟨ci, ti, hcti⟩
  have hcd : ci.isDigit = true := hipd ci (by rw [hcti]; simp)
  obtain ⟨c, t, hct, hcsmall⟩ :
      ∃ c t, pyFloatStr q = c :: t ∧ c.toNat ≤ 57 := by
    rw [htok, hcti]
    by_cases hneg : q.num < 0
    · rw [if_pos (by simpa using hneg)]
      exact ⟨'-', _, rfl, by decide⟩
    · rw [if_neg (by simpa using hneg)]
      exact ⟨ci, _, rfl, (isDigit_toNat ci hcd).2⟩
  have hcup : upChar c = c := upChar_id_low c (by omega)
  have hup : pyUpper (pyFloatStr q) = c :: t.map upChar := by
    rw [hct, pyUpper, List.map_cons, hcup]
  have hboolT : ¬ (pyUpper (pyFloatStr q) = lit "YES" ∨
      pyUpper (pyFloatStr q) = lit "TRUE" ∨ pyUpper (pyFloatStr q) = lit "ON") := by
    rw [hup]
    push_neg
    refine ⟨?_, ?_, ?_⟩
    · exact cons_ne_of_head _ _ _ _ (char_ne_of_toNat c 'Y' (by
        have : ('Y').toNat = 89 := by decide
        omega))
    · exact cons_ne_of_head _ _ _ _ (char_ne_of_toNat c 'T' (by
        have : ('T').toNat = 84 := by decide
        omega))
    · exact cons_ne_of_head _ _ _ _ (char_ne_of_toNat c 'O' (by
        have : ('O').toNat = 79 := by decide
        omega))
  have hboolF : ¬ (pyUpper (pyFloatStr q) = lit "NO" ∨
      pyUpper (pyFloatStr q) = lit "FALSE" ∨ pyUpper (pyFloatStr q) = lit "OFF") := by
    rw [hup]
    push_neg
    refine ⟨?_, ?_, ?_⟩
    · exact cons_ne_of_head _ _ _ _ (char_ne_of_toNat c 'N' (by
        have : ('N').toNat = 78 := by decide
        omega))
    · exact cons_ne_of_head _ _ _ _ (char_ne_of_toNat c 'F' (by
        have : ('F').toNat = 70 := by decide
        omega))
    · exact cons_ne_of_head _ _ _ _ (char_ne_of_toNat c 'O' (by
        have : ('O').toNat = 79 := by decide
        omega))
  have hdot : pyHas (pyFloatStr q) '.' = true := by
    rw [pyHas, List.any_eq_true]
    refine ⟨'.', ?_, by simp⟩
    rw [htok]
    exact List.mem_append.mpr (Or.inr (List.mem_append.mpr (Or.inr (by simp))))
  unfold parse_single_value
  rw [hstrip]
  rw [if_neg (by rw [hct]; simp)]
  rw [if_neg hboolT, if_neg hboolF]
  rw [hdot]
  simp only [Bool.not_true, Bool.false_and]
  rw [if_neg (by simp)]
  rw [pyFloat_pyFloatStr q hden]
  rfl

/-! ### String-level utilities for the round-trip proof. -/

theorem pyStrip_nil : pyStrip [] = [] := rfl

theorem pyStrip_cons_ws (c : Char) (s : PStr) (h : pyWs c = true) :
    pyStrip (c :: s) = pyStrip s := by
  unfold pyStrip
  rw [List.dropWhile_cons_of_pos h]

theorem length_pyStrip_le (l : PStr) : (pyStrip l).length ≤ l.length := by
  unfold pyStrip
  calc ((l.dropWhile pyWs).reverse.dropWhile pyWs).reverse.length
      = ((l.dropWhile pyWs).reverse.dropWhile pyWs).length := List.length_reverse _
    _ ≤ (l.dropWhile pyWs).reverse.length := (List.dropWhile_sublist _).length_le
    _ = (l.dropWhile pyWs).length := List.length_reverse _
    _ ≤ l.length := (List.dropWhile_sublist _).length_le

theorem pyStrip_head_not_ws (s : PStr) (h : pyStrip s = s) :
    ∀ c ∈ s.head?, pyWs c = false := by
  intro c hc
  cases s with
  | nil => simp at hc
  | cons x t =>
    have hx : x = c := by simpa using hc
    rw [← hx]
    by_contra hw
    have hw' : pyWs x = true := by
      cases hcw : pyWs x with
      | true => rfl
      | false => exact absurd hcw hw
    have hlen := length_pyStrip_le t
    have hsc := pyStrip_cons_ws x t hw'
    have hstep : (pyStrip (x :: t)).length ≤ t.length := by
      rw [hsc]
      exact length_pyStrip_le t
    rw [h] at hstep
    simp only [List.length_cons] at hstep
    omega

theorem pyStrip_last_not_ws (s : PStr) (h : pyStrip s = s) :
    ∀ c ∈ s.getLast?, pyWs c = false := by
  intro c hc
  by_contra hw
  have hw' : pyWs c = true := by
    cases hcw : pyWs c with
    | true => rfl
    | false => exact absurd hcw hw
  have hsm : s.takeWhile pyWs ++ s.dropWhile pyWs = s :=
    List.takeWhile_append_dropWhile pyWs s
  cases hme : s.dropWhile pyWs with
  | nil =>
    have hps : pyStrip s = [] := by
      unfold pyStrip
      rw [hme]
      rfl
    rw [h] at hps
    subst hps
    simp at hc
  | cons y t =>
    have hmne : s.dropWhile pyWs ≠ [] := by rw [hme]; simp
    have hlast : (s.dropWhile pyWs).getLast? = some c := by
      have hg := List.getLast?_append_of_ne_nil (s.takeWhile pyWs) hmne
      rw [hsm] at hg
      rw [← hg]
      exact hc
    have hrevhead : (s.dropWhile pyWs).reverse.head? = some c := by
      rw [List.head?_reverse]
      exact hlast
    have hdrop : ((s.dropWhile pyWs).reverse.dropWhile pyWs).length <
        (s.dropWhile pyWs).reverse.length := by
      cases hmr : (s.dropWhile pyWs).reverse with
      | nil => rw [hmr] at hrevhead; simp at hrevhead
      | cons z u =>
        have hz : z = c := by rw [hmr] at hrevhead; simpa using hrevhead
        rw [hz, List.dropWhile_cons_of_pos hw']
        have h2u : (u.dropWhile pyWs).length ≤ u.length :=
          (List.dropWhile_sublist pyWs).length_le
        simp only [List.length_cons]
        omega
    have hps : (pyStrip s).length < s.length := by
      unfold pyStrip
      rw [List.length_reverse]
      calc ((s.dropWhile pyWs).reverse.dropWhile pyWs).length
          < (s.dropWhile pyWs).reverse.length := hdrop
        _ = (s.dropWhile pyWs).length := List.length_reverse _
        _ ≤ s.length := (List.dropWhile_sublist _).length_le
    rw [h] at hps
    omega

theorem pyStrip_eq_self_of_ends (l : PStr)
    (h1 : ∀ c ∈ l.head?, pyWs c = false) (h2 : ∀ c ∈ l.getLast?, pyWs c = false) :
    pyStrip l = l := by
  unfold pyStrip
  have hd : l.dropWhile pyWs = l := dropWhile_eq_self_of_head h1
  rw [hd]
  have hr : l.reverse.dropWhile pyWs = l.reverse := by
    apply dropWhile_eq_self_of_head
    intro c hc
    rw [List.head?_reverse] at hc
    exact h2 c hc
  rw [hr, List.reverse_reverse]

theorem pyStarts_cons (c : Char) (t : PStr) (d : Char) (u : PStr) :
    pyStarts (c :: t) (d :: u) = ((c = d) && pyStarts t u) := rfl

theorem pyEnds_single_append (c : Char) (a b : PStr) (hb : b ≠ []) :
    pyEnds [c] (a ++ b) = pyEnds [c] b := by
  unfold pyEnds
  rw [List.reverse_append]
  rcases List.exists_cons_of_ne_nil (List.reverse_ne_nil_iff.mpr hb) with ⟨x, u, hx⟩
  rw [hx]
  rfl

theorem pyEnds_single_iff (c : Char) (l : PStr) :
    pyEnds [c] l = true ↔ l.getLast? = some c := by
  unfold pyEnds
  cases hr : l.reverse with
  | nil =>
    have hl : l = [] := by simpa using congrArg List.reverse hr
    subst hl
    simp [pyStarts]
  | cons x u =>
    have hlast : l.getLast? = some x := by
      rw [← List.head?_reverse, hr]
      rfl
    rw [hlast]
    simp [pyStarts, eq_comm]

/-! ### Splitting the serialized comma-join back into elements. -/

/-- Characters that interact with the serializer round trip inside lists:
an element must contain no commas and no parentheses. -/
def noSpecial (s : PStr) : Prop :=
  ∀ c ∈ s, ¬ c = ',' ∧ ¬ c = '(' ∧ ¬ c = ')'

/-- Comma-space join on raw strings (the string-level shape of
`joinCommaStr`). -/
def joinSep : List PStr → PStr
  | [] => []
  | [a] => a
  | a :: r => a ++ (',' :: ' ' :: joinSep r)

theorem joinCommaStr_eq (l : List CValue) :
    joinCommaStr l = joinSep (l.map pyStr) := by
  induction l with
  | nil => rfl
  | cons a r ih =>
    cases r with
    | nil => rfl
    | cons b t =>
      simp only [joinCommaStr, List.map_cons, joinSep]
      rw [ih]
      simp [lit]

theorem sprLoop_push (s : PStr) (hs : noSpecial s) :
    ∀ (cur : List Char) (acc : List PStr),
      sprLoop s 0 cur acc = sprLoop [] 0 (s.reverse ++ cur) acc := by
  induction s with
  | nil => intro cur acc; rfl
  | cons c t ih =>
    intro cur acc
    have hc := hs c (by simp)
    conv_lhs => rw [sprLoop]
    rw [if_neg hc.2.1, if_neg hc.2.2, if_neg (by simp [hc.1])]
    rw [ih (fun x hx => hs x (by simp [hx])) (c :: cur) acc]
    congr 1
    simp

theorem sprLoop_sep (s : PStr) (hs : noSpecial s) :
    ∀ (rest : List Char) (cur : List Char) (acc : List PStr),
      sprLoop (s ++ ',' :: rest) 0 cur acc =
        sprLoop rest 0 [] ((cur.reverse ++ s) :: acc) := by
  induction s with
  | nil =>
    intro rest cur acc
    rw [List.nil_append]
    conv_lhs => rw [sprLoop]
    rw [if_neg (by simp), if_neg (by simp), if_pos (by simp)]
    simp
  | cons c t ih =>
    intro rest cur acc
    have hc := hs c (by simp)
    rw [List.cons_append]
    conv_lhs => rw [sprLoop]
    rw [if_neg hc.2.1, if_neg hc.2.2, if_neg (by simp [hc.1])]
    rw [ih (fun x hx => hs x (by simp [hx])) rest (c :: cur) acc]
    congr 2
    simp

theorem sprLoop_join (rest : List PStr) :
    ∀ (e1 : PStr) (acc : List PStr), e1 ≠ [] → noSpecial e1 →
      (∀ s ∈ rest, noSpecial s) →
      sprLoop (joinSep (e1 :: rest)) 0 [] acc =
        acc.reverse ++ (e1 :: rest.map (fun s => ' ' :: s)) := by
  induction rest with
  | nil =>
    intro e1 acc hne hs _
    show sprLoop e1 0 [] acc = acc.reverse ++ [e1]
    rw [sprLoop_push e1 hs [] acc]
    rw [sprLoop]
    rw [if_neg (by
      simp only [List.append_nil, List.isEmpty_eq_true, List.reverse_eq_nil_iff]
      exact hne)]
    simp
  | cons e2 r ih =>
    intro e1 acc hne hs hrest
    show sprLoop (e1 ++ ',' :: (' ' :: joinSep (e2 :: r))) 0 [] acc =
      acc.reverse ++ (e1 :: (e2 :: r).map (fun s => ' ' :: s))
    rw [sprLoop_sep e1 hs (' ' :: joinSep (e2 :: r)) [] acc]
    have hjs : (' ' :: joinSep (e2 :: r)) = joinSep ((' ' :: e2) :: r) := by
      cases r with
      | nil => rfl
      | cons b t => rfl
    rw [hjs]
    rw [ih (' ' :: e2) ((([] : List Char).reverse ++ e1) :: acc) (by simp)
      (by
        intro c hc
        rcases List.mem_cons.mp hc with h | h
        · subst h; refine ⟨by decide, by decide, by decide⟩
        · exact hrest e2 (by simp) c h)
      (fun s hsm => hrest s (by simp [hsm]))]
    simp

/-- The serializer's comma join splits back into its elements; every
element after the first carries one leading space absorbed by the
per-element strip. -/
theorem split_join (e1 : PStr) (rest : List PStr) (hne : e1 ≠ [])
    (h1 : noSpecial e1) (hrest : ∀ s ∈ rest, noSpecial s) :
    split_respecting_parentheses (joinSep (e1 :: rest)) =
      e1 :: rest.map (fun s => ' ' :: s) := by
  unfold split_respecting_parentheses
  rw [sprLoop_join rest e1 [] hne h1 hrest]
  rfl

/-! ### Side conditions of the amended round-trip claim, and per-value
token properties. -/

/-- A rational that is a finite decimal (every Python float denotes one). -/
def decimalRat (q : ℚ) : Prop :=
  2 ^ pFactor 2 q.den * 5 ^ pFactor 5 q.den = q.den

/-- A string scalar whose serialized token parses back to itself: not a
boolean/numeric/quoted/parenthesised token, not the omitted `none`, free of
the comment marker, line breaks and a trailing continuation backslash, and
trim-invariant. -/
def stableScalarStr (s : PStr) : Prop :=
  parse_single_value s = .str s ∧ pyStrip s = s ∧ ¬ pyLower s = lit "none" ∧
  ¬ (pyStarts (lit "(") s = true ∧ pyEnds (lit ")") s = true) ∧
  pyHas s '%' = false ∧ pyHas s '\n' = false ∧ pyHas s '\r' = false ∧
  pyEnds (lit "\\") s = false

/-- A string inside a serialized list: additionally non-empty and free of
commas and parentheses (the join separators). -/
def stableElemStr (s : PStr) : Prop :=
  parse_single_value s = .str s ∧ pyStrip s = s ∧ s ≠ [] ∧ noSpecial s ∧
  pyHas s '%' = false ∧ pyHas s '\n' = false ∧ pyHas s '\r' = false

/-- Scalar values representable by the serializer/parser pair. -/
def scalarOk : CValue → Prop
  | .bool _ => True
  | .int _ => True
  | .float q => decimalRat q
  | .str s => stableScalarStr s
  | _ => False

/-- List-element values representable by the serializer/parser pair. -/
def elemOk : CValue → Prop
  | .bool _ => True
  | .int _ => True
  | .float q => decimalRat q
  | .str s => stableElemStr s
  | _ => False

/-- Representable document values: scalars, or single-level lists of
scalars (the claim's stated scope; nested lists are the documented lossy
case). -/
def valueOk : CValue → Prop
  | .list l => ∀ e ∈ l, elemOk e
  | v => scalarOk v

/-- Well-formed serializable keys. -/
def keyOk (k : PStr) : Prop :=
  pyStrip k = k ∧ k ≠ [] ∧ pyHas k '%' = false ∧ pyHas k '=' = false ∧
  pyHas k '\n' = false ∧ pyHas k '\r' = false

/-- Well-formed document for the round trip: unique well-formed keys and
representable values. -/
def docOk (d : Doc) : Prop :=
  (d.map Prod.fst).Nodup ∧ ∀ kv ∈ d, keyOk kv.1 ∧ valueOk kv.2

/-- The header line written by the serializer is ignored by the parser:
blank or a comment. -/
def headerOk (desc : PStr) : Prop :=
  pyStrip (desc ++ lit "  ") = [] ∨
  pyStarts (lit "%") (pyStrip (desc ++ lit "  ")) = true

theorem numeric_char_props (c : Char) (h : c.isDigit = true ∨ c = '-' ∨ c = '.') :
    pyWs c = false ∧ ¬ c = ',' ∧ ¬ c = '(' ∧ ¬ c = ')' ∧ ¬ c = '%' ∧
    ¬ c = '\n' ∧ ¬ c = '\r' ∧ ¬ c = '\\' ∧ ¬ c = '=' := by
  rcases h with h | h | h
  · have hb := isDigit_toNat c h
    refine ⟨pyWs_false_of_digit c h, ?_, ?_, ?_, ?_, ?_, ?_, ?_, ?_⟩
    · exact char_ne_of_toNat c ',' (by
        have hx : (',').toNat = 44 := by decide
        omega)
    · exact char_ne_of_toNat c '(' (by
        have hx : ('(').toNat = 40 := by decide
        omega)
    · exact char_ne_of_toNat c ')' (by
        have hx : (')').toNat = 41 := by decide
        omega)
    · exact char_ne_of_toNat c '%' (by
        have hx : ('%').toNat = 37 := by decide
        omega)
    · exact char_ne_of_toNat c '\n' (by
        have hx : ('\n').toNat = 10 := by decide
        omega)
    · exact char_ne_of_toNat c '\r' (by
        have hx : ('\r').toNat = 13 := by decide
        omega)
    · exact char_ne_of_toNat c '\\' (by
        have hx : ('\\').toNat = 92 := by decide
        omega)
    · exact char_ne_of_toNat c '=' (by
        have hx : ('=').toNat = 61 := by decide
        omega)
  · subst h
    refine ⟨by decide, by decide, by decide, by decide, by decide, by decide,
      by decide, by decide, by decide⟩
  · subst h
    refine ⟨by decide, by decide, by decide, by decide, by decide, by decide,
      by decide, by decide, by decide⟩

theorem pyHas_false_of (l : PStr) (x : Char) (h : ∀ c ∈ l, ¬ c = x) :
    pyHas l x = false := by
  rw [pyHas, List.any_eq_false]
  intro c hc
  simpa using h c hc

theorem intStr_ne_nil (n : Int) : intStr n ≠ [] := by
  unfold intStr
  split
  · simp
  · exact natChars_ne_nil _

theorem pyFloatStr_class (q : ℚ) (hden : decimalRat q) :
    ∀ c ∈ pyFloatStr q, c.isDigit = true ∨ c = '-' ∨ c = '.' := by
  rcases pyFloatStr_shape q hden with ⟨ip, fp, hipne, hfpne, hipd, hfpd, htok⟩
  rw [htok]
  intro c hc
  rcases List.mem_append.mp hc with h | h
  · right; left
    revert h
    split
    · simp only [List.mem_singleton]
      exact fun h => h
    · simp only [List.not_mem_nil]
      exact fun h => absurd h (by simp)
  · rcases List.mem_append.mp h with h2 | h2
    · left; exact hipd c h2
    · rcases List.mem_cons.mp h2 with h3 | h3
      · right; right; exact h3
      · left; exact hfpd c h3

theorem pyFloatStr_ne_nil (q : ℚ) (hden : decimalRat q) : pyFloatStr q ≠ [] := by
  rcases pyFloatStr_shape q hden with ⟨ip, fp, hipne, hfpne, hipd, hfpd, htok⟩
  rw [htok]
  rcases List.exists_cons_of_ne_nil hipne with ⟨ci, ti, hcti⟩
  rw [hcti]
  split <;> simp

/-- Bundled properties of a serialized list element. -/
theorem elem_props (v : CValue) (h : elemOk v) :
    pyStr v ≠ [] ∧ noSpecial (pyStr v) ∧ pyStrip (pyStr v) = pyStr v ∧
    parse_single_value (pyStr v) = v ∧ pyHas (pyStr v) '%' = false ∧
    pyHas (pyStr v) '\n' = false ∧ pyHas (pyStr v) '\r' = false := by
  cases v with
  | bool b =>
    cases b
    · exact ⟨by decide, by unfold noSpecial; decide, by decide, rfl, by decide,
        by decide, by decide⟩
    · exact ⟨by decide, by unfold noSpecial; decide, by decide, rfl, by decide,
        by decide, by decide⟩
  | int n =>
    have hcl : ∀ c ∈ pyStr (.int n), c.isDigit = true ∨ c = '-' ∨ c = '.' := by
      intro c hc
      rcases intStr_chars n c hc with h2 | h2
      · left; exact h2
      · right; left; exact h2
    refine ⟨intStr_ne_nil n, ?_, ?_, parse_single_int n, ?_, ?_, ?_⟩
    · intro c hc
      have hp := numeric_char_props c (hcl c hc)
      exact ⟨hp.2.1, hp.2.2.1, hp.2.2.2.1⟩
    · exact pyStrip_eq_self_of_classes _ (fun c hc => (numeric_char_props c (hcl c hc)).1)
    · exact pyHas_false_of _ _ (fun c hc => (numeric_char_props c (hcl c hc)).2.2.2.2.1)
    · exact pyHas_false_of _ _ (fun c hc => (numeric_char_props c (hcl c hc)).2.2.2.2.2.1)
    · exact pyHas_false_of _ _ (fun c hc => (numeric_char_props c (hcl c hc)).2.2.2.2.2.2.1)
  | float q =>
    have hq : decimalRat q := h
    have hcl := pyFloatStr_class q hq
    refine ⟨pyFloatStr_ne_nil q hq, ?_, ?_, parse_single_float q hq, ?_, ?_, ?_⟩
    · intro c hc
      have hp := numeric_char_props c (hcl c hc)
      exact ⟨hp.2.1, hp.2.2.1, hp.2.2.2.1⟩
    · exact pyStrip_eq_self_of_classes _ (fun c hc => (numeric_char_props c (hcl c hc)).1)
    · exact pyHas_false_of _ _ (fun c hc => (numeric_char_props c (hcl c hc)).2.2.2.2.1)
    · exact pyHas_false_of _ _ (fun c hc => (numeric_char_props c (hcl c hc)).2.2.2.2.2.1)
    · exact pyHas_false_of _ _ (fun c hc => (numeric_char_props c (hcl c hc)).2.2.2.2.2.2.1)
  | str s =>
    obtain ⟨hp, hst, hne, hns, h1, h2, h3⟩ := h
    exact ⟨hne, hns, hst, hp, h1, h2, h3⟩
  | none => exact absurd h (by simp [elemOk])
  | list l => exact absurd h (by simp [elemOk])

/-- The value token written by the serializer for one entry. -/
def tokOf : CValue → PStr
  | .bool b => if b then lit "YES" else lit "NO"
  | .list l => lit "(" ++ (joinCommaStr (flattenOneLevel l) ++ lit ")")
  | v => pyStr v

theorem flattenOneLevel_id (l : List CValue) (h : ∀ e ∈ l, elemOk e) :
    flattenOneLevel l = l := by
  unfold flattenOneLevel
  have haux : ∀ (l2 : List CValue), (∀ e ∈ l2, elemOk e) → ∀ (acc : List CValue),
      l2.foldl (fun acc sub =>
        match sub with
        | .list s2 => acc ++ s2
        | v => acc ++ [v]) acc = acc ++ l2 := by
    intro l2 hl2
    induction l2 with
    | nil => intro acc; simp
    | cons e r ih =>
      intro acc
      have he : elemOk e := hl2 e (by simp)
      have hr : ∀ x ∈ r, elemOk x := fun x hx => hl2 x (by simp [hx])
      simp only [List.foldl_cons]
      cases e with
      | list l3 => exact absurd he (by simp [elemOk])
      | none => exact absurd he (by simp [elemOk])
      | bool b =>
        rw [ih hr (acc ++ [CValue.bool b])]
        simp
      | int n =>
        rw [ih hr (acc ++ [CValue.int n])]
        simp
      | float q =>
        rw [ih hr (acc ++ [CValue.float q])]
        simp
      | str s2 =>
        rw [ih hr (acc ++ [CValue.str s2])]
        simp
  rw [haux l h []]
  simp

theorem mem_joinSep (els : List PStr) (c : Char) (hc : c ∈ joinSep els) :
    (∃ s ∈ els, c ∈ s) ∨ c = ',' ∨ c = ' ' := by
  induction els with
  | nil => simp [joinSep] at hc
  | cons a r ih =>
    cases r with
    | nil =>
      left
      exact ⟨a, by simp, hc⟩
    | cons b t =>
      rw [show joinSep (a :: b :: t) = a ++ (',' :: ' ' :: joinSep (b :: t)) from rfl] at hc
      rcases List.mem_append.mp hc with h | h
      · left; exact ⟨a, by simp, h⟩
      · rcases List.mem_cons.mp h with h2 | h2
        · right; left; exact h2
        · rcases List.mem_cons.mp h2 with h3 | h3
          · right; right; exact h3
          · rcases ih h3 with ⟨s, hs, hcs⟩ | h4
            · left; exact ⟨s, by simp [hs], hcs⟩
            · right; exact h4

theorem joinSep_ne_nil (e : PStr) (r : List PStr) (he : e ≠ []) :
    joinSep (e :: r) ≠ [] := by
  cases r with
  | nil => exact he
  | cons b t =>
    rw [show joinSep (e :: b :: t) = e ++ (',' :: ' ' :: joinSep (b :: t)) from rfl]
    simp

theorem joinSep_head (e : PStr) (r : List PStr) (he : e ≠ []) :
    (joinSep (e :: r)).head? = e.head? := by
  rcases List.exists_cons_of_ne_nil he with ⟨c, t, hct⟩
  cases r with
  | nil => rfl
  | cons b tb =>
    rw [show joinSep (e :: b :: tb) = e ++ (',' :: ' ' :: joinSep (b :: tb)) from rfl,
      hct]
    rfl

theorem joinSep_getLast (r : List PStr) :
    ∀ (e : PStr), e ≠ [] → (∀ s ∈ r, s ≠ []) →
      ∃ s, (s = e ∨ s ∈ r) ∧ (joinSep (e :: r)).getLast? = s.getLast? := by
  induction r with
  | nil =>
    intro e he _
    exact ⟨e, Or.inl rfl, rfl⟩
  | cons b t ih =>
    intro e he hr
    rcases ih b (hr b (by simp)) (fun s hs => hr s (by simp [hs])) with ⟨s, hsm, hlast⟩
    refine ⟨s, ?_, ?_⟩
    · right
      rcases hsm with h | h
      · simp [h]
      · simp [h]
    · rw [show joinSep (e :: b :: t) = e ++ (',' :: ' ' :: joinSep (b :: t)) from rfl]
      have hbt : joinSep (b :: t) ≠ [] := joinSep_ne_nil b t (hr b (by simp))
      rw [List.getLast?_append_of_ne_nil e
        (show (',' :: ' ' :: joinSep (b :: t)) ≠ [] by simp)]
      have h2 : (',' :: ' ' :: joinSep (b :: t)) = [',', ' '] ++ joinSep (b :: t) := rfl
      rw [h2, List.getLast?_append_of_ne_nil _ hbt]
      exact hlast

/-- Parsing the serialized form of a representable single-level list
recovers the list. -/
theorem parse_config_list (l : List CValue) (h : ∀ e ∈ l, elemOk e) :
    parse_config_value (tokOf (.list l)) = .list l := by
  cases l with
  | nil => rfl
  | cons e rest =>
    have he := elem_props e (h e (by simp))
    have hrestne : ∀ s ∈ (rest.map pyStr), s ≠ [] := by
      intro s hs
      rcases List.mem_map.mp hs with ⟨v, hv, hveq⟩
      rw [← hveq]
      exact (elem_props v (h v (by simp [hv]))).1
    have hrestsp : ∀ s ∈ (rest.map pyStr), noSpecial s := by
      intro s hs
      rcases List.mem_map.mp hs with ⟨v, hv, hveq⟩
      rw [← hveq]
      exact (elem_props v (h v (by simp [hv]))).2.1
    have hflat : flattenOneLevel (e :: rest) = e :: rest := flattenOneLevel_id _ h
    set J := joinSep (pyStr e :: rest.map pyStr) with hJdef
    have hJ : joinCommaStr (flattenOneLevel (e :: rest)) = J := by
      rw [hflat, joinCommaStr_eq]
      rfl
    have htok : tokOf (.list (e :: rest)) = '(' :: (J ++ [')']) := by
      show lit "(" ++ (joinCommaStr (flattenOneLevel (e :: rest)) ++ lit ")") =
        '(' :: (J ++ [')'])
      rw [hJ]
      rfl
    have hJne : J ≠ [] := joinSep_ne_nil _ _ he.1
    have hJhead : J.head? = (pyStr e).head? := joinSep_head _ _ he.1
    have hJstrip : pyStrip J = J := by
      apply pyStrip_eq_self_of_ends
      · intro c hc
        rw [hJhead] at hc
        exact pyStrip_head_not_ws (pyStr e) he.2.2.1 c hc
      · rcases joinSep_getLast (rest.map pyStr) (pyStr e) he.1 hrestne with
          ⟨s, hsm, hlast⟩
        intro c hc
        rw [hlast] at hc
        rcases hsm with hse | hsr
        · subst hse
          exact pyStrip_last_not_ws (pyStr e) he.2.2.1 c hc
        · rcases List.mem_map.mp hsr with ⟨v, hv, hveq⟩
          have hp := elem_props v (h v (by simp [hv]))
          rw [← hveq] at hc
          exact pyStrip_last_not_ws (pyStr v) hp.2.2.1 c hc
    have hstrip_tok : pyStrip ('(' :: (J ++ [')'])) = '(' :: (J ++ [')']) := by
      apply pyStrip_eq_self_of_ends
      · intro c hc
        simp only [List.head?_cons, Option.mem_def, Option.some.injEq] at hc
        subst hc
        decide
      · intro c hc
        have hshape : ('(' :: (J ++ [')'])) = ('(' :: J) ++ [')'] := by simp
        rw [hshape, List.getLast?_concat] at hc
        simp only [Option.mem_def, Option.some.injEq] at hc
        subst hc
        decide
    have hdropLast : (J ++ [')']).dropLast = J := by
      rw [List.dropLast_concat]
    have hstart : pyStarts (lit "(") ('(' :: (J ++ [')'])) = true := by
      simp [pyStarts, lit]
    have hend : pyEnds (lit ")") ('(' :: (J ++ [')'])) = true := by
      apply (pyEnds_single_iff ')' _).mpr
      have hshape : ('(' :: (J ++ [')'])) = ('(' :: J) ++ [')'] := by simp
      rw [hshape, List.getLast?_concat]
    have hJE : J.isEmpty = false := by
      cases hJc : J with
      | nil => exact absurd hJc hJne
      | cons x t => rfl
    have hsplit : split_respecting_parentheses J =
        pyStr e :: (rest.map pyStr).map (fun s => ' ' :: s) :=
      split_join (pyStr e) (rest.map pyStr) he.1 he.2.1 hrestsp
    have hmapid : ∀ (r : List CValue), (∀ v ∈ r, elemOk v) →
        r.map (fun v => parse_single_value (pyStrip (' ' :: pyStr v))) = r := by
      intro r hr
      induction r with
      | nil => rfl
      | cons v t ih =>
        have hv := elem_props v (hr v (by simp))
        simp only [List.map_cons]
        rw [pyStrip_cons_ws ' ' (pyStr v) (by decide), hv.2.2.1, hv.2.2.2.1]
        rw [ih (fun x hx => hr x (by simp [hx]))]
    unfold parse_config_value
    rw [htok, hstrip_tok]
    rw [if_pos (by rw [hstart, hend]; rfl)]
    have hdrop1 : ('(' :: (J ++ [')'])).drop 1 = J ++ [')'] := rfl
    rw [hdrop1, hdropLast, hJstrip]
    rw [if_neg (by rw [hJE]; simp)]
    rw [hsplit]
    simp only [List.map_cons, List.map_map, Function.comp_def]
    rw [he.2.2.1, he.2.2.2.1]
    rw [hmapid rest (fun v hv => h v (by simp [hv]))]

theorem parse_config_of_single (s : PStr) (v : CValue) (hstrip : pyStrip s = s)
    (hnp : ¬ (pyStarts (lit "(") s = true ∧ pyEnds (lit ")") s = true))
    (hp : parse_single_value s = v) : parse_config_value s = v := by
  unfold parse_config_value
  rw [hstrip]
  rw [if_neg (by rw [Bool.and_eq_true]; exact hnp)]
  exact hp

theorem pyStarts_paren_false (s : PStr)
    (hcl : ∀ c ∈ s, c.isDigit = true ∨ c = '-' ∨ c = '.') (hne : s ≠ []) :
    pyStarts (lit "(") s = false := by
  rcases List.exists_cons_of_ne_nil hne with ⟨c, t, hct⟩
  subst hct
  have hc := hcl c (by simp)
  have hnec : ¬ ('(' = c) := by
    intro hh
    rcases hc with h | h | h
    · have hb := isDigit_toNat c h
      rw [← hh] at hb
      revert hb
      decide
    · rw [h] at hh; exact absurd hh (by decide)
    · rw [h] at hh; exact absurd hh (by decide)
  simp [lit, pyStarts, hnec]

theorem pyEnds_bs_false_of_class (s : PStr)
    (hcl : ∀ c ∈ s, c.isDigit = true ∨ c = '-' ∨ c = '.') :
    pyEnds (lit "\\") s = false := by
  cases hE : pyEnds (lit "\\") s with
  | false => rfl
  | true =>
    exfalso
    have hlast : s.getLast? = some '\\' := (pyEnds_single_iff '\\' s).mp hE
    have hmem : '\\' ∈ s := List.mem_of_mem_getLast? (by rw [hlast]; rfl)
    have := numeric_char_props '\\' (hcl '\\' hmem)
    exact this.2.2.2.2.2.2.2.1 rfl

theorem pyHas_to_forall (s : PStr) (x : Char) (h : pyHas s x = false) :
    ∀ c ∈ s, ¬ c = x := by
  intro c hc
  rw [pyHas, List.any_eq_false] at h
  simpa using h c hc

/-- Character membership facts for the serialized list token. -/
theorem list_tok_chars (l : List CValue) (h : ∀ e ∈ l, elemOk e) :
    ∀ c ∈ tokOf (.list l),
      c = '(' ∨ c = ')' ∨ c = ',' ∨ c = ' ' ∨ ∃ v ∈ l, c ∈ pyStr v := by
  intro c hc
  have hshape : tokOf (.list l) =
      '(' :: (joinCommaStr (flattenOneLevel l) ++ [')']) := rfl
  rw [hshape] at hc
  rcases List.mem_cons.mp hc with h1 | h1
  · left; exact h1
  · rcases List.mem_append.mp h1 with h2 | h2
    · rw [flattenOneLevel_id l h, joinCommaStr_eq] at h2
      cases hl : l with
      | nil =>
        rw [hl] at h2
        simp [joinSep] at h2
      | cons e rest =>
        rw [hl] at h2
        rcases mem_joinSep _ c (by simpa using h2) with ⟨s, hs, hcs⟩ | hsep
        · rcases List.mem_cons.mp hs with hse | hsr
          · right; right; right; right
            exact ⟨e, by simp, hse ▸ hcs⟩
          · rcases List.mem_map.mp hsr with ⟨v, hv, hveq⟩
            right; right; right; right
            exact ⟨v, by simp [hv], hveq.symm ▸ hcs⟩
        · rcases hsep with h3 | h3
          · right; right; left; exact h3
          · right; right; right; left; exact h3
    · right; left
      simpa using h2

/-- The bundled token facts for every representable value. -/
theorem tok_props (v : CValue) (h : valueOk v) :
    pyStrip (tokOf v) = tokOf v ∧ parse_config_value (tokOf v) = v ∧
    pyHas (tokOf v) '%' = false ∧ pyHas (tokOf v) '\n' = false ∧
    pyHas (tokOf v) '\r' = false ∧ pyEnds (lit "\\") (tokOf v) = false := by
  cases v with
  | none => exact absurd h (by simp [valueOk, scalarOk])
  | bool b =>
    cases b
    · exact ⟨by decide, rfl, by decide, by decide, by decide, by decide⟩
    · exact ⟨by decide, rfl, by decide, by decide, by decide, by decide⟩
  | int n =>
    have hep := elem_props (.int n) (by simp [elemOk])
    have hcl : ∀ c ∈ intStr n, c.isDigit = true ∨ c = '-' ∨ c = '.' := by
      intro c hc
      rcases intStr_chars n c hc with h2 | h2
      · left; exact h2
      · right; left; exact h2
    refine ⟨hep.2.2.1, ?_, hep.2.2.2.2.1, hep.2.2.2.2.2.1, hep.2.2.2.2.2.2, ?_⟩
    · exact parse_config_of_single _ _ hep.2.2.1
        (by
          rw [show tokOf (CValue.int n) = intStr n from rfl,
            pyStarts_paren_false _ hcl (intStr_ne_nil n)]
          simp)
        (parse_single_int n)
    · exact pyEnds_bs_false_of_class _ hcl
  | float q =>
    have hq : decimalRat q := h
    have hep := elem_props (.float q) hq
    have hcl := pyFloatStr_class q hq
    refine ⟨hep.2.2.1, ?_, hep.2.2.2.2.1, hep.2.2.2.2.2.1, hep.2.2.2.2.2.2, ?_⟩
    · exact parse_config_of_single _ _ hep.2.2.1
        (by
          rw [show tokOf (CValue.float q) = pyFloatStr q from rfl,
            pyStarts_paren_false _ hcl (pyFloatStr_ne_nil q hq)]
          simp)
        (parse_single_float q hq)
    · exact pyEnds_bs_false_of_class _ hcl
  | str s =>
    obtain ⟨hp, hst, hnone, hnp, h1, h2, h3, h4⟩ := h
    exact ⟨hst, parse_config_of_single _ _ hst hnp hp, h1, h2, h3, h4⟩
  | list l =>
    have hl : ∀ e ∈ l, elemOk e := h
    have hchars := list_tok_chars l hl
    have hshape : tokOf (.list l) =
        '(' :: (joinCommaStr (flattenOneLevel l) ++ [')']) := rfl
    have hstrip : pyStrip (tokOf (.list l)) = tokOf (.list l) := by
      rw [hshape]
      apply pyStrip_eq_self_of_ends
      · intro c hc
        simp only [List.head?_cons, Option.mem_def, Option.some.injEq] at hc
        subst hc
        decide
      · intro c hc
        have hsh : ('(' :: (joinCommaStr (flattenOneLevel l) ++ [')'])) =
            ('(' :: joinCommaStr (flattenOneLevel l)) ++ [')'] := by simp
        rw [hsh, List.getLast?_concat] at hc
        simp only [Option.mem_def, Option.some.injEq] at hc
        subst hc
        decide
    have hno : ∀ (x : Char), (x = '(' → False) → (x = ')' → False) →
        (x = ',' → False) → (x = ' ' → False) →
        (∀ v ∈ l, pyHas (pyStr v) x = false) → pyHas (tokOf (.list l)) x = false := by
      intro x hx1 hx2 hx3 hx4 hels
      apply pyHas_false_of
      intro c hc
      rcases hchars c hc with h1 | h1 | h1 | h1 | ⟨v, hv, hcv⟩
      · intro hh; rw [hh] at h1; exact hx1 h1
      · intro hh; rw [hh] at h1; exact hx2 h1
      · intro hh; rw [hh] at h1; exact hx3 h1
      · intro hh; rw [hh] at h1; exact hx4 h1
      · exact pyHas_to_forall _ _ (hels v hv) c hcv
    refine ⟨hstrip, parse_config_list l hl, ?_, ?_, ?_, ?_⟩
    · exact hno '%' (by decide) (by decide) (by decide) (by decide)
        (fun v hv => (elem_props v (hl v hv)).2.2.2.2.1)
    · exact hno '\n' (by decide) (by decide) (by decide) (by decide)
        (fun v hv => (elem_props v (hl v hv)).2.2.2.2.2.1)
    · exact hno '\r' (by decide) (by decide) (by decide) (by decide)
        (fun v hv => (elem_props v (hl v hv)).2.2.2.2.2.2)
    · rw [hshape]
      cases hE : pyEnds (lit "\\") ('(' :: (joinCommaStr (flattenOneLevel l) ++ [')'])) with
      | false => rfl
      | true =>
        exfalso
        have hlast := (pyEnds_single_iff '\\' _).mp hE
        have hsh : ('(' :: (joinCommaStr (flattenOneLevel l) ++ [')'])) =
            ('(' :: joinCommaStr (flattenOneLevel l)) ++ [')'] := by simp
        rw [hsh, List.getLast?_concat] at hlast
        simp at hlast

/-! ### The serializer line for one entry, and how `convLoop` consumes it. -/

theorem pyLower_paren_ne_none (t : PStr) : ¬ pyLower ('(' :: t) = lit "none" := by
  intro h
  have h2 : lowChar '(' :: t.map lowChar = lit "none" := h
  rw [show lit "none" = 'n' :: lit "one" from rfl] at h2
  injection h2 with h3 h4
  exact absurd h3 (by decide)

theorem fmtEntry_eq (k : PStr) (v : CValue) (h : valueOk v) :
    fmtEntryLine k v = some (k ++ lit "= " ++ tokOf v) := by
  cases v with
  | none => exact absurd h (by simp [valueOk, scalarOk])
  | bool b => cases b <;> rfl
  | int n => rfl
  | float q => rfl
  | str s =>
    obtain ⟨hp, hst, hnone, hrest⟩ := h
    show (if pyLower s = lit "none" then Option.none
      else some (k ++ lit "= " ++ s)) = some (k ++ lit "= " ++ tokOf (CValue.str s))
    rw [if_neg hnone]
    rfl
  | list l =>
    have hcond : ¬ pyLower (lit "(" ++ joinCommaStr (flattenOneLevel l) ++ lit ")") =
        lit "none" :=
      pyLower_paren_ne_none (joinCommaStr (flattenOneLevel l) ++ lit ")")
    show (if pyLower (lit "(" ++ joinCommaStr (flattenOneLevel l) ++ lit ")") = lit "none"
        then Option.none
        else some (k ++ lit "= " ++ (lit "(" ++ joinCommaStr (flattenOneLevel l) ++ lit ")")))
      = some (k ++ lit "= " ++ tokOf (CValue.list l))
    rw [if_neg hcond]
    simp [tokOf, List.append_assoc]

theorem pyHas_append (a b : PStr) (c : Char) :
    pyHas (a ++ b) c = (pyHas a c || pyHas b c) := by
  simp [pyHas, List.any_append]

theorem headq_append (a b : PStr) (h : a ≠ []) : (a ++ b).head? = a.head? := by
  cases a with
  | nil => exact absurd rfl h
  | cons x t => rfl

theorem takeWhile_ne_eq (r : PStr) : ∀ (k : PStr), (∀ c ∈ k, ¬ c = '=') →
    (k ++ '=' :: r).takeWhile (· ≠ '=') = k := by
  intro k
  induction k with
  | nil =>
    intro _
    rw [List.nil_append, List.takeWhile_cons_of_neg (by simp)]
  | cons x t ih =>
    intro hk
    rw [List.cons_append,
      List.takeWhile_cons_of_pos (by simpa using hk x (by simp)),
      ih (fun c hc => hk c (by simp [hc]))]

theorem dropWhile_ne_eq (r : PStr) : ∀ (k : PStr), (∀ c ∈ k, ¬ c = '=') →
    (k ++ '=' :: r).dropWhile (· ≠ '=') = '=' :: r := by
  intro k
  induction k with
  | nil =>
    intro _
    rw [List.nil_append, List.dropWhile_cons_of_neg (by simp)]
  | cons x t ih =>
    intro hk
    rw [List.cons_append,
      List.dropWhile_cons_of_pos (by simpa using hk x (by simp)),
      ih (fun c hc => hk c (by simp [hc]))]

theorem splitFirstEq_spec (k r : PStr) (hk : ∀ c ∈ k, ¬ c = '=') :
    splitFirstEq (k ++ '=' :: r) = some (k, r) := by
  unfold splitFirstEq
  rw [List.span_eq_take_drop, takeWhile_ne_eq r k hk, dropWhile_ne_eq r k hk]

theorem line_strip_full (k t : PStr) (hk : keyOk k) (hh : pyStrip t = t) (hne : t ≠ []) :
    pyStrip (k ++ ('=' :: ' ' :: t)) = k ++ ('=' :: ' ' :: t) := by
  apply pyStrip_eq_self_of_ends
  · intro c hc
    rw [headq_append _ _ hk.2.1] at hc
    exact pyStrip_head_not_ws k hk.1 c hc
  · intro c hc
    rw [List.getLast?_append_of_ne_nil _ (by simp)] at hc
    have h3 : ('=' :: ' ' :: t).getLast? = t.getLast? := by
      cases t with
      | nil => exact absurd rfl hne
      | cons y u => rfl
    rw [h3] at hc
    exact pyStrip_last_not_ws t hh c hc

theorem line_strip_empty (k : PStr) (hk : keyOk k) :
    pyStrip (k ++ ('=' :: ' ' :: [])) = k ++ ['='] := by
  unfold pyStrip
  have hd : (k ++ ('=' :: ' ' :: [])).dropWhile pyWs = k ++ ('=' :: ' ' :: []) := by
    apply dropWhile_eq_self_of_head
    intro c hc
    rw [headq_append _ _ hk.2.1] at hc
    exact pyStrip_head_not_ws k hk.1 c hc
  rw [hd]
  have hr : (k ++ ('=' :: ' ' :: [])).reverse = ' ' :: '=' :: k.reverse := by simp
  rw [hr, List.dropWhile_cons_of_pos (by decide), List.dropWhile_cons_of_neg (by decide)]
  simp

theorem pyStarts_single_false (c d : Char) (u : PStr) (h : ¬ c = d) :
    pyStarts [c] (d :: u) = false := by
  simp [pyStarts, h]

theorem convLoop_skip (l : PStr) (rest : List PStr) (acc : Doc)
    (h : pyStrip l = [] ∨ pyStarts (lit "%") (pyStrip l) = true) :
    convLoop (l :: rest) acc = convLoop rest acc := by
  have hc : ((pyStrip l).isEmpty || pyStarts (lit "%") (pyStrip l)) = true := by
    rcases h with h | h
    · rw [h]; rfl
    · rw [h]; simp
  rw [convLoop]
  simp only [hc, if_true]

theorem convLoop_entry (k : PStr) (v : CValue) (rest : List PStr) (acc : Doc)
    (hk : keyOk k) (hv : valueOk v) :
    convLoop ((k ++ lit "= " ++ tokOf v) :: rest) acc = convLoop rest (dset acc k v) := by
  obtain ⟨hks, hkne, hkp, hkeq, hkn, hkr⟩ := hk
  obtain ⟨hts, htv, htp, htn2, htr2, htbs⟩ := tok_props v hv
  have hline : k ++ lit "= " ++ tokOf v = k ++ ('=' :: ' ' :: tokOf v) := by
    rw [List.append_assoc]
    rfl
  rw [hline]
  rcases List.exists_cons_of_ne_nil hkne with ⟨x, u, hx⟩
  have hxp : ¬ '%' = x := by
    intro hh
    exact pyHas_to_forall _ _ hkp x (by rw [hx]; simp) hh.symm
  have hkeqf : ∀ c ∈ k, ¬ c = '=' := pyHas_to_forall _ _ hkeq
  cases htnil : tokOf v with
  | cons y w =>
    have htne : tokOf v ≠ [] := by rw [htnil]; simp
    rw [← htnil]
    have hstrip : pyStrip (k ++ ('=' :: ' ' :: tokOf v)) = k ++ ('=' :: ' ' :: tokOf v) :=
      line_strip_full k (tokOf v) ⟨hks, hkne, hkp, hkeq, hkn, hkr⟩ hts htne
    have hempty : (k ++ ('=' :: ' ' :: tokOf v)).isEmpty = false := by
      rw [hx]; rfl
    have hpct : pyStarts (lit "%") (k ++ ('=' :: ' ' :: tokOf v)) = false := by
      rw [hx]
      exact pyStarts_single_false '%' x _ hxp
    have hbs : pyEnds (lit "\\") (k ++ ('=' :: ' ' :: tokOf v)) = false := by
      rw [show k ++ ('=' :: ' ' :: tokOf v) = (k ++ ('=' :: ' ' :: [])) ++ tokOf v by
        simp]
      rw [show (lit "\\" : PStr) = ['\\'] from rfl]
      rw [pyEnds_single_append '\\' _ _ htne]
      exact htbs
    have hcj : contJoin (k ++ ('=' :: ' ' :: tokOf v)) rest =
        (k ++ ('=' :: ' ' :: tokOf v), rest) := by
      rw [contJoin.eq_def, if_neg (by rw [hbs]; simp)]
    have heq : pyHas (k ++ ('=' :: ' ' :: tokOf v)) '=' = true := by
      rw [pyHas_append]
      simp [pyHas]
    have hpc : pyHas (k ++ ('=' :: ' ' :: tokOf v)) '%' = false := by
      rw [pyHas_append, hkp]
      simp [pyHas]
      exact pyHas_to_forall _ _ htp
    have hsp : splitFirstEq (k ++ ('=' :: ' ' :: tokOf v)) = some (k, ' ' :: tokOf v) :=
      splitFirstEq_spec k (' ' :: tokOf v) hkeqf
    rw [convLoop]
    simp only [hstrip, hempty, hpct, Bool.or_self, Bool.false_eq_true, if_false, hcj,
      heq, if_true, hpc, hsp]
    rw [hks, pyStrip_cons_ws ' ' (tokOf v) (by decide), hts, htv]
  | nil =>
    have hstrip : pyStrip (k ++ ('=' :: ' ' :: [])) = k ++ ['='] :=
      line_strip_empty k ⟨hks, hkne, hkp, hkeq, hkn, hkr⟩
    have hempty : (k ++ ['=']).isEmpty = false := by
      rw [hx]; rfl
    have hpct : pyStarts (lit "%") (k ++ ['=']) = false := by
      rw [hx]
      exact pyStarts_single_false '%' x _ hxp
    have hbs : pyEnds (lit "\\") (k ++ ['=']) = false := by
      rw [show (lit "\\" : PStr) = ['\\'] from rfl]
      rw [pyEnds_single_append '\\' _ _ (by simp)]
      decide
    have hcj : contJoin (k ++ ['=']) rest = (k ++ ['='], rest) := by
      rw [contJoin.eq_def, if_neg (by rw [hbs]; simp)]
    have heq : pyHas (k ++ ['=']) '=' = true := by
      rw [pyHas_append]
      simp [pyHas]
    have hpc : pyHas (k ++ ['=']) '%' = false := by
      rw [pyHas_append, hkp]
      simp [pyHas]
    have hsp : splitFirstEq (k ++ ['=']) = some (k, []) :=
      splitFirstEq_spec k [] hkeqf
    rw [convLoop]
    simp only [hstrip, hempty, hpct, Bool.or_self, Bool.false_eq_true, if_false, hcj,
      heq, if_true, hpc, hsp]
    rw [hks, show pyStrip ([] : PStr) = [] from rfl, ← htnil, htv]

/-! ### The whole-document round trip. -/

theorem filterMap_lines (d : Doc) (h : ∀ kv ∈ d, keyOk kv.1 ∧ valueOk kv.2) :
    d.filterMap (fun kv => fmtEntryLine kv.1 kv.2) =
      d.map (fun kv => kv.1 ++ lit "= " ++ tokOf kv.2) := by
  induction d with
  | nil => rfl
  | cons e t ih =>
    have h1 := fmtEntry_eq e.1 e.2 (h e (by simp)).2
    simp only [List.filterMap_cons, List.map_cons, h1]
    rw [ih (fun kv hkv => h kv (by simp [hkv]))]

theorem convLoop_lines (d : Doc) : ∀ (acc : Doc),
    (∀ kv ∈ d, keyOk kv.1 ∧ valueOk kv.2) →
    convLoop (d.map (fun kv => kv.1 ++ lit "= " ++ tokOf kv.2)) acc =
      .ok (d.foldl (fun a kv => dset a kv.1 kv.2) acc) := by
  induction d with
  | nil =>
    intro acc _
    simp only [List.map_nil, List.foldl_nil]
    rw [convLoop]
  | cons e t ih =>
    intro acc h
    rw [List.map_cons]
    rw [convLoop_entry e.1 e.2 _ acc (h e (by simp)).1 (h e (by simp)).2]
    rw [ih (dset acc e.1 e.2) (fun kv hkv => h kv (by simp [hkv]))]
    rfl

theorem dcontains_append (a b : Doc) (k : PStr) :
    dcontains (a ++ b) k = (dcontains a k || dcontains b k) := by
  induction a with
  | nil => rfl
  | cons e t ih =>
    obtain ⟨k0, v0⟩ := e
    by_cases hk : k0 = k
    · simp [dcontains, dget, hk]
    · show dcontains ((k0, v0) :: (t ++ b)) k = _
      simp only [dcontains, dget, hk, if_false]
      simpa [dcontains] using ih

theorem foldl_dset_fresh : ∀ (d acc : Doc),
    (d.map Prod.fst).Nodup → (∀ k ∈ d.map Prod.fst, dcontains acc k = false) →
    d.foldl (fun a kv => dset a kv.1 kv.2) acc = acc ++ d
  | [], acc, _, _ => by simp
  | e :: t, acc, hnd, hfresh => by
    obtain ⟨k0, v0⟩ := e
    simp only [List.map_cons, List.nodup_cons] at hnd
    have hk0 : dcontains acc k0 = false := hfresh k0 (by simp)
    have hstep : dset acc k0 v0 = acc ++ [(k0, v0)] := by
      unfold dset
      rw [hk0]
      simp
    have hfresh2 : ∀ k ∈ t.map Prod.fst, dcontains (acc ++ [(k0, v0)]) k = false := by
      intro k hkm
      rw [dcontains_append, hfresh k (by simp [hkm])]
      have hkk0 : ¬ k0 = k := by
        intro hh
        exact hnd.1 (hh ▸ hkm)
      simp [dcontains, dget, hkk0]
    show t.foldl (fun a kv => dset a kv.1 kv.2) (dset acc k0 v0) = acc ++ (k0, v0) :: t
    rw [hstep, foldl_dset_fresh t (acc ++ [(k0, v0)]) hnd.2 hfresh2]
    simp

theorem convert_roundtrip (desc : PStr) (d : Doc) (hh : headerOk desc) (hd : docOk d) :
    convert_cfg_to_json (cfg_lines_of_json desc d) = .ok d := by
  unfold convert_cfg_to_json cfg_lines_of_json
  rw [filterMap_lines d hd.2]
  rw [convLoop_skip _ _ _ hh]
  rw [convLoop_lines d [] hd.2]
  rw [foldl_dset_fresh d [] hd.1 (fun k _ => rfl)]
  rfl

/-! ### Idempotence of the auto-fix engine: frame and stability lemmas. -/

theorem pyEq_str (v : CValue) (s : PStr) (h : pyEq v (.str s) = true) : v = .str s := by
  cases v with
  | str a =>
    simp [pyEq] at h
    rw [h]
  | none => simp [pyEq, numDenote] at h
  | bool b => simp [pyEq, numDenote] at h
  | int n => simp [pyEq, numDenote] at h
  | float q => simp [pyEq, numDenote] at h
  | list l => simp [pyEq, numDenote] at h

theorem dgetD_none_str (d : Doc) (k : PStr) (s : PStr)
    (h : dgetD d k .none = .str s) : dget d k = some (.str s) := by
  unfold dgetD at h
  cases hg : dget d k with
  | none => rw [hg] at h; simp at h
  | some v => rw [hg] at h; simp at h; rw [h]

theorem fixPass1_frame (solver : CValue) (cfg : Doc) (k : PStr)
    (h1 : ¬ k = lit "INC_DENSITY_MODEL") (h2 : ¬ k = lit "INC_ENERGY_EQUATION") :
    dget (fixPass1 solver cfg).1 k = dget cfg k := by
  dsimp only [fixPass1]
  split
  · split
    all_goals split
    all_goals dsimp only
    all_goals
      first
      | rfl
      | rw [dget_dset_other _ _ _ _ h2, dget_dset_other _ _ _ _ h1]
      | rw [dget_dset_other _ _ _ _ h1]
      | rw [dget_dset_other _ _ _ _ h2]
  · rfl

theorem fixPass2_frame (cfg : Doc) (k : PStr) (h : ¬ k = lit "KIND_TRANS_MODEL") :
    dget (fixPass2 cfg).1 k = dget cfg k := by
  dsimp only [fixPass2]
  split
  · exact dget_dset_other _ _ _ _ h
  · rfl

theorem fixPass3_frame (cfg : Doc) (k : PStr) (h : ¬ k = lit "KIND_TRANS_MODEL") :
    dget (fixPass3 cfg).1 k = dget cfg k := by
  dsimp only [fixPass3]
  split
  · exact dget_dset_other _ _ _ _ h
  · rfl

theorem fixPass4_frame (solver : CValue) (cfg : Doc) (k : PStr)
    (h : ¬ k = lit "INC_INLET_TYPE") :
    dget (fixPass4 solver cfg).1 k = dget cfg k := by
  dsimp only [fixPass4]
  split
  · split
    · split
      · exact dget_dset_other _ _ _ _ h
      · split
        · exact dget_dset_other _ _ _ _ h
        · rfl
    · rfl
  · rfl

theorem fixPass5Step_frame (st : Doc × List PStr) (key k : PStr) (h : ¬ k = key) :
    dget (fixPass5Step st key).1 k = dget st.1 k := by
  dsimp only [fixPass5Step]
  split
  · split
    · exact dget_dpop_other _ _ _ h
    · rfl
  · rfl

theorem fixPass5_foldl_frame (keys : List PStr) : ∀ (st : Doc × List PStr) (k : PStr),
    (∀ key ∈ keys, ¬ k = key) →
    dget (keys.foldl fixPass5Step st).1 k = dget st.1 k := by
  induction keys with
  | nil =>
    intro st k _
    rfl
  | cons a t ih =>
    intro st k h
    rw [List.foldl_cons, ih (fixPass5Step st a) k (fun key hk => h key (by simp [hk])),
      fixPass5Step_frame st a k (h a (by simp))]

theorem fixPass5_frame (solver : CValue) (cfg d2 : Doc) (r : List FixRec)
    (hres : fixPass5 solver cfg = .ok (d2, r)) (k : PStr)
    (h1 : ∀ key ∈ heatMarkerKeysFix, ¬ k = key) (h2 : ¬ k = lit "MARKER_EULER") :
    dget d2 k = dget cfg k := by
  dsimp only [fixPass5] at hres
  split at hres
  · split at hres
    · split at hres
      · simp only [Except.ok.injEq, Prod.mk.injEq] at hres
        obtain ⟨hd, hr⟩ := hres
        rw [← hd, dget_dset_other _ _ _ _ h2]
        exact fixPass5_foldl_frame heatMarkerKeysFix (cfg, []) k h1
      · simp at hres
    · simp only [Except.ok.injEq, Prod.mk.injEq] at hres
      obtain ⟨hd, hr⟩ := hres
      rw [← hd]
      exact fixPass5_foldl_frame heatMarkerKeysFix (cfg, []) k h1
  · simp only [Except.ok.injEq, Prod.mk.injEq] at hres
    obtain ⟨hd, hr⟩ := hres
    rw [← hd]

theorem dgetD_of_dget (d : Doc) (k : PStr) (v w : CValue) (h : dget d k = some v) :
    dgetD d k w = v := by
  unfold dgetD
  rw [h]
  rfl

theorem fixPass1_stable (solver : CValue) (d : Doc)
    (h : pyEq solver (.str (lit "INC_EULER")) = true →
      dget d (lit "INC_DENSITY_MODEL") = some (.str (lit "CONSTANT")) ∧
      pyBoolNorm (dgetD d (lit "INC_ENERGY_EQUATION")
        (dgetD d (lit "ENERGY_EQUATION") CValue.none)) = some false) :
    fixPass1 solver d = (d, []) := by
  dsimp only [fixPass1]
  split
  · rename_i hs
    obtain ⟨hdm, hen⟩ := h hs
    have hC1 : pyEq (dgetD d (lit "INC_DENSITY_MODEL") CValue.none)
        (CValue.str (lit "CONSTANT")) = true := by
      rw [dgetD_of_dget _ _ _ _ hdm]
      simp [pyEq]
    rw [if_neg (not_not_intro hC1)]
    dsimp only
    rw [if_neg (not_not_intro hen)]
  · rfl

theorem fixPass1_post (solver : CValue) (cfg : Doc)
    (hs : pyEq solver (.str (lit "INC_EULER")) = true) :
    dget (fixPass1 solver cfg).1 (lit "INC_DENSITY_MODEL") = some (.str (lit "CONSTANT")) ∧
    pyBoolNorm (dgetD (fixPass1 solver cfg).1 (lit "INC_ENERGY_EQUATION")
      (dgetD (fixPass1 solver cfg).1 (lit "ENERGY_EQUATION") CValue.none)) = some false := by
  dsimp only [fixPass1]
  rw [if_pos hs]
  split
  · split
    · dsimp only
      constructor
      · rw [dget_dset_other _ _ _ _ (by decide)]
        exact dget_dset_self _ _ _
      · rw [dgetD_of_dget _ _ _ _ (dget_dset_self _ _ _)]
        rfl
    · rename_i hnorm
      dsimp only
      constructor
      · exact dget_dset_self _ _ _
      · exact not_not.mp hnorm
  · rename_i hC1
    have hdm0 : dget cfg (lit "INC_DENSITY_MODEL") = some (.str (lit "CONSTANT")) :=
      dgetD_none_str _ _ _ (pyEq_str _ _ (not_not.mp hC1))
    split
    · dsimp only
      constructor
      · rw [dget_dset_other _ _ _ _ (by decide)]
        exact hdm0
      · rw [dgetD_of_dget _ _ _ _ (dget_dset_self _ _ _)]
        rfl
    · rename_i hnorm
      dsimp only
      exact ⟨hdm0, not_not.mp hnorm⟩

theorem fixPass2_stable (d : Doc)
    (h : pyMem (dgetD d (lit "KIND_TRANS_MODEL") (.str (lit "NONE")))
        [.str (lit "NONE"), .str (lit "NO_TRANS_MODEL")] = true ∨
      pyMem (dgetD d (lit "KIND_TURB_MODEL") (.str (lit "NONE")))
        [.str (lit "NONE"), .str (lit "NO_TURB_MODEL")] = false) :
    fixPass2 d = (d, []) := by
  dsimp only [fixPass2]
  rw [if_neg (by rcases h with h | h <;> simp [h])]

theorem fixPass2_post (cfg : Doc) :
    pyMem (dgetD (fixPass2 cfg).1 (lit "KIND_TRANS_MODEL") (.str (lit "NONE")))
        [.str (lit "NONE"), .str (lit "NO_TRANS_MODEL")] = true ∨
      pyMem (dgetD (fixPass2 cfg).1 (lit "KIND_TURB_MODEL") (.str (lit "NONE")))
        [.str (lit "NONE"), .str (lit "NO_TURB_MODEL")] = false := by
  dsimp only [fixPass2]
  split
  · left
    rw [dgetD_of_dget _ _ _ _ (dget_dset_self _ _ _)]
    decide
  · rename_i hcond
    by_cases hA : pyMem (dgetD cfg (lit "KIND_TRANS_MODEL") (.str (lit "NONE")))
        [.str (lit "NONE"), .str (lit "NO_TRANS_MODEL")] = true
    · exact Or.inl hA
    · right
      cases hB : pyMem (dgetD cfg (lit "KIND_TURB_MODEL") (.str (lit "NONE")))
          [.str (lit "NONE"), .str (lit "NO_TURB_MODEL")] with
      | false => rfl
      | true =>
        exact absurd (by simp [Bool.of_not_eq_true hA, hB]) hcond

theorem fixPass3_stable (d : Doc)
    (h : ¬ (pyMem (dgetD d (lit "AXISYMMETRIC") (.str (lit "NO")))
        [.str (lit "YES"), .bool true] = true ∧
      pyEq (dgetD d (lit "KIND_TRANS_MODEL") CValue.none) (.str (lit "LM")) = true)) :
    fixPass3 d = (d, []) := by
  dsimp only [fixPass3]
  rw [if_neg (by
    intro hc
    rw [Bool.and_eq_true] at hc
    exact h hc)]

theorem fixPass3_post (cfg : Doc) :
    ¬ (pyMem (dgetD (fixPass3 cfg).1 (lit "AXISYMMETRIC") (.str (lit "NO")))
        [.str (lit "YES"), .bool true] = true ∧
      pyEq (dgetD (fixPass3 cfg).1 (lit "KIND_TRANS_MODEL") CValue.none)
        (.str (lit "LM")) = true) := by
  dsimp only [fixPass3]
  split
  · intro hc
    rw [dgetD_of_dget _ _ _ _ (dget_dset_self _ _ _)] at hc
    exact absurd hc.2 (by decide)
  · rename_i hcond
    intro hc
    exact hcond (by rw [Bool.and_eq_true]; exact hc)

/-- Incompressible-family membership test of the inlet pass. -/
def incFam : List CValue :=
  [.str (lit "INC_EULER"), .str (lit "INC_NAVIER_STOKES"), .str (lit "INC_RANS")]

/-- Euler-family membership test of the thermal-marker pass. -/
def eulerFam : List CValue :=
  [.str (lit "EULER"), .str (lit "INC_EULER"), .str (lit "FEM_EULER"),
   .str (lit "NEMO_EULER")]

theorem fixPass4_stable (solver : CValue) (d : Doc)
    (h : pyMem solver incFam = false ∨
      count_markers_in_list (dgetD d (lit "MARKER_INLET") (.list [])) = 0 ∨
      (incTypesList (dgetD d (lit "INC_INLET_TYPE") (.list []))).length =
        count_markers_in_list (dgetD d (lit "MARKER_INLET") (.list []))) :
    fixPass4 solver d = (d, []) := by
  dsimp only [fixPass4]
  rcases h with h | h | h
  · rw [if_neg (by rw [show [CValue.str (lit "INC_EULER"), CValue.str (lit "INC_NAVIER_STOKES"),
      CValue.str (lit "INC_RANS")] = incFam from rfl, h]; simp)]
  · by_cases hg : pyMem solver [CValue.str (lit "INC_EULER"),
        CValue.str (lit "INC_NAVIER_STOKES"), CValue.str (lit "INC_RANS")] = true
    · rw [if_pos hg, if_neg (by omega)]
    · rw [if_neg hg]
  · by_cases hg : pyMem solver [CValue.str (lit "INC_EULER"),
        CValue.str (lit "INC_NAVIER_STOKES"), CValue.str (lit "INC_RANS")] = true
    · rw [if_pos hg]
      split
      · rw [if_neg (by omega), if_neg (by omega)]
      · rfl
    · rw [if_neg hg]

theorem incTypesList_list (l : List CValue) : incTypesList (.list l) = l := rfl

theorem dgetD_dset_other (d : Doc) (k k2 : PStr) (v w : CValue) (h : k2 ≠ k) :
    dgetD (dset d k v) k2 w = dgetD d k2 w := by
  unfold dgetD
  rw [dget_dset_other _ _ _ _ h]

theorem fixPass4_post (solver : CValue) (cfg : Doc) :
    pyMem solver incFam = false ∨
      count_markers_in_list (dgetD (fixPass4 solver cfg).1 (lit "MARKER_INLET") (.list [])) = 0 ∨
      (incTypesList (dgetD (fixPass4 solver cfg).1 (lit "INC_INLET_TYPE") (.list []))).length =
        count_markers_in_list
          (dgetD (fixPass4 solver cfg).1 (lit "MARKER_INLET") (.list [])) := by
  by_cases hg : pyMem solver incFam = true
  · right
    dsimp only [fixPass4]
    rw [if_pos (show pyMem solver [CValue.str (lit "INC_EULER"),
      CValue.str (lit "INC_NAVIER_STOKES"), CValue.str (lit "INC_RANS")] = true from hg)]
    split
    · split
      · rename_i hcount hlt
        right
        dsimp only
        rw [dgetD_of_dget _ _ _ _ (dget_dset_self _ _ _),
          dgetD_dset_other _ _ _ _ _ (by decide)]
        rw [incTypesList_list, List.length_append, List.length_replicate]
        omega
      · split
        · rename_i hcount hnlt hgt
          right
          dsimp only
          rw [dgetD_of_dget _ _ _ _ (dget_dset_self _ _ _),
            dgetD_dset_other _ _ _ _ _ (by decide)]
          rw [incTypesList_list, List.length_take]
          omega
        · rename_i hcount hnlt hngt
          right
          dsimp only
          omega
    · rename_i hcount
      left
      dsimp only
      omega
  · exact Or.inl (Bool.of_not_eq_true hg)

/-- A thermal-marker key that the Euler-marker pass leaves untouched: its
value is absent, a non-list, or an empty list. -/
def heatInert (d : Doc) (key : PStr) : Prop :=
  ∀ l, dget d key = some (.list l) → l = []

theorem fixPass5Step_id (st : Doc × List PStr) (key : PStr)
    (h : heatInert st.1 key) : fixPass5Step st key = st := by
  dsimp only [fixPass5Step]
  split
  · rename_i l heq
    rw [h l heq]
    rw [if_neg (by decide)]
  · rfl

theorem fixPass5_foldl_id (keys : List PStr) : ∀ st : Doc × List PStr,
    (∀ key ∈ keys, heatInert st.1 key) → keys.foldl fixPass5Step st = st := by
  induction keys with
  | nil =>
    intro st _
    rfl
  | cons a t ih =>
    intro st h
    rw [List.foldl_cons, fixPass5Step_id st a (h a (by simp)),
      ih st (fun key hk => h key (by simp [hk]))]

theorem fixPass5_stable (solver : CValue) (d : Doc)
    (h : pyMem solver eulerFam = false ∨ ∀ key ∈ heatMarkerKeysFix, heatInert d key) :
    fixPass5 solver d = .ok (d, []) := by
  dsimp only [fixPass5]
  by_cases hg : pyMem solver [CValue.str (lit "EULER"), CValue.str (lit "INC_EULER"),
      CValue.str (lit "FEM_EULER"), CValue.str (lit "NEMO_EULER")] = true
  · rw [if_pos hg]
    have hin : ∀ key ∈ heatMarkerKeysFix, heatInert d key := by
      rcases h with h | h
      · rw [show pyMem solver eulerFam = pyMem solver [CValue.str (lit "EULER"),
          CValue.str (lit "INC_EULER"), CValue.str (lit "FEM_EULER"),
          CValue.str (lit "NEMO_EULER")] from rfl, hg] at h
        cases h
      · exact h
    rw [fixPass5_foldl_id heatMarkerKeysFix (d, []) hin]
    dsimp only
    rw [if_neg (by decide)]
  · rw [if_neg hg]

theorem heatInert_step_self (st : Doc × List PStr) (key : PStr) :
    heatInert (fixPass5Step st key).1 key := by
  intro l hl
  dsimp only [fixPass5Step] at hl
  split at hl
  · rename_i l0 heq
    split at hl
    · rw [dget_dpop_self] at hl
      exact absurd hl (by simp)
    · rename_i hne
      rw [heq] at hl
      have hl0 : l0 = l := by
        simpa using hl
      simp only [Bool.not_eq_true', Bool.not_not] at hne
      rw [← hl0]
      simpa using hne
  · rename_i hother
    exact absurd hl (by
      intro hc
      exact hother l hc)

theorem heatInert_step_pres (st : Doc × List PStr) (key k2 : PStr) (h : ¬ k2 = key)
    (hi : heatInert st.1 k2) : heatInert (fixPass5Step st key).1 k2 := by
  intro l hl
  rw [fixPass5Step_frame st key k2 h] at hl
  exact hi l hl

theorem heatInert_dset (d : Doc) (key k2 : PStr) (v : CValue) (h : ¬ k2 = key)
    (hi : heatInert d k2) : heatInert (dset d key v) k2 := by
  intro l hl
  rw [dget_dset_other _ _ _ _ h] at hl
  exact hi l hl

theorem fixPass5_foldl_inert (st : Doc × List PStr) :
    ∀ key ∈ heatMarkerKeysFix, heatInert (heatMarkerKeysFix.foldl fixPass5Step st).1 key := by
  intro key hkey
  rw [show heatMarkerKeysFix.foldl fixPass5Step st =
    fixPass5Step (fixPass5Step (fixPass5Step st (lit "MARKER_HEATFLUX"))
      (lit "MARKER_ISOTHERMAL")) (lit "MARKER_HEATTRANSFER") from rfl]
  have hmem : key = lit "MARKER_HEATFLUX" ∨ key = lit "MARKER_ISOTHERMAL" ∨
      key = lit "MARKER_HEATTRANSFER" := by
    simpa [heatMarkerKeysFix] using hkey
  rcases hmem with h | h | h
  · subst h
    exact heatInert_step_pres _ _ _ (by decide)
      (heatInert_step_pres _ _ _ (by decide) (heatInert_step_self _ _))
  · subst h
    exact heatInert_step_pres _ _ _ (by decide) (heatInert_step_self _ _)
  · subst h
    exact heatInert_step_self _ _

theorem fixPass5_post (solver : CValue) (d d2 : Doc) (r : List FixRec)
    (hres : fixPass5 solver d = .ok (d2, r)) :
    pyMem solver eulerFam = false ∨ ∀ key ∈ heatMarkerKeysFix, heatInert d2 key := by
  dsimp only [fixPass5] at hres
  split at hres
  · right
    split at hres
    · split at hres
      · simp only [Except.ok.injEq, Prod.mk.injEq] at hres
        obtain ⟨hd, hr⟩ := hres
        rw [← hd]
        intro key hkey
        exact heatInert_dset _ _ _ _
          (by
            have : key = lit "MARKER_HEATFLUX" ∨ key = lit "MARKER_ISOTHERMAL" ∨
                key = lit "MARKER_HEATTRANSFER" := by simpa [heatMarkerKeysFix] using hkey
            rcases this with h | h | h <;> subst h <;> decide)
          (fixPass5_foldl_inert (d, []) key hkey)
      · simp at hres
    · simp only [Except.ok.injEq, Prod.mk.injEq] at hres
      obtain ⟨hd, hr⟩ := hres
      rw [← hd]
      exact fun key hkey => fixPass5_foldl_inert (d, []) key hkey
  · rename_i hg
    exact Or.inl (Bool.of_not_eq_true hg)

theorem dgetD_congr (d d2 : Doc) (k : PStr) (w : CValue) (h : dget d k = dget d2 k) :
    dgetD d k w = dgetD d2 k w := by
  unfold dgetD
  rw [h]

theorem fixPass3_pres_trans (cfg : Doc)
    (h : pyMem (dgetD cfg (lit "KIND_TRANS_MODEL") (.str (lit "NONE")))
        [.str (lit "NONE"), .str (lit "NO_TRANS_MODEL")] = true ∨
      pyMem (dgetD cfg (lit "KIND_TURB_MODEL") (.str (lit "NONE")))
        [.str (lit "NONE"), .str (lit "NO_TURB_MODEL")] = false) :
    pyMem (dgetD (fixPass3 cfg).1 (lit "KIND_TRANS_MODEL") (.str (lit "NONE")))
        [.str (lit "NONE"), .str (lit "NO_TRANS_MODEL")] = true ∨
      pyMem (dgetD (fixPass3 cfg).1 (lit "KIND_TURB_MODEL") (.str (lit "NONE")))
        [.str (lit "NONE"), .str (lit "NO_TURB_MODEL")] = false := by
  dsimp only [fixPass3]
  split
  · left
    rw [dgetD_of_dget _ _ _ _ (dget_dset_self _ _ _)]
    decide
  · exact h

theorem apply_auto_fixes_idem (D d1 : Doc) (r1 : List FixRec)
    (h : apply_auto_fixes D = .ok (d1, r1)) :
    apply_auto_fixes d1 = .ok (d1, []) := by
  dsimp only [apply_auto_fixes] at h
  split at h
  · rename_i s5 hres5
    obtain ⟨d5, r5⟩ := s5
    simp only [Except.ok.injEq, Prod.mk.injEq] at h
    obtain ⟨hd, hr⟩ := h
    subst hd
    clear hr
    -- Abbreviations for the intermediate documents of the first run.
    set sol := dgetD D (lit "SOLVER") (.str []) with hsol
    set d1a := (fixPass1 sol D).1 with hd1a
    set d2a := (fixPass2 d1a).1 with hd2a
    set d3a := (fixPass3 d2a).1 with hd3a
    set d4a := (fixPass4 sol d3a).1 with hd4a
    -- Key-level frames from the later passes.
    have hfr5 : ∀ k : PStr, (∀ key ∈ heatMarkerKeysFix, ¬ k = key) →
        ¬ k = lit "MARKER_EULER" → dget d5 k = dget d4a k := by
      intro k h5 h6
      exact fixPass5_frame sol d4a d5 r5 hres5 k h5 h6
    have hfr45 : ∀ k : PStr, (∀ key ∈ heatMarkerKeysFix, ¬ k = key) →
        ¬ k = lit "MARKER_EULER" → ¬ k = lit "INC_INLET_TYPE" →
        dget d5 k = dget d3a k := by
      intro k h5 h6 h4
      rw [hfr5 k h5 h6, hd4a, fixPass4_frame _ _ _ h4]
    have hfr345 : ∀ k : PStr, (∀ key ∈ heatMarkerKeysFix, ¬ k = key) →
        ¬ k = lit "MARKER_EULER" → ¬ k = lit "INC_INLET_TYPE" →
        ¬ k = lit "KIND_TRANS_MODEL" → dget d5 k = dget d2a k := by
      intro k h5 h6 h4 h3
      rw [hfr45 k h5 h6 h4, hd3a, fixPass3_frame _ _ h3]
    have hfr2345 : ∀ k : PStr, (∀ key ∈ heatMarkerKeysFix, ¬ k = key) →
        ¬ k = lit "MARKER_EULER" → ¬ k = lit "INC_INLET_TYPE" →
        ¬ k = lit "KIND_TRANS_MODEL" → dget d5 k = dget d1a k := by
      intro k h5 h6 h4 h3
      rw [hfr345 k h5 h6 h4 h3, hd2a, fixPass2_frame _ _ h3]
    have hfrAll : ∀ k : PStr, (∀ key ∈ heatMarkerKeysFix, ¬ k = key) →
        ¬ k = lit "MARKER_EULER" → ¬ k = lit "INC_INLET_TYPE" →
        ¬ k = lit "KIND_TRANS_MODEL" → ¬ k = lit "INC_DENSITY_MODEL" →
        ¬ k = lit "INC_ENERGY_EQUATION" → dget d5 k = dget D k := by
      intro k h5 h6 h4 h3 hdm hee
      rw [hfr2345 k h5 h6 h4 h3, hd1a, fixPass1_frame _ _ _ hdm hee]
    -- The solver key is untouched.
    have hsolver : dgetD d5 (lit "SOLVER") (.str []) = sol := by
      rw [hsol]
      exact dgetD_congr _ _ _ _ (hfrAll _ (by decide) (by decide) (by decide)
        (by decide) (by decide) (by decide))
    -- Stability of pass 1 on the fixed document.
    have hF1 : pyEq sol (.str (lit "INC_EULER")) = true →
        dget d5 (lit "INC_DENSITY_MODEL") = some (.str (lit "CONSTANT")) ∧
        pyBoolNorm (dgetD d5 (lit "INC_ENERGY_EQUATION")
          (dgetD d5 (lit "ENERGY_EQUATION") CValue.none)) = some false := by
      intro hs
      have hpost := fixPass1_post sol D hs
      have hDM : dget d5 (lit "INC_DENSITY_MODEL") = dget d1a (lit "INC_DENSITY_MODEL") :=
        hfr2345 _ (by decide) (by decide) (by decide) (by decide)
      have hEE : dget d5 (lit "INC_ENERGY_EQUATION") = dget d1a (lit "INC_ENERGY_EQUATION") :=
        hfr2345 _ (by decide) (by decide) (by decide) (by decide)
      have hEN : dget d5 (lit "ENERGY_EQUATION") = dget d1a (lit "ENERGY_EQUATION") :=
        hfr2345 _ (by decide) (by decide) (by decide) (by decide)
      constructor
      · rw [hDM]
        exact hpost.1
      · rw [dgetD_congr _ _ _ _ hEE, dgetD_congr _ _ _ _ hEN]
        exact hpost.2
    -- Stability of pass 2 on the fixed document.
    have hF2 : pyMem (dgetD d5 (lit "KIND_TRANS_MODEL") (.str (lit "NONE")))
        [.str (lit "NONE"), .str (lit "NO_TRANS_MODEL")] = true ∨
        pyMem (dgetD d5 (lit "KIND_TURB_MODEL") (.str (lit "NONE")))
        [.str (lit "NONE"), .str (lit "NO_TURB_MODEL")] = false := by
      have hpost := fixPass3_pres_trans d2a (fixPass2_post d1a)
      have hTR : dget d5 (lit "KIND_TRANS_MODEL") = dget d3a (lit "KIND_TRANS_MODEL") :=
        hfr45 _ (by decide) (by decide) (by decide)
      have hTU : dget d5 (lit "KIND_TURB_MODEL") = dget d3a (lit "KIND_TURB_MODEL") :=
        hfr45 _ (by decide) (by decide) (by decide)
      rw [dgetD_congr _ _ _ _ hTR, dgetD_congr _ _ _ _ hTU]
      rw [← hd3a] at hpost
      exact hpost
    -- Stability of pass 3 on the fixed document.
    have hF3 : ¬ (pyMem (dgetD d5 (lit "AXISYMMETRIC") (.str (lit "NO")))
        [.str (lit "YES"), .bool true] = true ∧
        pyEq (dgetD d5 (lit "KIND_TRANS_MODEL") CValue.none) (.str (lit "LM")) = true) := by
      have hpost := fixPass3_post d2a
      have hAX : dget d5 (lit "AXISYMMETRIC") = dget d3a (lit "AXISYMMETRIC") :=
        hfr45 _ (by decide) (by decide) (by decide)
      have hTR : dget d5 (lit "KIND_TRANS_MODEL") = dget d3a (lit "KIND_TRANS_MODEL") :=
        hfr45 _ (by decide) (by decide) (by decide)
      rw [dgetD_congr _ _ _ _ hAX, dgetD_congr _ _ _ _ hTR]
      rw [← hd3a] at hpost
      exact hpost
    -- Stability of pass 4 on the fixed document.
    have hF4 : pyMem sol incFam = false ∨
        count_markers_in_list (dgetD d5 (lit "MARKER_INLET") (.list [])) = 0 ∨
        (incTypesList (dgetD d5 (lit "INC_INLET_TYPE") (.list []))).length =
          count_markers_in_list (dgetD d5 (lit "MARKER_INLET") (.list [])) := by
      have hpost := fixPass4_post sol d3a
      have hMI : dget d5 (lit "MARKER_INLET") = dget d4a (lit "MARKER_INLET") :=
        hfr5 _ (by decide) (by decide)
      have hIT : dget d5 (lit "INC_INLET_TYPE") = dget d4a (lit "INC_INLET_TYPE") :=
        hfr5 _ (by decide) (by decide)
      rw [dgetD_congr _ _ _ _ hMI, dgetD_congr _ _ _ _ hIT]
      rw [← hd4a] at hpost
      exact hpost
    -- Stability of pass 5 on the fixed document.
    have hF5 : pyMem sol eulerFam = false ∨
        ∀ key ∈ heatMarkerKeysFix, heatInert d5 key :=
      fixPass5_post sol d4a d5 r5 hres5
    -- Run the engine a second time: every pass is the identity.
    have hst1 : fixPass1 sol d5 = (d5, []) := fixPass1_stable sol d5 hF1
    have hst2 : fixPass2 d5 = (d5, []) := fixPass2_stable d5 hF2
    have hst3 : fixPass3 d5 = (d5, []) := fixPass3_stable d5 hF3
    have hst4 : fixPass4 sol d5 = (d5, []) := fixPass4_stable sol d5 hF4
    have hst5 : fixPass5 sol d5 = .ok (d5, []) := fixPass5_stable sol d5 hF5
    dsimp only [apply_auto_fixes]
    rw [hsolver, hst1]
    dsimp only
    rw [hst2]
    dsimp only
    rw [hst3]
    dsimp only
    rw [hst4]
    dsimp only
    rw [hst5]
    rfl
  · simp at h

/-! ### Orchestrator facts: the `valid` flag and the pre-fix warnings. -/

theorem valid_iff_errors (load : Except PStr Doc) (schemaOn : Bool)
    (schemaErrs : List VIssue) (auto_fix : Bool) :
    ((validate_config_file load schemaOn schemaErrs auto_fix).valid = true ↔
      (validate_config_file load schemaOn schemaErrs auto_fix).errors = []) := by
  dsimp only [validate_config_file]
  split
  · dsimp only
    simp [List.isEmpty_iff]
  · dsimp only
    simp

theorem validate_autofix_fields (D : Doc) (schemaOn : Bool) (schemaErrs : List VIssue)
    (ce0 ce2 : List VIssue) (fx : Doc × List FixRec)
    (h1 : perform_custom_validations D = .ok ce0)
    (h2 : apply_auto_fixes D = .ok fx)
    (h3 : perform_custom_validations fx.1 = .ok ce2) :
    (validate_config_file (.ok D) schemaOn schemaErrs true).warnings =
      some (perform_guidance_warnings D) ∧
    (validate_config_file (.ok D) schemaOn schemaErrs true).config_data = some fx.1 ∧
    (validate_config_file (.ok D) schemaOn schemaErrs true).applied_fixes = fx.2 ∧
    (validate_config_file (.ok D) schemaOn schemaErrs true).errors =
      (if schemaOn then schemaErrs else []) ++ ce2 := by
  unfold validate_config_file
  simp only [bind, Except.bind, h1, h2, h3, if_true]
  exact ⟨rfl, rfl, rfl, rfl⟩

/-! ### Skip-with-warning behaviour of `cfg_to_json_dict` lines. -/

theorem cfgLineStep_noeq (n : Nat) (raw : PStr) (st : Doc × List PStr)
    (h1 : ((pyStrip raw).isEmpty || pyStarts (lit "%") (pyStrip raw)) = false)
    (h2 : (cfgLine2 raw).isEmpty = false)
    (h3 : splitFirstEq (cfgLine2 raw) = Option.none) :
    cfgLineStep n raw st =
      (st.1, st.2 ++ [lit "Warning: Line " ++ natChars n ++
        lit " does not contain \"=\" - skipping: " ++ cfgLine2 raw]) := by
  dsimp only [cfgLineStep]
  rw [if_neg (by rw [h1]; simp), if_neg (by rw [h2]; simp), h3]

theorem cfgLineStep_emptykey (n : Nat) (raw : PStr) (st : Doc × List PStr)
    (kv : PStr × PStr)
    (h1 : ((pyStrip raw).isEmpty || pyStarts (lit "%") (pyStrip raw)) = false)
    (h2 : (cfgLine2 raw).isEmpty = false)
    (h3 : splitFirstEq (cfgLine2 raw) = some kv)
    (h4 : pyStrip kv.1 = []) :
    cfgLineStep n raw st =
      (st.1, st.2 ++ [lit "Warning: Line " ++ natChars n ++
        lit " has empty key - skipping: " ++ cfgLine2 raw]) := by
  dsimp only [cfgLineStep]
  rw [if_neg (by rw [h1]; simp), if_neg (by rw [h2]; simp), h3]
  dsimp only
  rw [h4]
  rfl

/-! ### Boolean-token recognition of the two value parsers. -/

theorem parse_single_value_true (s : PStr)
    (h : pyUpper (pyStrip s) = lit "YES" ∨ pyUpper (pyStrip s) = lit "TRUE" ∨
      pyUpper (pyStrip s) = lit "ON") :
    parse_single_value s = .bool true := by
  have hne : (pyStrip s).isEmpty = false := by
    cases hv : pyStrip s with
    | nil =>
      rw [hv] at h
      rcases h with h | h | h <;> exact absurd h (by decide)
    | cons c t => rfl
  dsimp only [parse_single_value]
  rw [if_neg (by rw [hne]; simp), if_pos h]

theorem parse_single_value_false (s : PStr)
    (h : pyUpper (pyStrip s) = lit "NO" ∨ pyUpper (pyStrip s) = lit "FALSE" ∨
      pyUpper (pyStrip s) = lit "OFF") :
    parse_single_value s = .bool false := by
  have hne : (pyStrip s).isEmpty = false := by
    cases hv : pyStrip s with
    | nil =>
      rw [hv] at h
      rcases h with h | h | h <;> exact absurd h (by decide)
    | cons c t => rfl
  have hny : ¬ (pyUpper (pyStrip s) = lit "YES" ∨ pyUpper (pyStrip s) = lit "TRUE" ∨
      pyUpper (pyStrip s) = lit "ON") := by
    intro hc
    rcases h with h | h | h <;> rcases hc with hc | hc | hc <;>
      exact absurd (h.symm.trans hc) (by decide)
  dsimp only [parse_single_value]
  rw [if_neg (by rw [hne]; simp), if_neg hny, if_pos h]

theorem parse_value_true (s : PStr)
    (h : pyUpper (pyStrip s) = lit "YES" ∨ pyUpper (pyStrip s) = lit "TRUE") :
    parse_value s = .bool true := by
  have hne : (pyStrip s).isEmpty = false := by
    cases hv : pyStrip s with
    | nil =>
      rw [hv] at h
      rcases h with h | h <;> exact absurd h (by decide)
    | cons c t => rfl
  rw [parse_value, parse_value_fuel]
  rw [if_neg (by rw [hne]; simp), if_pos h]

theorem parse_value_false (s : PStr)
    (h : pyUpper (pyStrip s) = lit "NO" ∨ pyUpper (pyStrip s) = lit "FALSE") :
    parse_value s = .bool false := by
  have hne : (pyStrip s).isEmpty = false := by
    cases hv : pyStrip s with
    | nil =>
      rw [hv] at h
      rcases h with h | h <;> exact absurd h (by decide)
    | cons c t => rfl
  have hny : ¬ (pyUpper (pyStrip s) = lit "YES" ∨ pyUpper (pyStrip s) = lit "TRUE") := by
    intro hc
    rcases h with h | h <;> rcases hc with hc | hc <;>
      exact absurd (h.symm.trans hc) (by decide)
  rw [parse_value, parse_value_fuel]
  rw [if_neg (by rw [hne]; simp), if_neg hny, if_pos h]

/-! ### The inlet-count rule on arbitrary documents. -/

theorem validate_inlet_mismatch (d : Doc)
    (hs : pyMem (dgetD d (lit "SOLVER") (.str [])) incFam = true)
    (hc : count_markers_in_list (dgetD d (lit "MARKER_INLET") (.list [])) ≠ 0)
    (hl : (incTypesList (dgetD d (lit "INC_INLET_TYPE") (.list []))).length ≠
      count_markers_in_list (dgetD d (lit "MARKER_INLET") (.list []))) :
    validate_inlet_consistency d =
      [{ path := [lit "INC_INLET_TYPE"],
         message := lit "INC_INLET_TYPE must have exactly " ++
           natChars (count_markers_in_list (dgetD d (lit "MARKER_INLET") (.list []))) ++
           lit " entries to match MARKER_INLET count, but found " ++
           natChars (incTypesList (dgetD d (lit "INC_INLET_TYPE") (.list []))).length,
         type := lit "inlet_count_mismatch",
         extra := [(lit "expected_count",
             .int (count_markers_in_list (dgetD d (lit "MARKER_INLET") (.list [])))),
           (lit "actual_count",
             .int (incTypesList (dgetD d (lit "INC_INLET_TYPE") (.list []))).length)] }] := by
  dsimp only [validate_inlet_consistency]
  cases hmv : dgetD d (lit "MARKER_INLET") (.list []) with
  | list l =>
    rw [hmv] at hc hl
    rw [if_pos (by
      simp only [Bool.and_eq_true, bne_iff_ne]
      exact ⟨hs, hc⟩)]
    rw [if_pos (by simp only [bne_iff_ne]; exact hl)]
  | none =>
    rw [hmv] at hc
    simp [count_markers_in_list] at hc
  | bool b =>
    rw [hmv] at hc
    simp [count_markers_in_list] at hc
  | int n =>
    rw [hmv] at hc
    simp [count_markers_in_list] at hc
  | float q =>
    rw [hmv] at hc
    simp [count_markers_in_list] at hc
  | str s2 =>
    rw [hmv] at hc
    simp [count_markers_in_list] at hc

/-! ### The numeric token grammars: spec grammar versus the parsers. -/

/-- A scalar (immutable) Python value in the heap model. -/
inductive HScalar where
  | none
  | bool (b : Bool)
  | int (n : Int)
  | float (q : ℚ)
  | str (s : PStr)

/-- A Python value: a scalar, or a reference to a list cell. -/
inductive HVal where
  | scalar (s : HScalar)
  | ref (i : Nat)

/-- The heap: list cell `i` holds the values `store[i]`. -/
abbrev Store := List (List HVal)

/-- A document whose values live in the heap. -/
abbrev HDoc := List (PStr × HVal)

/-- The list held by cell `i` (dangling references read as `[]`). -/
def readList (st : Store) (i : Nat) : List HVal := (st.get? i).getD []

/-- Allocate a fresh cell at the end of the store. -/
def alloc (st : Store) (cell : List HVal) : Store × Nat := (st ++ [cell], st.length)

/-- Overwrite cell `i` in place (the model of `list.extend`). -/
def setCell (st : Store) (i : Nat) (cell : List HVal) : Store := st.set i cell

/-- Scalar readback. -/
def hscalarC : HScalar → CValue
  | .none => .none
  | .bool b => .bool b
  | .int n => .int n
  | .float q => .float q
  | .str s => .str s

/-- Fuel-bounded readback of a heap value to a flat `CValue`. -/
def hToC (st : Store) : Nat → HVal → CValue
  | _, .scalar sc => hscalarC sc
  | 0, .ref _ => .none
  | fuel + 1, .ref i => .list ((readList st i).map (fun w => hToC st fuel w))

/-- Readback with fuel adequate for stores whose cells reference only
earlier cells. -/
def hread (st : Store) (v : HVal) : CValue := hToC st (st.length + 1) v

/-- `d.get(k)` on a heap document. -/
def hdget : HDoc → PStr → Option HVal
  | [], _ => Option.none
  | (k2, v) :: t, k => if k2 = k then some v else hdget t k

/-- `d.get(k, default)` read back to a flat value. -/
def hgetC (st : Store) (d : HDoc) (k : PStr) (dflt : CValue) : CValue :=
  match hdget d k with
  | some v => hread st v
  | Option.none => dflt

/-- Replacement part of heap-document assignment. -/
def hdsetRep : HDoc → PStr → HVal → HDoc
  | [], _, _ => []
  | (k2, v2) :: t, k, v =>
    if k2 = k then (k, v) :: hdsetRep t k v else (k2, v2) :: hdsetRep t k v

/-- `d[k] = v` on a heap document. -/
def hdset (d : HDoc) (k : PStr) (v : HVal) : HDoc :=
  if (hdget d k).isSome then hdsetRep d k v else d ++ [(k, v)]

/-- `d.pop(k, None)` on a heap document. -/
def hdpop : HDoc → PStr → HDoc
  | [], _ => []
  | (k2, v2) :: t, k => if k2 = k then hdpop t k else (k2, v2) :: hdpop t k

/-- Heap translation of the INC_EULER pass (scalar writes only). -/
def hFixPass1 (st : Store) (solver : CValue) (cfg0 : HDoc) : HDoc × List FixRec :=
  if pyEq solver (.str (lit "INC_EULER")) then
    let old := hgetC st cfg0 (lit "INC_DENSITY_MODEL") .none
    let st1 :=
      if ¬ pyEq old (.str (lit "CONSTANT")) then
        (hdset cfg0 (lit "INC_DENSITY_MODEL") (.scalar (.str (lit "CONSTANT"))),
         [{ path := [lit "INC_DENSITY_MODEL"],
            message := lit "Set INC_DENSITY_MODEL to CONSTANT (was " ++
              pyStr old ++ lit ")" }])
      else (cfg0, ([] : List FixRec))
    let cfg := st1.1
    let inc_energy :=
      match hdget cfg (lit "INC_ENERGY_EQUATION") with
      | some v => hread st v
      | Option.none => hgetC st cfg (lit "ENERGY_EQUATION") .none
    if pyBoolNorm inc_energy ≠ some false then
      (hdset cfg (lit "INC_ENERGY_EQUATION") (.scalar (.bool false)),
       st1.2 ++ [{ path := [lit "INC_ENERGY_EQUATION"],
                   message := lit "Set INC_ENERGY_EQUATION to NO for INC_EULER" }])
    else st1
  else (cfg0, [])

/-- Heap translation of the transition-requires-turbulence pass. -/
def hFixPass2 (st : Store) (cfg : HDoc) : HDoc × List FixRec :=
  let turb_model := hgetC st cfg (lit "KIND_TURB_MODEL") (.str (lit "NONE"))
  let trans_model := hgetC st cfg (lit "KIND_TRANS_MODEL") (.str (lit "NONE"))
  if !(pyMem trans_model [.str (lit "NONE"), .str (lit "NO_TRANS_MODEL")]) &&
      pyMem turb_model [.str (lit "NONE"), .str (lit "NO_TURB_MODEL")] then
    (hdset cfg (lit "KIND_TRANS_MODEL") (.scalar (.str (lit "NONE"))),
     [{ path := [lit "KIND_TRANS_MODEL"],
        message := lit "Disabled transition model " ++ pyStr trans_model ++
          lit " because no turbulence model is active" }])
  else (cfg, [])

/-- Heap translation of the LM/axisymmetric pass. -/
def hFixPass3 (st : Store) (cfg : HDoc) : HDoc × List FixRec :=
  if pyMem (hgetC st cfg (lit "AXISYMMETRIC") (.str (lit "NO")))
      [.str (lit "YES"), .bool true] &&
      pyEq (hgetC st cfg (lit "KIND_TRANS_MODEL") .none) (.str (lit "LM")) then
    (hdset cfg (lit "KIND_TRANS_MODEL") (.scalar (.str (lit "NONE"))),
     [{ path := [lit "KIND_TRANS_MODEL"],
        message := lit "Disabled LM transition for axisymmetric flow" }])
  else (cfg, [])

/-- Heap translation of the inlet-type reconciliation pass: `list(types)`
allocates a fresh copy, `types.extend` mutates only that copy, and the
slice `types[:inlet_count]` allocates again. -/
def hFixPass4 (st : Store) (solver : CValue) (cfg : HDoc) :
    HDoc × Store × List FixRec :=
  if pyMem solver [.str (lit "INC_EULER"), .str (lit "INC_NAVIER_STOKES"),
      .str (lit "INC_RANS")] then
    let marker_inlet := hgetC st cfg (lit "MARKER_INLET") (.list [])
    let inlet_count := count_markers_in_list marker_inlet
    if inlet_count > 0 then
      let typesH : List HVal :=
        match hdget cfg (lit "INC_INLET_TYPE") with
        | some (.ref i) => readList st i
        | some (.scalar (.str s)) => [.scalar (.str s)]
        | some (.scalar _) => []
        | Option.none => []
      let stj := alloc st typesH
      if typesH.length < inlet_count then
        let default_type := typesH.getLast?.getD (.scalar (.str (lit "VELOCITY_INLET")))
        let missing := inlet_count - typesH.length
        let st2 := setCell stj.1 stj.2 (typesH ++ List.replicate missing default_type)
        (hdset cfg (lit "INC_INLET_TYPE") (.ref stj.2), st2,
         [{ path := [lit "INC_INLET_TYPE"],
            message := lit "Extended INC_INLET_TYPE to " ++ natChars inlet_count ++
              lit " entries using default " ++ pyStr (hread st default_type) }])
      else if inlet_count < typesH.length then
        let stj2 := alloc stj.1 (typesH.take inlet_count)
        (hdset cfg (lit "INC_INLET_TYPE") (.ref stj2.2), stj2.1,
         [{ path := [lit "INC_INLET_TYPE"],
            message := lit "Trimmed INC_INLET_TYPE to " ++ natChars inlet_count ++
              lit " entries to match MARKER_INLET" }])
      else (cfg, stj.1, [])
    else (cfg, st, [])
  else (cfg, st, [])

/-- One key of the heap Euler-marker pass: the pop and the collection of
string names read the cell without writing. -/
def hFixPass5Step (st : Store) (acc : HDoc × List PStr) (key : PStr) :
    HDoc × List PStr :=
  match hdget acc.1 key with
  | some (.ref i) =>
    if !(readList st i).isEmpty then
      (hdpop acc.1 key,
       acc.2 ++ (readList st i).filterMap (fun el =>
         match el with
         | .scalar (.str s) => some s
         | _ => Option.none))
    else acc
  | _ => acc

/-- Heap translation of the thermal-wall-to-Euler pass: `list(euler_list)
+ moved` allocates the new `MARKER_EULER` cell; non-iterable existing
values raise `TypeError`. -/
def hFixPass5 (st : Store) (solver : CValue) (cfg0 : HDoc) :
    Except PStr (HDoc × Store × List FixRec) :=
  if pyMem solver [.str (lit "EULER"), .str (lit "INC_EULER"),
      .str (lit "FEM_EULER"), .str (lit "NEMO_EULER")] then
    let euler0 := hdget cfg0 (lit "MARKER_EULER")
    let stacc := heatMarkerKeysFix.foldl (hFixPass5Step st) (cfg0, [])
    let cfg := stacc.1
    let moved := stacc.2
    if !moved.isEmpty then
      match euler0 with
      | some (.ref i) =>
        let stj := alloc st (readList st i ++ moved.map (fun s => .scalar (.str s)))
        .ok (hdset cfg (lit "MARKER_EULER") (.ref stj.2), stj.1,
          [{ path := [lit "MARKER_EULER"],
             message := lit "Converted thermal wall markers to Euler walls: " ++
               pyStr (.list (moved.map .str)) }])
      | some (.scalar (.str s)) =>
        let stj := alloc st ([HVal.scalar (.str s)] ++ moved.map (fun s2 => .scalar (.str s2)))
        .ok (hdset cfg (lit "MARKER_EULER") (.ref stj.2), stj.1,
          [{ path := [lit "MARKER_EULER"],
             message := lit "Converted thermal wall markers to Euler walls: " ++
               pyStr (.list (moved.map .str)) }])
      | some (.scalar sc) =>
        .error ((quoteS :: (pyTypeName (hscalarC sc) ++ [quoteS])) ++
          lit " object is not iterable")
      | Option.none =>
        let stj := alloc st (moved.map (fun s => .scalar (.str s)))
        .ok (hdset cfg (lit "MARKER_EULER") (.ref stj.2), stj.1,
          [{ path := [lit "MARKER_EULER"],
             message := lit "Converted thermal wall markers to Euler walls: " ++
               pyStr (.list (moved.map .str)) }])
    else .ok (cfg, st, [])
  else .ok (cfg0, st, [])

/-- Heap translation of `apply_auto_fixes`: the store is threaded through
the allocating passes. -/
def happly_auto_fixes (st : Store) (config_data : HDoc) :
    Except PStr (HDoc × Store × List FixRec) :=
  let solver := hgetC st config_data (lit "SOLVER") (.str [])
  let s1 := hFixPass1 st solver config_data
  let s2 := hFixPass2 st s1.1
  let s3 := hFixPass3 st s2.1
  let s4 := hFixPass4 st solver s3.1
  match hFixPass5 s4.2.1 solver s4.1 with
  | .ok s5 => .ok (s5.1, s5.2.1, s1.2 ++ s2.2 ++ s3.2 ++ s4.2.2 ++ s5.2.2)
  | .error e => .error e

theorem set_append_len (a : List (List HVal)) (x y : List HVal) :
    (a ++ [x]).set a.length y = a ++ [y] := by
  induction a with
  | nil => rfl
  | cons e t ih =>
    simp only [List.cons_append, List.length_cons, List.set_cons_succ]
    rw [ih]

theorem hFixPass4_store (st : Store) (solver : CValue) (cfg : HDoc) :
    ∃ ext, (hFixPass4 st solver cfg).2.1 = st ++ ext := by
  dsimp only [hFixPass4]
  split
  · split
    · split
      · dsimp only [alloc, setCell]
        exact ⟨_, set_append_len st _ _⟩
      · split
        · dsimp only [alloc]
          exact ⟨_, List.append_assoc _ _ _⟩
        · exact ⟨_, rfl⟩
    · exact ⟨[], by simp⟩
  · exact ⟨[], by simp⟩

theorem hFixPass5_store (st : Store) (solver : CValue) (cfg d2 : HDoc)
    (st2 : Store) (r : List FixRec)
    (h : hFixPass5 st solver cfg = .ok (d2, st2, r)) :
    ∃ ext, st2 = st ++ ext := by
  dsimp only [hFixPass5] at h
  split at h
  · split at h
    · split at h
      all_goals
        first
        | (simp only [Except.ok.injEq, Prod.mk.injEq] at h
           exact ⟨_, h.2.1.symm⟩)
        | simp at h
    · simp only [Except.ok.injEq, Prod.mk.injEq] at h
      exact ⟨[], by rw [← h.2.1]; simp⟩
  · simp only [Except.ok.injEq, Prod.mk.injEq] at h
    exact ⟨[], by rw [← h.2.1]; simp⟩

theorem happly_store_extends (st : Store) (d d2 : HDoc) (st2 : Store)
    (r : List FixRec) (h : happly_auto_fixes st d = .ok (d2, st2, r)) :
    ∃ ext, st2 = st ++ ext := by
  dsimp only [happly_auto_fixes] at h
  split at h
  · rename_i s5 hres5
    obtain ⟨e4, hst4⟩ := hFixPass4_store st (hgetC st d (lit "SOLVER") (.str []))
      (hFixPass3 st (hFixPass2 st (hFixPass1 st
        (hgetC st d (lit "SOLVER") (.str [])) d).1).1).1
    rw [hst4] at hres5
    obtain ⟨e5, hst5⟩ := hFixPass5_store _ _ _ _ _ _ hres5
    simp only [Except.ok.injEq, Prod.mk.injEq] at h
    refine ⟨e4 ++ e5, ?_⟩
    rw [← h.2.1, hst5, List.append_assoc]
  · simp at h

/-! ### The claims. -/

/-- C1.  For `{SOLVER: "EULER", MARKER_HEATFLUX: [["wall1", 1000.0]]}`,
rule evaluation emits exactly one `euler_heat_marker_incompatible` error,
as the claim states; but the auto-fix engine, while removing
`MARKER_HEATFLUX`, produces no `MARKER_EULER` key at all (the nested
`["wall1", 1000.0]` entry is not a string, so no name is collected and no
fix record is produced), contradicting the claim that `MARKER_EULER`
contains `"wall1"` afterwards. -/
theorem claim_C1 :
    (∃ i : VIssue,
      perform_custom_validations
        [(lit "SOLVER", CValue.str (lit "EULER")),
         (lit "MARKER_HEATFLUX",
          CValue.list [CValue.list [CValue.str (lit "wall1"), CValue.float 1000]])] =
        .ok [i] ∧
      i.type = lit "euler_heat_marker_incompatible") ∧
    ∃ d r, apply_auto_fixes
        [(lit "SOLVER", CValue.str (lit "EULER")),
         (lit "MARKER_HEATFLUX",
          CValue.list [CValue.list [CValue.str (lit "wall1"), CValue.float 1000]])] =
        .ok (d, r) ∧
      dcontains d (lit "MARKER_HEATFLUX") = false ∧
      dget d (lit "MARKER_EULER") = Option.none ∧ r = [] :=
  ⟨⟨_, rfl, rfl⟩, _, _, rfl, rfl, rfl, rfl⟩

/-- C2.  The auto-fix engine is idempotent on every document on which it
succeeds: a second application returns the same document with no fix
records.  (The unconditional claim fails: on documents with a truthy
non-iterable `MARKER_EULER` and a non-empty thermal marker list the first
application raises `TypeError`, see the counterexample.) -/
theorem claim_C2 (D d1 : Doc) (r1 : List FixRec)
    (h : apply_auto_fixes D = .ok (d1, r1)) :
    apply_auto_fixes d1 = .ok (d1, []) :=
  apply_auto_fixes_idem D d1 r1 h

theorem claim_C2_witness : apply_auto_fixes ([] : Doc) = .ok ([], []) :=
  claim_C2 [] [] [] rfl

/-- C2 counterexample: `apply_fixes` is not total, so the spec's
unconditional idempotence statement does not hold for every document —
with `SOLVER: "EULER"`, a non-empty `MARKER_HEATFLUX` list and
`MARKER_EULER: 5`, the engine raises
a `TypeError` saying the int object is not iterable. -/
theorem claim_C2_counterexample :
    apply_auto_fixes
      [(lit "SOLVER", CValue.str (lit "EULER")),
       (lit "MARKER_HEATFLUX", CValue.list [CValue.str (lit "w")]),
       (lit "MARKER_EULER", CValue.int 5)] =
      .error ((quoteS :: (lit "int" ++ [quoteS])) ++ lit " object is not iterable") :=
  rfl

/-- C3.  Serialize-then-parse is the identity on documents with
well-formed keys and representable scalar or single-level-list values
(`docOk`), under a header that the parser ignores (`headerOk`).  The
side conditions exclude the omitted `none`-strings (see the
counterexample), strings that strip, quote, or parse differently, and
nested lists (the documented lossy case). -/
theorem claim_C3 (desc : PStr) (d : Doc) (hh : headerOk desc) (hd : docOk d) :
    convert_cfg_to_json (cfg_lines_of_json desc d) = .ok d :=
  convert_roundtrip desc d hh hd

theorem claim_C3_witness :
    convert_cfg_to_json (cfg_lines_of_json (lit "% SU2")
      [(lit "SOLVER", CValue.str (lit "EULER")), (lit "ITER", CValue.int 20)]) =
      .ok [(lit "SOLVER", CValue.str (lit "EULER")), (lit "ITER", CValue.int 20)] :=
  claim_C3 (lit "% SU2")
    [(lit "SOLVER", CValue.str (lit "EULER")), (lit "ITER", CValue.int 20)]
    (by unfold headerOk; decide)
    (by
      constructor
      · decide
      · intro kv hkv
        simp only [List.mem_cons, List.not_mem_nil, or_false] at hkv
        rcases hkv with h | h
        · subst h
          refine ⟨by unfold keyOk; decide, ?_⟩
          show stableScalarStr (lit "EULER")
          unfold stableScalarStr
          exact ⟨rfl, rfl, by decide, by decide, by decide, by decide, by decide,
            by decide⟩
        · subst h
          exact ⟨by unfold keyOk; decide, trivial⟩)

/-- C3 counterexample: the string scalar `"none"` is a representable
scalar in the claim's sense, but the serializer omits it, so the round
trip returns the empty document instead of the original one. -/
theorem claim_C3_counterexample :
    convert_cfg_to_json
      (cfg_lines_of_json (lit "% SU2") [(lit "A", CValue.str (lit "none"))]) = .ok [] ∧
    dget [(lit "A", CValue.str (lit "none"))] (lit "A") =
      some (CValue.str (lit "none")) := by
  constructor
  · unfold convert_cfg_to_json cfg_lines_of_json
    rw [show ([(lit "A", CValue.str (lit "none"))] : Doc).filterMap
      (fun kv => fmtEntryLine kv.1 kv.2) = ([] : List PStr) from rfl]
    rw [convLoop]
    simp +decide [pyStrip, pyStarts, pyWs, lit]
    rw [convLoop]
  · rfl

/-- C4.  Whenever the solver is in the incompressible family and the
inlet-marker count is non-zero (the amendment: the source guards on a
truthy `inlet_count`, so count `0` with a non-empty type list raises no
error), a length mismatch between `INC_INLET_TYPE` and the counted
markers yields exactly the inlet-count-mismatch error carrying the
expected and actual counts; and on the concrete Scenario C document the
validator emits that single error with expected 3 / actual 2 while the
auto-fix engine extends the list to length 3 with one fix record. -/
theorem claim_C4 (d : Doc)
    (hs : pyMem (dgetD d (lit "SOLVER") (.str [])) incFam = true)
    (hc : count_markers_in_list (dgetD d (lit "MARKER_INLET") (.list [])) ≠ 0)
    (hl : (incTypesList (dgetD d (lit "INC_INLET_TYPE") (.list []))).length ≠
      count_markers_in_list (dgetD d (lit "MARKER_INLET") (.list []))) :
    validate_inlet_consistency d =
      [{ path := [lit "INC_INLET_TYPE"],
         message := lit "INC_INLET_TYPE must have exactly " ++
           natChars (count_markers_in_list (dgetD d (lit "MARKER_INLET") (.list []))) ++
           lit " entries to match MARKER_INLET count, but found " ++
           natChars (incTypesList (dgetD d (lit "INC_INLET_TYPE") (.list []))).length,
         type := lit "inlet_count_mismatch",
         extra := [(lit "expected_count",
             .int (count_markers_in_list (dgetD d (lit "MARKER_INLET") (.list [])))),
           (lit "actual_count",
             .int (incTypesList (dgetD d (lit "INC_INLET_TYPE") (.list []))).length)] }] ∧
    (∃ i : VIssue,
      perform_custom_validations
        [(lit "SOLVER", CValue.str (lit "INC_NAVIER_STOKES")),
         (lit "MARKER_INLET", CValue.list
           [CValue.str (lit "in1"), CValue.str (lit "in2"), CValue.str (lit "in3")]),
         (lit "INC_INLET_TYPE", CValue.list
           [CValue.str (lit "VELOCITY_INLET"), CValue.str (lit "PRESSURE_INLET")])] =
        .ok [i] ∧
      i.type = lit "inlet_count_mismatch" ∧
      i.extra = [(lit "expected_count", CValue.int 3),
        (lit "actual_count", CValue.int 2)]) ∧
    ∃ d4 r, apply_auto_fixes
        [(lit "SOLVER", CValue.str (lit "INC_NAVIER_STOKES")),
         (lit "MARKER_INLET", CValue.list
           [CValue.str (lit "in1"), CValue.str (lit "in2"), CValue.str (lit "in3")]),
         (lit "INC_INLET_TYPE", CValue.list
           [CValue.str (lit "VELOCITY_INLET"), CValue.str (lit "PRESSURE_INLET")])] =
        .ok (d4, r) ∧
      (incTypesList (dgetD d4 (lit "INC_INLET_TYPE") (.list []))).length = 3 ∧
      r.length = 1 :=
  ⟨validate_inlet_mismatch d hs hc hl, ⟨_, rfl, rfl, rfl⟩, _, _, rfl, rfl, rfl⟩

theorem claim_C4_witness :
    validate_inlet_consistency
      [(lit "SOLVER", CValue.str (lit "INC_RANS")),
       (lit "MARKER_INLET", CValue.list [CValue.str (lit "in1")]),
       (lit "INC_INLET_TYPE", CValue.list [])] =
      [{ path := [lit "INC_INLET_TYPE"],
         message := lit "INC_INLET_TYPE must have exactly " ++ natChars 1 ++
           lit " entries to match MARKER_INLET count, but found " ++ natChars 0,
         type := lit "inlet_count_mismatch",
         extra := [(lit "expected_count", CValue.int 1),
           (lit "actual_count", CValue.int 0)] }] := by
  have h := (claim_C4
    [(lit "SOLVER", CValue.str (lit "INC_RANS")),
     (lit "MARKER_INLET", CValue.list [CValue.str (lit "in1")]),
     (lit "INC_INLET_TYPE", CValue.list [])]
    (by decide) (by decide) (by decide)).1
  exact h

/-- C4 counterexample: with zero counted inlet markers the rule is
skipped even though the list lengths differ, so the unconditional
"whenever the length differs" reading of the claim fails. -/
theorem claim_C4_counterexample :
    validate_inlet_consistency
      [(lit "SOLVER", CValue.str (lit "INC_NAVIER_STOKES")),
       (lit "MARKER_INLET", CValue.list []),
       (lit "INC_INLET_TYPE", CValue.list [CValue.str (lit "VELOCITY_INLET")])] = [] ∧
    (incTypesList (dgetD
      [(lit "SOLVER", CValue.str (lit "INC_NAVIER_STOKES")),
       (lit "MARKER_INLET", CValue.list []),
       (lit "INC_INLET_TYPE", CValue.list [CValue.str (lit "VELOCITY_INLET")])]
      (lit "INC_INLET_TYPE") (.list []))).length = 1 ∧
    count_markers_in_list (dgetD
      [(lit "SOLVER", CValue.str (lit "INC_NAVIER_STOKES")),
       (lit "MARKER_INLET", CValue.list []),
       (lit "INC_INLET_TYPE", CValue.list [CValue.str (lit "VELOCITY_INLET")])]
      (lit "MARKER_INLET") (.list [])) = 0 :=
  ⟨rfl, rfl, rfl⟩

/-- C5.  `parse_single_value` recognizes, case-insensitively, YES/TRUE/ON
as `True` and NO/FALSE/OFF as `False`, ahead of numeric and string
interpretation; `parse_value` in `json_validation.py` recognizes only
YES/TRUE and NO/FALSE (the amendment — ON/OFF fall through to the string
branch there, see the counterexample). -/
theorem claim_C5 (s : PStr) :
    (pyUpper (pyStrip s) = lit "YES" ∨ pyUpper (pyStrip s) = lit "TRUE" ∨
        pyUpper (pyStrip s) = lit "ON" → parse_single_value s = .bool true) ∧
    (pyUpper (pyStrip s) = lit "NO" ∨ pyUpper (pyStrip s) = lit "FALSE" ∨
        pyUpper (pyStrip s) = lit "OFF" → parse_single_value s = .bool false) ∧
    (pyUpper (pyStrip s) = lit "YES" ∨ pyUpper (pyStrip s) = lit "TRUE" →
        parse_value s = .bool true) ∧
    (pyUpper (pyStrip s) = lit "NO" ∨ pyUpper (pyStrip s) = lit "FALSE" →
        parse_value s = .bool false) :=
  ⟨parse_single_value_true s, parse_single_value_false s,
   parse_value_true s, parse_value_false s⟩

theorem claim_C5_witness :
    parse_single_value (lit " on ") = .bool true ∧
    parse_single_value (lit "Off") = .bool false ∧
    parse_value (lit "Yes") = .bool true ∧
    parse_value (lit "false") = .bool false :=
  ⟨(claim_C5 (lit " on ")).1 (by decide),
   (claim_C5 (lit "Off")).2.1 (by decide),
   (claim_C5 (lit "Yes")).2.2.1 (by decide),
   (claim_C5 (lit "false")).2.2.2 (by decide)⟩

/-- C5 counterexample: `json_validation.parse_value` does not recognize
ON/OFF — both come back as strings, not booleans. -/
theorem claim_C5_counterexample :
    parse_value (lit "ON") = .str (lit "ON") ∧
    parse_value (lit "off") = .str (lit "off") :=
  ⟨rfl, rfl⟩

/-- C7.  `json_validation.cfg_to_json_dict` skips, with a warning and
without raising, any processed line without `'='` and any line whose key
is empty after trimming, adding no entry; the same claim is false for
`SU2ConfigValidator.convert_cfg_to_json`, which silently stores an
empty-key entry and can raise on comment-masked `'='` (see the
counterexample). -/
theorem claim_C7 (n : Nat) (raw : PStr) (st : Doc × List PStr)
    (h1 : ((pyStrip raw).isEmpty || pyStarts (lit "%") (pyStrip raw)) = false)
    (h2 : (cfgLine2 raw).isEmpty = false) :
    (splitFirstEq (cfgLine2 raw) = Option.none →
      cfgLineStep n raw st =
        (st.1, st.2 ++ [lit "Warning: Line " ++ natChars n ++
          lit " does not contain \"=\" - skipping: " ++ cfgLine2 raw])) ∧
    (∀ kv, splitFirstEq (cfgLine2 raw) = some kv → pyStrip kv.1 = [] →
      cfgLineStep n raw st =
        (st.1, st.2 ++ [lit "Warning: Line " ++ natChars n ++
          lit " has empty key - skipping: " ++ cfgLine2 raw])) :=
  ⟨fun h3 => cfgLineStep_noeq n raw st h1 h2 h3,
   fun kv h3 h4 => cfgLineStep_emptykey n raw st kv h1 h2 h3 h4⟩

theorem claim_C7_witness :
    cfgLineStep 1 (lit "KEY 5") ([], []) =
      ([], [lit "Warning: Line " ++ natChars 1 ++
        lit " does not contain \"=\" - skipping: " ++ cfgLine2 (lit "KEY 5")]) ∧
    cfgLineStep 2 (lit "= 5") ([], []) =
      ([], [lit "Warning: Line " ++ natChars 2 ++
        lit " has empty key - skipping: " ++ cfgLine2 (lit "= 5")]) :=
  ⟨(claim_C7 1 (lit "KEY 5") ([], []) (by decide) (by decide)).1 rfl,
   (claim_C7 2 (lit "= 5") ([], []) (by decide) (by decide)).2 ([], lit " 5") rfl rfl⟩

/-- C7 counterexample: `convert_cfg_to_json` stores an entry under the
empty key instead of skipping the line, and raises (the source wraps the
`ValueError` from unpacking) on a line whose only `'='` is hidden behind
the inline comment marker — in neither case does it warn and skip. -/
theorem claim_C7_counterexample :
    convert_cfg_to_json [lit "= 5"] = .ok [([], CValue.int 5)] ∧
    convert_cfg_to_json [lit "KEY %= 5"] =
      .error (lit "Error parsing CFG file: not enough values to unpack (expected 2, got 1)") := by
  constructor
  · unfold convert_cfg_to_json
    rw [convLoop]
    simp +decide [contJoin, splitFirstEq, parse_config_value, parse_single_value,
      pyStrip, pyHas, pyStarts, pyEnds, lit, pyWs]
    rw [convLoop]
    rfl
  · unfold convert_cfg_to_json
    rw [convLoop]
    simp +decide [contJoin, splitFirstEq, parse_config_value, parse_single_value,
      pyStrip, pyHas, pyStarts, pyEnds, lit, pyWs]

/-- C8.  In every validation run the `valid` flag is true exactly when
the combined schema-plus-semantic error list is empty; the guidance
warnings never enter this equivalence. -/
theorem claim_C8 (load : Except PStr Doc) (schemaOn : Bool)
    (schemaErrs : List VIssue) (auto_fix : Bool) :
    (validate_config_file load schemaOn schemaErrs auto_fix).valid = true ↔
      (validate_config_file load schemaOn schemaErrs auto_fix).errors = [] :=
  valid_iff_errors load schemaOn schemaErrs auto_fix

/-- C9.  The heap embedding of `apply_auto_fixes` only ever extends the
store: every list cell reachable from the caller's document before the
call holds the same values afterwards, so all corrections live in fresh
cells referenced only from the returned document. -/
theorem claim_C9 (st : Store) (d d2 : HDoc) (st2 : Store) (r : List FixRec)
    (h : happly_auto_fixes st d = .ok (d2, st2, r)) :
    (∃ ext, st2 = st ++ ext) ∧ ∀ i, i < st.length → st2[i]? = st[i]? := by
  obtain ⟨ext, hext⟩ := happly_store_extends st d d2 st2 r h
  refine ⟨⟨ext, hext⟩, ?_⟩
  intro i hi
  rw [hext]
  exact List.getElem?_append_left hi

theorem claim_C9_witness :
    (∃ ext, ([[HVal.scalar (.str (lit "w"))]] : Store) =
      [[HVal.scalar (.str (lit "w"))]] ++ ext) ∧
    ∀ i, i < ([[HVal.scalar (.str (lit "w"))]] : Store).length →
      ([[HVal.scalar (.str (lit "w"))]] : Store)[i]? =
        ([[HVal.scalar (.str (lit "w"))]] : Store)[i]? :=
  claim_C9 [[HVal.scalar (.str (lit "w"))]]
    [(lit "SOLVER", HVal.scalar (.str (lit "RANS"))),
     (lit "MARKER_HEATFLUX", HVal.ref 0)]
    [(lit "SOLVER", HVal.scalar (.str (lit "RANS"))),
     (lit "MARKER_HEATFLUX", HVal.ref 0)]
    [[HVal.scalar (.str (lit "w"))]] [] rfl

/-- C10.  With auto-fix enabled, on every successful run the returned
warnings are exactly the guidance warnings computed on the original
pre-fix document, while the returned document, fix records and semantic
errors come from the fixed document. -/
theorem claim_C10 (D : Doc) (schemaOn : Bool) (schemaErrs : List VIssue)
    (ce0 ce2 : List VIssue) (fx : Doc × List FixRec)
    (h1 : perform_custom_validations D = .ok ce0)
    (h2 : apply_auto_fixes D = .ok fx)
    (h3 : perform_custom_validations fx.1 = .ok ce2) :
    (validate_config_file (.ok D) schemaOn schemaErrs true).warnings =
      some (perform_guidance_warnings D) ∧
    (validate_config_file (.ok D) schemaOn schemaErrs true).config_data = some fx.1 ∧
    (validate_config_file (.ok D) schemaOn schemaErrs true).applied_fixes = fx.2 ∧
    (validate_config_file (.ok D) schemaOn schemaErrs true).errors =
      (if schemaOn then schemaErrs else []) ++ ce2 :=
  validate_autofix_fields D schemaOn schemaErrs ce0 ce2 fx h1 h2 h3

theorem claim_C10_witness :
    (validate_config_file (.ok []) false [] true).warnings =
      some (perform_guidance_warnings []) ∧
    (validate_config_file (.ok []) false [] true).config_data = some [] ∧
    (validate_config_file (.ok []) false [] true).applied_fixes = [] ∧
    (validate_config_file (.ok []) false [] true).errors =
      (if false then [] else ([] : List VIssue)) ++ [] :=
  claim_C10 [] false [] [] [] ([], []) rfl rfl rfl
